import Mathlib

/-!
# sgame: the asteroids demo, the snake demo and the window resize

A shallow embedding of the simulation core of the asteroids demo
(`asteroids_demo.cpp`), of the snake demo (`snake_demo.cpp`) and of the
`preserve_aspect_ratio` resize of `sg::run` (`simple_game_window.cpp`).

* `double` is an ordered field `K` with a floor function, together with the
  rounding `fl : K → K` of the environment.  The reload timer, the time-to-live
  of a bullet and the painting round as the program does; the geometry
  (positions, `intersect`, `collide`) is kept in exact arithmetic.  With `fl`
  the identity all arithmetic is exact; `fl64` is the rounding to the nearest
  binary64 number on `ℚ`.  Every definition is computable at `K = ℚ`.
* The C library functions `sqrt`, `cos`, `sin`, `hypot` are parameters (`Libm`).
* `rand()` is a stream of integers with a read position kept in the state.
* `assert` failures, out-of-range reads of `asteroid_sizes` and loops that
  exhaust their fuel are explicit faults (`Except Fault`).
-/

set_option linter.unusedSectionVars false

namespace Sgame

/-- Ways in which a run of the program can fail to produce a value. -/
inductive Fault where
  | assert_failed
  | out_of_bounds
  | out_of_fuel
deriving DecidableEq

/-- The functions of the C math library that the program calls; their
definitions are not part of the repository. -/
structure Libm (K : Type) where
  sqrt : K → K
  cos : K → K
  sin : K → K
  hypot : K → K → K

/-- `struct point`. -/
structure point (K : Type) where
  x : K
  y : K
deriving DecidableEq

section geometry

variable {K : Type} [LinearOrderedField K]

/-- `point operator+(point a, point b)`. -/
instance : Add (point K) := ⟨fun a b => ⟨a.x + b.x, a.y + b.y⟩⟩

/-- `point operator-(point a, point b)`. -/
instance : Sub (point K) := ⟨fun a b => ⟨a.x - b.x, a.y - b.y⟩⟩

/-- `point operator*(point a, double b)`. -/
def point.scale (a : point K) (b : K) : point K := ⟨a.x * b, a.y * b⟩

/-- `point operator*(double a, point b)`. -/
def point.lscale (a : K) (b : point K) : point K := ⟨a * b.x, a * b.y⟩

/-- `double dot(point a, point b)`. -/
def dot (a b : point K) : K := a.x * b.x + a.y * b.y

/-- `double norm2(point a)`. -/
def norm2 (a : point K) : K := a.x * a.x + a.y * a.y

/-- `double norm(point a)`: `hypot(a.x, a.y)`. -/
def norm (m : Libm K) (a : point K) : K := m.hypot a.x a.y

/-- `double distance2(point a, point b)`. -/
def distance2 (a b : point K) : K := norm2 (a - b)

/-- `double distance(point a, point b)`. -/
def distance (m : Libm K) (a b : point K) : K := norm m (a - b)

/-- The test `t >= 0 && t <= 1` on the quotient `t = num / a` of two doubles.
A zero divisor makes the quotient an infinity or a NaN, and every such value
fails the test. -/
def quotient_in_01 (num a : K) : Bool :=
  if a = 0 then false else decide (num / a ≥ 0) && decide (num / a ≤ 1)

/-- `bool intersect(point p, point q, point cc, double r)`. -/
def intersect (m : Libm K) (p q cc : point K) (r : K) : Except Fault Bool :=
  if ¬ (r > 0) then .error .assert_failed
  else
    let p := p - cc
    let q := q - cc
    let a := norm2 p - 2 * dot p q + norm2 q
    let b := dot p q - norm2 q
    let c := norm2 q - r * r
    let d := b * b - a * c
    if d < 0 then .ok false
    else if quotient_in_01 (-b - m.sqrt d) a then .ok true
    else if quotient_in_01 (-b - m.sqrt d) a then .ok true
    else .ok false

/-- The one-root test in the words of the claim: `d >= 0` and
`0 <= (-b - sqrt(d))/a <= 1`, on the coefficients that `intersect` computes
(the quotient is the quotient of doubles, see `quotient_in_01`). -/
def one_root_test (m : Libm K) (p q cc : point K) (r : K) : Bool :=
  let p := p - cc
  let q := q - cc
  let a := norm2 p - 2 * dot p q + norm2 q
  let b := dot p q - norm2 q
  let c := norm2 q - r * r
  let d := b * b - a * c
  decide (d ≥ 0) && quotient_in_01 (-b - m.sqrt d) a

/-- The function `intersect` with the lines of the second root `t2` removed. -/
def intersect_without_t2 (m : Libm K) (p q cc : point K) (r : K) : Except Fault Bool :=
  if ¬ (r > 0) then .error .assert_failed
  else
    let p := p - cc
    let q := q - cc
    let a := norm2 p - 2 * dot p q + norm2 q
    let b := dot p q - norm2 q
    let c := norm2 q - r * r
    let d := b * b - a * c
    if d < 0 then .ok false
    else if quotient_in_01 (-b - m.sqrt d) a then .ok true
    else .ok false

end geometry

/-! ## The asteroids model -/

/-- `enum class ship_rotation`. -/
inductive ship_rotation where
  | none
  | left
  | right
deriving DecidableEq

/-- `struct asteroid`. -/
structure asteroid (K : Type) where
  pos : point K
  velocity : point K
  size : Int
  health : Int
deriving DecidableEq

/-- `struct bullet`. -/
structure bullet (K : Type) where
  pos : point K
  velocity : point K
  ttl : K
deriving DecidableEq

/-- What the program takes from outside the repository: the math library, the
values `rand()` returns (by call number), `RAND_MAX`, the indeterminate
value that the uninitialised counter `i` of `gen_asteroid` holds when the call
starts (by the number of `rand()` calls made before it), and `fl`, the rounding
of a number to the nearest `double`: an arithmetic operation on `double` is the
exact operation followed by `fl`, and a decimal literal `c` is the double
`fl c`.  The model rounds where a comparison of the result with a constant
settles a property at the rounding boundary: the reload timer and the
time-to-live of a bullet (both compared with `0`) and the wrap tests of the
painting; with `fl` the identity the arithmetic is the exact one. -/
structure Env (K : Type) where
  libm : Libm K
  rand : Nat → Nat
  RAND_MAX : Nat
  uninit_i : Nat → Nat
  fl : K → K

/-- The properties of the rounding `fl` that the proofs use.  Each holds of the
rounding to the nearest `double` (`fl64` below) and of the exact arithmetic
(`fl` the identity): the rounding is monotone, it keeps `0`, it keeps a number
that is rounded already, on `[-1, 1]` it errs by at most `2^-53` (half the last
binary digit), the difference of two different doubles does not round to `0`
(gradual underflow), `1/2` is a double, and a double of `[1/2, 1]` less `1` is
a double. -/
structure double_rounding {K : Type} [LinearOrderedField K] (fl : K → K) : Prop where
  mono : ∀ x y, x ≤ y → fl x ≤ fl y
  zero : fl 0 = 0
  idem : ∀ x, fl (fl x) = fl x
  error : ∀ x, |x| ≤ 1 → |fl x - x| ≤ 1 / 2 ^ 53
  no_flush : ∀ a b, fl a = a → fl b = b → fl (a - b) = 0 → a = b
  half : fl (1 / 2) = 1 / 2
  sub_one : ∀ v, fl v = v → 1 / 2 ≤ v → v ≤ 1 → fl (v - 1) = v - 1

/-- Rounding of a rational number to the nearest integer, a tie to the even
one. -/
def round_even (y : ℚ) : ℤ :=
  if y - ⌊y⌋ < 1 / 2 then ⌊y⌋
  else if 1 / 2 < y - ⌊y⌋ then ⌊y⌋ + 1
  else if ⌊y⌋ % 2 = 0 then ⌊y⌋ else ⌊y⌋ + 1

/-- The exponent of the last binary digit of a `double` of the size of `x`:
53 digits from the leading one, and not below `-1074`, the exponent of the
smallest subnormal number. -/
def quantum (x : ℚ) : ℤ := max (Int.log 2 |x| - 52) (-1074)

/-- The rounding of a rational number to the nearest `double` (IEEE 754
binary64, round to nearest, ties to even), the arithmetic of the machines the
program runs on; numbers beyond the largest `double` (about `1.8e308`), which
the program does not reach, are rounded as if the exponent had no upper limit. -/
def fl64 (x : ℚ) : ℚ := (round_even (x / 2 ^ quantum x) : ℚ) * 2 ^ quantum x

/-- The numbers that are a `double`: an integer of at most 53 binary digits
times a power of two that is at least the smallest subnormal. -/
def is_double (v : ℚ) : Prop := ∃ m q : ℤ, |m| ≤ 2 ^ 53 ∧ -1074 ≤ q ∧ v = m * 2 ^ q

/-- The data members of `asteroids_model`, together with `rand_pos`, the number
of `rand()` calls made so far (the state of the C library generator). -/
structure asteroids_model (K : Type) where
  dead : Bool
  ship : point K
  ship_velocity : point K
  ship_yaw : K
  ship_rot : ship_rotation
  engine_enabled : Bool
  shooting_enabled : Bool
  time_till_next_shot : K
  asteroids : List (asteroid K)
  bullets : List (bullet K)
  rand_pos : Nat

/-- `SDL_Keycode`: the key codes that the `switch` statements of the demos
name as case labels (pairwise distinct constants of the SDL headers), and
`other` for every remaining code. -/
inductive SDL_Keycode where
  | SDLK_LEFT
  | SDLK_a
  | SDLK_RIGHT
  | SDLK_d
  | SDLK_UP
  | SDLK_w
  | SDLK_DOWN
  | SDLK_s
  | SDLK_SPACE
  | SDLK_LCTRL
  | SDLK_RCTRL
  | SDLK_ESCAPE
  | SDLK_RETURN
  | SDLK_f
  | SDLK_q
  | other
deriving DecidableEq

/-- `KMOD_LALT` of the SDL headers. -/
def KMOD_LALT : Nat := 0x0100

/-- `KMOD_RALT` of the SDL headers. -/
def KMOD_RALT : Nat := 0x0200

/-- `sg::model::key_down_params`. -/
structure key_down_params where
  key : SDL_Keycode
  mod : Nat
deriving DecidableEq

/-- `sg::model::key_up_params`. -/
structure key_up_params where
  key : SDL_Keycode
  mod : Nat
deriving DecidableEq

/-- `sg::context`: the quit flag and the drawable size; `fullscreen` stands
for the fullscreen flag of the window that `toggle_fullscreen` flips. -/
structure context where
  should_quit : Bool
  fullscreen : Bool
  tex_width : Nat
  tex_height : Nat
deriving DecidableEq

/-- `sg::context::quit`. -/
def context.quit (c : context) : context := { c with should_quit := true }

/-- `sg::context::toggle_fullscreen`. -/
def context.toggle_fullscreen (c : context) : context := { c with fullscreen := !c.fullscreen }

/-- `sg::model::key_down`, the default handler. -/
def sg_model_key_down (p : key_down_params) (c : context) : context :=
  let c1 := if p.key = .SDLK_ESCAPE then c.quit else c
  if p.key = .SDLK_RETURN ∧ (p.mod &&& (KMOD_RALT ||| KMOD_LALT)) ≠ 0 then c1.toggle_fullscreen
  else c1

/-- `sg::model::key_up`, the default handler (empty body). -/
def sg_model_key_up (_p : key_up_params) (c : context) : context := c

/-- The `preserve_aspect_ratio` case of the `SDL_WINDOWEVENT_RESIZED` handler in
`sg::run`: the new drawable size, from the configured size `width_`, `height_`
(`uint32_t`) and the new window size `data1`, `data2` (`Sint32`).  The casts
`(uint64_t)data1` and the stores to the `uint32_t` members reduce modulo `2^64`
and `2^32`; a zero divisor has no result. -/
def resize_preserve_aspect_ratio (width_ height_ : Nat) (data1 data2 : Int) (c : context) :
    Option context :=
  let d1 : Nat := (data1 % 2 ^ 64).toNat
  let d2 : Nat := (data2 % 2 ^ 64).toNat
  if d1 * height_ % 2 ^ 64 < d2 * width_ % 2 ^ 64 then
    if width_ = 0 then none
    else
      some { c with
        tex_width := (data1 % 2 ^ 32).toNat
        tex_height := d1 * height_ % 2 ^ 64 / width_ % 2 ^ 32 }
  else
    if height_ = 0 then none
    else
      some { c with
        tex_width := d2 * width_ % 2 ^ 64 / height_ % 2 ^ 32
        tex_height := (data2 % 2 ^ 32).toNat }

section model

variable {K : Type} [LinearOrderedField K] [FloorRing K]

/-- `constexpr double asteroid_sizes[3]`, read at an `int` index. -/
def asteroid_sizes (i : Int) : Except Fault K :=
  if i = 0 then .ok 0.016
  else if i = 1 then .ok 0.029
  else if i = 2 then .ok 0.053
  else .error .out_of_bounds

/-- `constexpr double bullet_radius`. -/
def bullet_radius : K := 0.007

/-- `constexpr double line_width`. -/
def line_width : K := 0.0025

/-- `constexpr point ship_p1`. -/
def ship_p1 : point K := ⟨0.1 / 3.5, 0⟩

/-- `constexpr point ship_p2`. -/
def ship_p2 : point K := ⟨-0.1 / 3.5, 0.07 / 3.5⟩

/-- `constexpr point ship_p3`. -/
def ship_p3 : point K := ⟨-0.1 / 3.5, -0.07 / 3.5⟩

/-- `constexpr double collision_tolerance`. -/
def collision_tolerance : K := 0.003

/-- The C library `trunc`: the integer nearest to `v` that is not larger in
magnitude (rounding toward zero). -/
def trunc (v : K) : K := if 0 ≤ v then ((⌊v⌋ : ℤ) : K) else ((⌈v⌉ : ℤ) : K)

/-- `(double)rand() / RAND_MAX` for the `n`-th call of `rand()`. -/
def rand01 (env : Env K) (n : Nat) : K := (env.rand n : K) / (env.RAND_MAX : K)

/-- `std::swap(v[i], v.back()); v.pop_back();` on a vector `v`. -/
def swap_pop {α : Type} (v : List α) (i : Nat) : List α :=
  match v.getLast? with
  | none => v
  | some b => (v.set i b).dropLast

namespace asteroids_model

/-- `asteroids_model::trim_01`. -/
def trim_01 (v : K) : K :=
  if v > 0 then v - trunc v else 1 - (v - trunc v)

/-- `asteroids_model::reset`. -/
def reset (env : Env K) (s : asteroids_model K) : asteroids_model K :=
  { s with
    dead := false
    ship := ⟨0.5, 0.5⟩
    ship_velocity := ⟨0, 0⟩
    ship_yaw := 2 * 3.1415 * (env.rand s.rand_pos : K) / (env.RAND_MAX : K)
    time_till_next_shot := 0
    asteroids := []
    bullets := []
    rand_pos := s.rand_pos + 1 }

/-- The constructor `asteroids_model::asteroids_model`: it initialises `dead`,
`engine_enabled` and `shooting_enabled` and calls `reset`.  `ship_rot` is not
initialised by it, so its value `rot` is arbitrary; so are the members that
`reset` overwrites.  `rand_pos` is the state of the generator at the call. -/
def construct (env : Env K) (rot : ship_rotation) (rand_pos : Nat) :
    asteroids_model K :=
  reset env
    { dead := false
      ship := ⟨0, 0⟩
      ship_velocity := ⟨0, 0⟩
      ship_yaw := 0
      ship_rot := rot
      engine_enabled := false
      shooting_enabled := false
      time_till_next_shot := 0
      asteroids := []
      bullets := []
      rand_pos := rand_pos }

/-- One `intersect` call of `collide`, on the hull edge from `a` to `b`. -/
def collide_edge (env : Env K) (a b : point K) (e : asteroid K) : Except Fault Bool := do
  let r ← asteroid_sizes e.size
  intersect env.libm a b e.pos (r - collision_tolerance)

/-- `asteroids_model::collide`. -/
def collide (env : Env K) (s : asteroids_model K) (e : asteroid K) : Except Fault Bool :=
  if s.dead then .ok false
  else if e.health = 0 then .ok false
  else
    let mx : point K := ⟨env.libm.cos s.ship_yaw, env.libm.sin s.ship_yaw⟩
    let my : point K := ⟨env.libm.sin s.ship_yaw, -env.libm.cos s.ship_yaw⟩
    let s1 := s.ship + ⟨dot mx ship_p1, dot my ship_p1⟩
    let s2 := s.ship + ⟨dot mx ship_p2, dot my ship_p2⟩
    let s3 := s.ship + ⟨dot mx ship_p3, dot my ship_p3⟩
    do
      if (← collide_edge env s1 s2 e) then return true
      if (← collide_edge env s2 s3 e) then return true
      collide_edge env s3 s1 e

/-- The asteroid that one round of the loop of `destroy_asteroid` builds, when
`rand_pos` calls of `rand()` have been made before the round. -/
def child (env : Env K) (pos : point K) (size : Int) (velocity : K) (rand_pos : Nat) :
    asteroid K :=
  let norm := velocity * (0.6 + 0.4 * (env.rand rand_pos : K) / (env.RAND_MAX : K))
  let arg := rand01 env (rand_pos + 1) * 2 * 3.141592
  { pos := pos
    velocity := ⟨norm * env.libm.cos arg, norm * env.libm.sin arg⟩
    size := size - 1
    health := size }

/-- The loop of `destroy_asteroid`, run for `n` rounds: each round appends one
child at `pos`, drawing two random numbers for its velocity. -/
def spawn_children (env : Env K) (pos : point K) (size : Int) (velocity : K) :
    Nat → asteroids_model K → asteroids_model K
  | 0, s => s
  | n + 1, s =>
    spawn_children env pos size velocity n
      { s with
        asteroids := s.asteroids ++ [child env pos size velocity s.rand_pos]
        rand_pos := s.rand_pos + 2 }

/-- `asteroids_model::destroy_asteroid`. -/
def destroy_asteroid (env : Env K) (pos : point K) (size : Int) (s : asteroids_model K) :
    Except Fault (asteroids_model K) :=
  if size = 0 then .ok s
  else if size = 1 then .ok (spawn_children env pos size 3.1 3 s)
  else if size = 2 then .ok (spawn_children env pos size 2 2 s)
  else .error .assert_failed

/-- The position search at the head of `gen_asteroid`.  The counter `i` is a
`size_t` (arithmetic modulo `2^64`) and is incremented twice per round, once
in the body and once by the loop header. -/
def gen_asteroid_pos (env : Env K) (ship : point K) :
    Nat → Nat → Nat → Except Fault (point K × Nat)
  | 0, _, _ => .error .out_of_fuel
  | fuel + 1, i, rand_pos =>
    let c : point K := ⟨rand01 env rand_pos, rand01 env (rand_pos + 1)⟩
    if distance env.libm c ship > 0.2 ∨ i = 20 then .ok (c, rand_pos + 2)
    else gen_asteroid_pos env ship fuel ((i + 1 + 1) % 2 ^ 64) (rand_pos + 2)

/-- `asteroids_model::gen_asteroid`. -/
def gen_asteroid (fuel : Nat) (env : Env K) (s : asteroids_model K) :
    Except Fault (asteroids_model K) := do
  let (pos, rp) ← gen_asteroid_pos env s.ship fuel (env.uninit_i s.rand_pos % 2 ^ 64) s.rand_pos
  let norm := 1.22 * (0.4 + 0.6 * (env.rand rp : K) / (env.RAND_MAX : K))
  let arg := rand01 env (rp + 1) * 2 * 3.141592
  let c : asteroid K :=
    { pos := pos
      velocity := ⟨norm * env.libm.cos arg, norm * env.libm.sin arg⟩
      size := 2
      health := 3 }
  return { s with asteroids := s.asteroids ++ [c], rand_pos := rp + 2 }

/-- The double `p.frame_time * 0.001` of `draw`: the frame time in seconds, as
the timer and the time-to-live count it (the product of the frame time with the
double `0.001`, rounded). -/
def elapsed (env : Env K) (frame_time : Nat) : K :=
  env.fl ((frame_time : K) * env.fl 0.001)

/-- The ship block of `draw` (the `if (!dead)` statement): rotation, thrust,
movement with wrap, and the reload timer with the bullet spawn. -/
def draw_ship (env : Env K) (frame_time : Nat) (s : asteroids_model K) : asteroids_model K :=
  if s.dead then s
  else
    let ft : K := (frame_time : K)
    let yaw :=
      match s.ship_rot with
      | .left => s.ship_yaw - ft * 0.005
      | .right => s.ship_yaw + ft * 0.005
      | .none => s.ship_yaw
    let vel : point K :=
      if s.engine_enabled then
        ⟨s.ship_velocity.x + ft * 0.00007 * 180 * env.libm.cos yaw,
         s.ship_velocity.y + ft * 0.00007 * 180 * env.libm.sin yaw⟩
      else s.ship_velocity
    let ship : point K :=
      ⟨trim_01 (s.ship.x + vel.x * ft * 0.0001), trim_01 (s.ship.y + vel.y * ft * 0.0001)⟩
    let s1 := { s with ship_yaw := yaw, ship_velocity := vel, ship := ship }
    if s1.shooting_enabled then
      if s1.time_till_next_shot ≥ 0 then
        { s1 with
          time_till_next_shot := env.fl (s1.time_till_next_shot - elapsed env frame_time) }
      else
        let b : bullet K :=
          { pos := ⟨ship.x + 0.1 / 3.5 * env.libm.cos yaw, ship.y + 0.1 / 3.5 * env.libm.sin yaw⟩
            velocity := ⟨vel.x + 10 * env.libm.cos yaw, vel.y + 10 * env.libm.sin yaw⟩
            ttl := env.fl 0.8 }
        { s1 with bullets := s1.bullets ++ [b], time_till_next_shot := env.fl 0.2 }
    else s1

/-- The inner loop of the asteroid pass: the index of the first bullet, from
index `j` on, that lies within hit distance of the asteroid `e`. -/
def bullet_scan (env : Env K) (e : asteroid K) : List (bullet K) → Nat → Except Fault (Option Nat)
  | [], _ => .ok none
  | b :: bs, j => do
    let r ← asteroid_sizes e.size
    if distance env.libm e.pos b.pos < r + line_width + bullet_radius then return some j
    else bullet_scan env e bs (j + 1)

/-- The update of the position of one asteroid in the asteroid pass: move, wrap. -/
def asteroid_step (frame_time : Nat) (e : asteroid K) : asteroid K :=
  { e with
    pos := ⟨trim_01 (e.pos.x + e.velocity.x * (frame_time : K) * 0.0001),
            trim_01 (e.pos.y + e.velocity.y * (frame_time : K) * 0.0001)⟩ }

/-- The asteroid after the bullet scan: `--e.health` when a bullet hit it. -/
def hit_asteroid (hit : Option Nat) (e : asteroid K) : asteroid K :=
  match hit with
  | some _ => { e with health := e.health - 1 }
  | none => e

/-- The bullets after the bullet scan: the bullet that hit is swapped with the
last one and popped. -/
def hit_bullets (hit : Option Nat) (bs : List (bullet K)) : List (bullet K) :=
  match hit with
  | some j => swap_pop bs j
  | none => bs

/-- The body of the loop of the asteroid pass, for the asteroid at index `i`:
the new state, and the index at which the loop goes on (`none` when the body
leaves the loop with `break`, after a collision with the ship). -/
def asteroid_visit (env : Env K) (frame_time : Nat) (s : asteroids_model K) (i : Nat) :
    Except Fault (asteroids_model K × Option Nat) :=
  match s.asteroids[i]? with
  | none => .error .out_of_bounds
  | some e0 => do
    let e1 := asteroid_step frame_time e0
    let hit ← bullet_scan env e1 s.bullets 0
    let e2 := hit_asteroid hit e1
    let s2 := { s with asteroids := s.asteroids.set i e2, bullets := hit_bullets hit s.bullets }
    if (← collide env s2 e2) then
      return ({ s2 with dead := true, asteroids := s2.asteroids.set i { e2 with health := 0 } },
        none)
    else if e2.health = 0 then
      let s3 ← destroy_asteroid env e2.pos e2.size
        { s2 with asteroids := swap_pop s2.asteroids i }
      return (s3, some i)
    else return (s2, some (i + 1))

/-- The asteroid pass of `draw` (the first `for` loop), from index `i` on. -/
def draw_asteroids (env : Env K) (frame_time : Nat) :
    Nat → asteroids_model K → Nat → Except Fault (asteroids_model K)
  | 0, _, _ => .error .out_of_fuel
  | fuel + 1, s, i =>
    if i = s.asteroids.length then .ok s
    else
      match asteroid_visit env frame_time s i with
      | .error err => .error err
      | .ok (s1, none) => .ok s1
      | .ok (s1, some j) => draw_asteroids env frame_time fuel s1 j

/-- The update of one bullet in the bullet pass: move, wrap, age. -/
def bullet_step (env : Env K) (frame_time : Nat) (e : bullet K) : bullet K :=
  { e with
    pos := ⟨trim_01 (e.pos.x + e.velocity.x * (frame_time : K) * 0.0001),
            trim_01 (e.pos.y + e.velocity.y * (frame_time : K) * 0.0001)⟩
    ttl := env.fl (e.ttl - elapsed env frame_time) }

/-- The bullet pass of `draw` (the second `for` loop) on the bullet vector,
from index `i` on. -/
def bullets_loop (env : Env K) (frame_time : Nat) :
    Nat → List (bullet K) → Nat → Except Fault (List (bullet K))
  | 0, _, _ => .error .out_of_fuel
  | fuel + 1, bs, i =>
    if i = bs.length then .ok bs
    else
      match bs[i]? with
      | none => .error .out_of_bounds
      | some e0 =>
        let e := bullet_step env frame_time e0
        if e.ttl < 0 then bullets_loop env frame_time fuel (swap_pop (bs.set i e) i) i
        else bullets_loop env frame_time fuel (bs.set i e) (i + 1)

/-- The bullet pass of `draw` on the model. -/
def draw_bullets (env : Env K) (frame_time : Nat) (fuel : Nat) (s : asteroids_model K) :
    Except Fault (asteroids_model K) := do
  let bs ← bullets_loop env frame_time fuel s.bullets 0
  return { s with bullets := bs }

/-- The respawn block of `draw`: `if (asteroids.empty())` three `gen_asteroid` calls. -/
def draw_respawn (fuel : Nat) (env : Env K) (s : asteroids_model K) :
    Except Fault (asteroids_model K) :=
  if s.asteroids.isEmpty then do
    let s1 ← gen_asteroid fuel env s
    let s2 ← gen_asteroid fuel env s1
    gen_asteroid fuel env s2
  else .ok s

/-- The simulation part of `asteroids_model::draw` (everything before the
painting, which does not write to the model).  `fuel` bounds the number of
rounds of each loop. -/
def draw (fuel : Nat) (env : Env K) (frame_time : Nat) (s : asteroids_model K) :
    Except Fault (asteroids_model K) := do
  let s1 ← draw_asteroids env frame_time fuel (draw_ship env frame_time s) 0
  let s2 ← draw_bullets env frame_time fuel s1
  draw_respawn fuel env s2

/-- `asteroids_model::key_down`, on the model and the context it refers to. -/
def key_down (env : Env K) (p : key_down_params) (s : asteroids_model K) (c : context) :
    asteroids_model K × context :=
  match p.key with
  | .SDLK_LEFT | .SDLK_a => ({ s with ship_rot := .left }, c)
  | .SDLK_RIGHT | .SDLK_d => ({ s with ship_rot := .right }, c)
  | .SDLK_UP | .SDLK_w => ({ s with engine_enabled := true }, c)
  | .SDLK_SPACE | .SDLK_LCTRL | .SDLK_RCTRL => ({ s with shooting_enabled := true }, c)
  | .SDLK_ESCAPE => (if s.dead then reset env s else s, c)
  | .SDLK_f => (s, c.toggle_fullscreen)
  | .SDLK_q => (s, if s.dead then c.quit else c)
  | _ => (s, sg_model_key_down p c)

/-- `asteroids_model::key_up`, on the model and the context it refers to. -/
def key_up (p : key_up_params) (s : asteroids_model K) (c : context) :
    asteroids_model K × context :=
  match p.key with
  | .SDLK_LEFT | .SDLK_a =>
    (if s.ship_rot = .left then { s with ship_rot := .none } else s, c)
  | .SDLK_RIGHT | .SDLK_d =>
    (if s.ship_rot = .right then { s with ship_rot := .none } else s, c)
  | .SDLK_UP | .SDLK_w => ({ s with engine_enabled := false }, c)
  | .SDLK_SPACE | .SDLK_LCTRL | .SDLK_RCTRL => ({ s with shooting_enabled := false }, c)
  | _ => (s, sg_model_key_up p c)

/-- The members of the model that only the ship block and `reset` write. -/
def same_ship (s s' : asteroids_model K) : Prop :=
  s'.ship = s.ship ∧ s'.ship_velocity = s.ship_velocity ∧ s'.ship_yaw = s.ship_yaw ∧
    s'.ship_rot = s.ship_rot ∧ s'.engine_enabled = s.engine_enabled ∧
    s'.shooting_enabled = s.shooting_enabled ∧ s'.time_till_next_shot = s.time_till_next_shot

/-- An event of the frame loop of `sg::run`: a tick (a call of `draw` with its
frame time), a key press or a key release. -/
inductive event where
  | tick (frame_time : Nat)
  | key_down (p : key_down_params)
  | key_up (p : key_up_params)
deriving DecidableEq

/-- A run of the frame loop of `sg::run` on the model: the ticks and key events
in the order in which the loop delivers them. -/
def run (fuel : Nat) (env : Env K) :
    List event → asteroids_model K × context → Except Fault (asteroids_model K × context)
  | [], sc => .ok sc
  | .tick frame_time :: rest, sc => do
    let s1 ← draw fuel env frame_time sc.1
    run fuel env rest (s1, sc.2)
  | .key_down p :: rest, sc => run fuel env rest (key_down env p sc.1 sc.2)
  | .key_up p :: rest, sc => run fuel env rest (key_up p sc.1 sc.2)

/-- The frame times of the ticks of a run, in order. -/
def frame_times : List event → List Nat
  | [] => []
  | .tick frame_time :: rest => frame_time :: frame_times rest
  | _ :: rest => frame_times rest

/-- The number of bullets that the ship block of a tick appends. -/
def spawn_count (env : Env K) (frame_time : Nat) (s : asteroids_model K) : Nat :=
  (draw_ship env frame_time s).bullets.length - s.bullets.length

/-- A rational stand-in for the math library, used to run the model on
concrete inputs: `sqrt` and `hypot` go through `Rat.sqrt` (exact on squares of
rationals; `hypot` is exact when one argument is `0`), `cos` and `sin` are
Taylor polynomials (exact at `0`). -/
def sample_libm : Libm ℚ :=
  { sqrt := Rat.sqrt
    cos := fun x => 1 - x * x / 2
    sin := fun x => x - x * x * x / 6
    hypot := fun x y => if y = 0 then |x| else if x = 0 then |y| else Rat.sqrt (x * x + y * y) }

/-- A sample environment: `rand()` returns `0` on every call, `RAND_MAX` is
`2^31 - 1`, the uninitialised counter of `gen_asteroid` starts at `i0`, and the
arithmetic is exact (`fl` is the identity). -/
def sample_env (i0 : Nat) : Env ℚ :=
  { libm := sample_libm
    rand := fun _ => 0
    RAND_MAX := 2147483647
    uninit_i := fun _ => i0
    fl := fun x => x }

/-- The sample environment with the arithmetic of `double`: as `sample_env 0`,
with `fl` the rounding to the nearest `double`. -/
def double_env : Env ℚ :=
  { sample_env 0 with fl := fl64 }

/-- A sample state: the ship is dead, one asteroid is at rest at `(1/4, 1/4)`
and one bullet with time-to-live `1/2` flies from `(1/4, 3/4)`, out of reach of
the asteroid. -/
def sample_state : asteroids_model ℚ :=
  { dead := true
    ship := ⟨1/2, 1/2⟩
    ship_velocity := ⟨0, 0⟩
    ship_yaw := 0
    ship_rot := .none
    engine_enabled := false
    shooting_enabled := false
    time_till_next_shot := 0
    asteroids := [{ pos := ⟨1/4, 1/4⟩, velocity := ⟨0, 0⟩, size := 2, health := 3 }]
    bullets := [{ pos := ⟨1/4, 3/4⟩, velocity := ⟨10, 0⟩, ttl := 1/2 }]
    rand_pos := 0 }

/-- The sample state `sample_state` with the thrust and firing keys held: the
ship died while it was thrusting and firing. -/
def sample_dead_thrust : asteroids_model ℚ :=
  { sample_state with engine_enabled := true, shooting_enabled := true }

/-- A sample state with the ship alive and firing held on: the reload timer is
below zero, and one asteroid is at rest at `(9/10, 1/2)`, clear of the ship. -/
def sample_firing : asteroids_model ℚ :=
  { dead := false
    ship := ⟨1/2, 1/2⟩
    ship_velocity := ⟨0, 0⟩
    ship_yaw := 0
    ship_rot := .none
    engine_enabled := false
    shooting_enabled := true
    time_till_next_shot := -1/100
    asteroids := [{ pos := ⟨9/10, 1/2⟩, velocity := ⟨0, 0⟩, size := 2, health := 3 }]
    bullets := []
    rand_pos := 0 }

/-- The sample state `sample_firing` after a tick of 16 ms in the arithmetic
of `double`: a bullet has been spawned at the nose of the ship and has moved
for 16 ms; the reload timer is the double `0.2` and the time-to-live of the
bullet is the double `0.8` less the double `16 * 0.001`. -/
def sample_firing_1 : asteroids_model ℚ :=
  { sample_firing with
    time_till_next_shot := 3602879701896397 / 18014398509481984
    bullets := [{ pos := ⟨37/70 + 2/125, 1/2⟩, velocity := ⟨10, 0⟩,
                  ttl := 3530822107858469 / 4503599627370496 }] }

/-- The state `sample_firing_1` after a further tick of 250 ms in the
arithmetic of `double`: the reload timer is the double `0.2` less `0.25`. -/
def sample_firing_2 : asteroids_model ℚ :=
  { sample_firing with
    time_till_next_shot := -900719925474099 / 18014398509481984
    bullets := [{ pos := ⟨37/70 + 2/125 + 1/4, 1/2⟩, velocity := ⟨10, 0⟩,
                  ttl := 2404922201015845 / 4503599627370496 }] }

/-- The size classes of an asteroid: the indices of `asteroid_sizes`. -/
def valid_size (n : Int) : Prop := n = 0 ∨ n = 1 ∨ n = 2

/-- The weight of an asteroid in the termination measure of the asteroid pass:
an asteroid weighs more than the children it splits into. -/
def weight (e : asteroid K) : Nat :=
  if e.size = 2 then 9 else if e.size = 1 then 4 else 1

/-- The termination measure of the asteroid pass on the asteroids not yet visited. -/
def total_weight (l : List (asteroid K)) : Nat := (l.map weight).sum

/-- The uninitialised counter of every `gen_asteroid` call starts at an even
value that is at most `20`, so that the test `i == 20` is reached. -/
def counter_reaches_cap (env : Env K) : Prop :=
  ∀ n, env.uninit_i n % 2 ^ 64 % 2 = 0 ∧ env.uninit_i n % 2 ^ 64 ≤ 20

/-- A sample state with an empty field: the ship is dead at `(1/8, 0)`, and
there are no asteroids and no bullets. -/
def sample_empty : asteroids_model ℚ :=
  { dead := true
    ship := ⟨1/8, 0⟩
    ship_velocity := ⟨0, 0⟩
    ship_yaw := 0
    ship_rot := .none
    engine_enabled := false
    shooting_enabled := false
    time_till_next_shot := 0
    asteroids := []
    bullets := []
    rand_pos := 0 }

/-- A sample state with a bullet at the centre of an asteroid at rest: the ship
is dead, the asteroid of size 2 with health 3 and the bullet are both at
`(1/4, 1/4)`. -/
def sample_hit : asteroids_model ℚ :=
  { dead := true
    ship := ⟨1/2, 1/2⟩
    ship_velocity := ⟨0, 0⟩
    ship_yaw := 0
    ship_rot := .none
    engine_enabled := false
    shooting_enabled := false
    time_till_next_shot := 0
    asteroids := [{ pos := ⟨1/4, 1/4⟩, velocity := ⟨0, 0⟩, size := 2, health := 3 }]
    bullets := [{ pos := ⟨1/4, 1/4⟩, velocity := ⟨10, 0⟩, ttl := 4/5 }]
    rand_pos := 0 }

/-- The sample state `sample_hit` with the health of the asteroid at 1: the
next hit destroys the asteroid. -/
def sample_last_hit : asteroids_model ℚ :=
  { sample_hit with
    asteroids := [{ pos := ⟨1/4, 1/4⟩, velocity := ⟨0, 0⟩, size := 2, health := 1 }] }

/-- A sample state with a bullet at the centre of a moving asteroid: the ship is
dead, the asteroid of size 0 with health 1 moves with velocity `(3, 0)`, and
the asteroid and the bullet are both at `(1/4, 1/4)`. -/
def sample_miss : asteroids_model ℚ :=
  { dead := true
    ship := ⟨1/2, 1/2⟩
    ship_velocity := ⟨0, 0⟩
    ship_yaw := 0
    ship_rot := .none
    engine_enabled := false
    shooting_enabled := false
    time_till_next_shot := 0
    asteroids := [{ pos := ⟨1/4, 1/4⟩, velocity := ⟨3, 0⟩, size := 0, health := 1 }]
    bullets := [{ pos := ⟨1/4, 1/4⟩, velocity := ⟨10, 0⟩, ttl := 4/5 }]
    rand_pos := 0 }

/-- A sample state with the ship alive and an asteroid of size 0 at rest that
overlaps the rear edge of the hull. -/
def sample_collision : asteroids_model ℚ :=
  { dead := false
    ship := ⟨1/2, 1/2⟩
    ship_velocity := ⟨0, 0⟩
    ship_yaw := 0
    ship_rot := .none
    engine_enabled := false
    shooting_enabled := false
    time_till_next_shot := 0
    asteroids := [{ pos := ⟨402/875, 1/2⟩, velocity := ⟨0, 0⟩, size := 0, health := 1 }]
    bullets := []
    rand_pos := 0 }

/-- The sample state `sample_collision` with the health of the asteroid at 3
and a bullet at rest at the centre of the asteroid. -/
def sample_collision_hit : asteroids_model ℚ :=
  { sample_collision with
    asteroids := [{ pos := ⟨402/875, 1/2⟩, velocity := ⟨0, 0⟩, size := 0, health := 3 }]
    bullets := [{ pos := ⟨402/875, 1/2⟩, velocity := ⟨0, 0⟩, ttl := 4/5 }] }

/-- Counters of one asteroid pass: the asteroids visited, the bullets removed
by hits, and the children appended by splits. -/
structure pass_count where
  visits : Nat
  hits : Nat
  spawned : Nat

/-- The asteroid pass `draw_asteroids`, with counters that the source does not
keep: each round of the loop counts one visit, the bullets that the round
removed, and the children that it appended (a round that removes the asteroid
stays at the same index). -/
def draw_asteroids_count (env : Env K) (frame_time : Nat) :
    Nat → asteroids_model K → Nat → Except Fault (asteroids_model K × pass_count)
  | 0, _, _ => .error .out_of_fuel
  | fuel + 1, s, i =>
    if i = s.asteroids.length then .ok (s, ⟨0, 0, 0⟩)
    else
      match asteroid_visit env frame_time s i with
      | .error err => .error err
      | .ok (s1, none) => .ok (s1, ⟨1, s.bullets.length - s1.bullets.length, 0⟩)
      | .ok (s1, some j) =>
        match draw_asteroids_count env frame_time fuel s1 j with
        | .error err => .error err
        | .ok (s2, n) =>
          .ok (s2, ⟨n.visits + 1, n.hits + (s.bullets.length - s1.bullets.length),
            n.spawned + (s1.asteroids.length + (if j = i then 1 else 0) - s.asteroids.length)⟩)

/-- `asteroids_model::paint`, as the list of the points on which it calls
`func`, in the order of the calls; the differences `1. - size` and
`pos.x - 1.` and the sums `pos.x + 1.` are those of `double`. -/
def paint (env : Env K) (pos : point K) (size : K) : List (point K) :=
  let x := if pos.x > env.fl (1 - size) then env.fl (pos.x - 1) else pos.x
  let y := if pos.y > env.fl (1 - size) then env.fl (pos.y - 1) else pos.y
  [(⟨x, y⟩ : point K)] ++
    (if x < size then
      [(⟨env.fl (x + 1), y⟩ : point K)] ++
        (if y < size then [(⟨env.fl (x + 1), env.fl (y + 1)⟩ : point K)] else [])
    else []) ++
    (if y < size then [(⟨x, env.fl (y + 1)⟩ : point K)] else [])

/-- The states reachable from construction by ticks, key events and resets. -/
inductive reachable (env : Env K) : asteroids_model K → Prop where
  | construct (rot : ship_rotation) (rand_pos : Nat) : reachable env (construct env rot rand_pos)
  | tick (fuel frame_time : Nat) (s s1 : asteroids_model K) :
      reachable env s → draw fuel env frame_time s = .ok s1 → reachable env s1
  | key_down (p : key_down_params) (c : context) (s : asteroids_model K) :
      reachable env s → reachable env (key_down env p s c).1
  | key_up (p : key_up_params) (c : context) (s : asteroids_model K) :
      reachable env s → reachable env (key_up p s c).1
  | reset (s : asteroids_model K) : reachable env s → reachable env (reset env s)

/-- The asteroid invariant of the claim, for one asteroid: size in `{0,1,2}`,
health at most `size + 1`, and health at least 1 while the ship is alive. -/
def asteroid_ok (dead : Bool) (e : asteroid K) : Prop :=
  valid_size e.size ∧ e.health ≤ e.size + 1 ∧ (dead = false → 1 ≤ e.health)

/-- A vertex of the hull in `collide`:
`ship + point(dot(mx, p), dot(my, p))` for the corner `p` of the ship outline,
with `mx = (cos(ship_yaw), sin(ship_yaw))` and `my = (sin(ship_yaw), -cos(ship_yaw))`. -/
def ship_vertex (env : Env K) (s : asteroids_model K) (p : point K) : point K :=
  s.ship + ⟨dot ⟨env.libm.cos s.ship_yaw, env.libm.sin s.ship_yaw⟩ p,
    dot ⟨env.libm.sin s.ship_yaw, -env.libm.cos s.ship_yaw⟩ p⟩

end asteroids_model

end model

/-! ## The snake model (`snake_demo.cpp`) -/

namespace snake_model

/-- `static constexpr uint32_t turn_interval`. -/
def turn_interval : Nat := 110

/-- `static constexpr uint32_t field_size_x`. -/
def field_size_x : Nat := 4 * 5

/-- `static constexpr uint32_t field_size_y`. -/
def field_size_y : Nat := 3 * 5

/-- `static constexpr size_t action_queue_max_size`. -/
def action_queue_max_size : Nat := 4

/-- `struct snake_model::point`, with `int32_t` coordinates. -/
structure point where
  x : Int
  y : Int
deriving DecidableEq

/-- `enum class snake_model::direction`. -/
inductive direction where
  | up
  | left
  | down
  | right
deriving DecidableEq

end snake_model

/-- The data members of `struct snake_model`; `rand_pos` is the number of calls
of `rand()` made so far. -/
structure snake_model where
  need_redraw : Bool
  started : Bool
  time_till_next_turn : Int
  snake : List snake_model.point
  snake_is_dead : Bool
  queued_actions : List snake_model.direction
  apple : snake_model.point
  rand_pos : Nat

namespace snake_model

/-- The conversion of an integer to `int32_t` (two's complement wrap), as in
`time_till_next_turn -= p.frame_time`, whose right-hand side is computed in
`uint32_t`. -/
def to_int32 (v : Int) : Int := (v + 2 ^ 31) % 2 ^ 32 - 2 ^ 31

/-- `snake_model::snake_contains`, on the cells of the snake from the front. -/
def snake_contains : List point → point → Bool
  | [], _ => false
  | c :: rest, p => if p.x = c.x ∧ p.y = c.y then true else snake_contains rest p

/-- The candidate cell that one round of `find_empty_place` draws when
`rand_pos` calls of `rand()` have been made before:
`p.x = rand() % field_size_x; p.y = rand() % field_size_y`. -/
def candidate (rand : Nat → Nat) (rand_pos : Nat) : point :=
  ⟨((rand rand_pos % field_size_x : Nat) : Int), ((rand (rand_pos + 1) % field_size_y : Nat) : Int)⟩

/-- `snake_model::find_empty_place`, from the value `i` of the loop counter
(a `size_t`); `fuel` bounds the number of rounds.  The result is the cell and
the new number of calls of `rand()`. -/
def find_empty_place (rand : Nat → Nat) (snake : List point) :
    Nat → Nat → Nat → Except Fault (point × Nat)
  | 0, _, _ => .error .out_of_fuel
  | fuel + 1, i, rand_pos =>
    let p := candidate rand rand_pos
    if !snake_contains snake p || i == 20 then .ok (p, rand_pos + 2)
    else find_empty_place rand snake fuel ((i + 1) % 2 ^ 64) (rand_pos + 2)

/-- `snake_model::reset_snake`. -/
def reset_snake (rand : Nat → Nat) (fuel : Nat) (s : snake_model) : Except Fault snake_model := do
  let snake : List point := [⟨0, 0⟩, ⟨1, 0⟩, ⟨2, 0⟩]
  let (apple, rp) ← find_empty_place rand snake fuel 0 s.rand_pos
  return { need_redraw := true
           started := false
           time_till_next_turn := 0
           snake := snake
           snake_is_dead := false
           queued_actions := [.right]
           apple := apple
           rand_pos := rp }

/-- The `switch (snake_direction)` of `draw`: the cell next to `p` in the
direction `d`. -/
def step (d : direction) (p : point) : point :=
  match d with
  | .up => ⟨p.x, p.y - 1⟩
  | .left => ⟨p.x - 1, p.y⟩
  | .down => ⟨p.x, p.y + 1⟩
  | .right => ⟨p.x + 1, p.y⟩

/-- The direction of the move in `draw` and the queue after it: the second
queued action, with the first one popped, when there are at least two of
them, and the only one otherwise. -/
def next_direction (q : List direction) : Except Fault (direction × List direction) :=
  if q.length > 1 then
    match q[1]? with
    | some d => .ok (d, q.tail)
    | none => .error .out_of_bounds
  else
    match q.head? with
    | some d => .ok (d, q)
    | none => .error .out_of_bounds

/-- `snake_model::draw`, without the painting: `draw_scene` reads the model
only, and after it `need_redraw` is `false`. -/
def draw (rand : Nat → Nat) (fuel : Nat) (frame_time : Nat) (s : snake_model) :
    Except Fault snake_model :=
  if s.started ∧ ¬ s.snake_is_dead then
    let t := to_int32 (s.time_till_next_turn - (frame_time : Int))
    if t < 0 then
      let t := to_int32 (t + (turn_interval : Int))
      match s.snake.getLast? with
      | none => .error .out_of_bounds
      | some back => do
        let (snake_direction, queue) ← next_direction s.queued_actions
        let next := step snake_direction back
        if next.x < 0 ∨ next.y < 0 ∨ next.x ≥ (field_size_x : Int) ∨ next.y ≥ (field_size_y : Int)
            ∨ snake_contains s.snake next then
          return { s with
            time_till_next_turn := t, queued_actions := queue, snake_is_dead := true
            need_redraw := false }
        else if next.x = s.apple.x ∧ next.y = s.apple.y then
          let (apple, rp) ← find_empty_place rand (s.snake ++ [next]) fuel 0 s.rand_pos
          return { s with
            time_till_next_turn := t, queued_actions := queue, snake := s.snake ++ [next]
            apple := apple, rand_pos := rp, need_redraw := false }
        else
          return { s with
            time_till_next_turn := t, queued_actions := queue
            snake := (s.snake ++ [next]).tail, need_redraw := false }
    else .ok { s with time_till_next_turn := t, need_redraw := false }
  else .ok { s with need_redraw := false }

/-- `snake_model::enqueue_action`, on the queue. -/
def enqueue_action (dir : direction) (q : List direction) : Except Fault (List direction) :=
  match (if q.length < action_queue_max_size then q.getLast? else q[q.length - 2]?) with
  | none => .error .out_of_bounds
  | some last =>
    if (dir = .up ∨ dir = .down) ∧ (last = .up ∨ last = .down) then .ok q
    else if (dir = .left ∨ dir = .right) ∧ (last = .left ∨ last = .right) then .ok q
    else if q.length < action_queue_max_size then .ok (q ++ [dir])
    else .ok (q.dropLast ++ [dir])

/-- The cases of `key_down` for a direction key: `started = true` and
`enqueue_action(dir)`. -/
def start_and_enqueue (dir : direction) (s : snake_model) : Except Fault snake_model := do
  let q ← enqueue_action dir s.queued_actions
  return { s with started := true, queued_actions := q }

/-- `snake_model::key_down`, on the model and the context it refers to. -/
def key_down (rand : Nat → Nat) (fuel : Nat) (p : key_down_params) (s : snake_model)
    (c : context) : Except Fault (snake_model × context) :=
  match p.key with
  | .SDLK_ESCAPE | .SDLK_RETURN => .ok (s, sg_model_key_down p c)
  | .SDLK_SPACE => do
    let s1 ← reset_snake rand fuel s
    return (s1, c)
  | .SDLK_UP | .SDLK_w => do
    let s1 ← start_and_enqueue .up s
    return (s1, c)
  | .SDLK_LEFT | .SDLK_a => do
    let s1 ← start_and_enqueue .left s
    return (s1, c)
  | .SDLK_DOWN | .SDLK_s => do
    let s1 ← start_and_enqueue .down s
    return (s1, c)
  | .SDLK_RIGHT | .SDLK_d => do
    let s1 ← start_and_enqueue .right s
    return (s1, c)
  | _ => .ok (s, c)

/-- The states reachable from `reset_snake` (which the constructor calls on the
uninitialised members `s0`) by ticks and key-down events, each of which
returns. -/
inductive reachable (rand : Nat → Nat) : snake_model → Prop where
  | reset (fuel : Nat) (s0 s : snake_model) :
      reset_snake rand fuel s0 = .ok s → reachable rand s
  | tick (fuel frame_time : Nat) (s s1 : snake_model) :
      reachable rand s → draw rand fuel frame_time s = .ok s1 → reachable rand s1
  | key (fuel : Nat) (p : key_down_params) (c c1 : context) (s s1 : snake_model) :
      reachable rand s → key_down rand fuel p s c = .ok (s1, c1) → reachable rand s1

/-- Two directions on the same axis (both vertical or both horizontal). -/
def same_axis (a b : direction) : Prop :=
  ((a = .up ∨ a = .down) ∧ (b = .up ∨ b = .down)) ∨
    ((a = .left ∨ a = .right) ∧ (b = .left ∨ b = .right))

/-- The direction opposite to `d`. -/
def opposite (d : direction) : direction :=
  match d with
  | .up => .down
  | .left => .right
  | .down => .up
  | .right => .left

/-- Two cells that are orthogonally adjacent. -/
def adjacent (a b : point) : Prop :=
  (a.x = b.x ∧ (a.y = b.y + 1 ∨ b.y = a.y + 1)) ∨ (a.y = b.y ∧ (a.x = b.x + 1 ∨ b.x = a.x + 1))

/-- A cell inside the field. -/
def in_field (p : point) : Prop :=
  0 ≤ p.x ∧ p.x < (field_size_x : Int) ∧ 0 ≤ p.y ∧ p.y < (field_size_y : Int)

/-- The direction in which a tick of `frame_time` milliseconds moves the snake,
when it moves it: the tick moves when the game is started, the snake is alive
and the turn timer falls below zero. -/
def move_direction (frame_time : Nat) (s : snake_model) : Option direction :=
  if s.started ∧ ¬ s.snake_is_dead ∧
      to_int32 (s.time_till_next_turn - (frame_time : Int)) < 0 then
    match next_direction s.queued_actions with
    | .ok (d, _) => some d
    | .error _ => none
  else none

/-- The queue invariant of the claim: between 1 and `action_queue_max_size`
entries, adjacent entries on different axes. -/
def queue_ok (q : List direction) : Prop :=
  1 ≤ q.length ∧ q.length ≤ action_queue_max_size ∧ q.Chain' (fun a b => ¬ same_axis a b)

/-- The body invariant of the claim: at least 3 cells, all inside the field,
pairwise distinct, consecutive cells orthogonally adjacent. -/
def body_ok (snake : List point) : Prop :=
  3 ≤ snake.length ∧ (∀ c ∈ snake, in_field c) ∧ snake.Nodup ∧ snake.Chain' adjacent

/-- While the snake is alive the first queued action is its heading: the
direction from the cell behind the head to the head. -/
def heading_ok (s : snake_model) : Prop :=
  s.snake_is_dead = false →
    ∃ (pre : List point) (neck head : point) (d : direction) (rest : List direction),
      s.snake = pre ++ [neck, head] ∧ s.queued_actions = d :: rest ∧ head = step d neck

/-- The invariant of the reachable states. -/
def invariant (s : snake_model) : Prop :=
  queue_ok s.queued_actions ∧ body_ok s.snake ∧ heading_ok s

/-- A sample generator that returns `7` on every call. -/
def sample_rand_7 : Nat → Nat := fun _ => 7

/-- The members before the constructor runs: arbitrary values. -/
def sample_uninit : snake_model :=
  { need_redraw := false
    started := false
    time_till_next_turn := 0
    snake := []
    snake_is_dead := false
    queued_actions := []
    apple := ⟨0, 0⟩
    rand_pos := 0 }

/-- The state that `reset_snake` builds with the generator `sample_rand_7`:
the first candidate `(7, 7)` is free, so the apple is there. -/
def sample_start : snake_model :=
  { need_redraw := true
    started := false
    time_till_next_turn := 0
    snake := [⟨0, 0⟩, ⟨1, 0⟩, ⟨2, 0⟩]
    snake_is_dead := false
    queued_actions := [.right]
    apple := ⟨7, 7⟩
    rand_pos := 2 }

/-- An event of the frame loop of `sg::run`: a tick (a call of `draw` with its
frame time) or a key press. -/
inductive event where
  | tick (frame_time : Nat)
  | key (p : key_down_params)

/-- A run of the frame loop of `sg::run` on the model: the ticks and key presses
in the order in which the loop delivers them.  The result is the last state and
context and the directions of the moves that the ticks made, in order. -/
def run (rand : Nat → Nat) (fuel : Nat) :
    List event → snake_model × context → Except Fault (snake_model × context × List direction)
  | [], sc => .ok (sc.1, sc.2, [])
  | .tick frame_time :: rest, sc => do
    let s1 ← draw rand fuel frame_time sc.1
    let r ← run rand fuel rest (s1, sc.2)
    return (r.1, r.2.1, (move_direction frame_time sc.1).toList ++ r.2.2)
  | .key p :: rest, sc => do
    let r ← key_down rand fuel p sc.1 sc.2
    run rand fuel rest r

/-- The state `sample_start` after the DOWN key: the game is started and the
turn down is queued behind the heading. -/
def sample_started : snake_model :=
  { sample_start with started := true, queued_actions := [.right, .down] }

/-- The state `sample_started` after a tick of 200 ms: the snake has turned
down and moved by one cell. -/
def sample_down : snake_model :=
  { need_redraw := false
    started := true
    time_till_next_turn := -90
    snake := [⟨1, 0⟩, ⟨2, 0⟩, ⟨2, 1⟩]
    snake_is_dead := false
    queued_actions := [.down]
    apple := ⟨7, 7⟩
    rand_pos := 2 }

end snake_model

end Sgame

/-! ## Theorems -/

namespace Sgame

open asteroids_model

section facts

variable {K : Type} [LinearOrderedField K] [FloorRing K]

/-! ### The rounding to `double` -/

theorem round_even_spec (y : ℚ) :
    |y - round_even y| < 1 / 2 ∨ (|y - round_even y| = 1 / 2 ∧ round_even y % 2 = 0) := by
  have h1 := Int.floor_le y
  have h2 := Int.lt_floor_add_one y
  unfold round_even
  split_ifs with a b c
  · left; rw [abs_lt]; constructor <;> linarith
  · left; rw [abs_lt]; push_cast; constructor <;> linarith
  · right
    have : y - ⌊y⌋ = 1 / 2 := le_antisymm (not_lt.mp b) (not_lt.mp a)
    exact ⟨by rw [this]; norm_num, c⟩
  · right
    have : y - ⌊y⌋ = 1 / 2 := le_antisymm (not_lt.mp b) (not_lt.mp a)
    refine ⟨?_, by omega⟩
    push_cast
    rw [show y - (⌊y⌋ + 1 : ℚ) = -(1/2) by linarith]
    norm_num

theorem round_even_unique (y : ℚ) (m : ℤ)
    (h : |y - m| < 1 / 2 ∨ (|y - m| = 1 / 2 ∧ m % 2 = 0)) : round_even y = m := by
  have hs := round_even_spec y
  generalize round_even y = n at hs
  have key : ∀ a b : ℤ, (|y - a| < 1 / 2 ∨ (|y - a| = 1 / 2 ∧ a % 2 = 0)) →
      (|y - b| < 1 / 2 ∨ (|y - b| = 1 / 2 ∧ b % 2 = 0)) → a ≤ b := by
    intro a b ha hb
    by_contra hlt
    have hlt : b + 1 ≤ a := by omega
    have hq : (b : ℚ) + 1 ≤ a := by exact_mod_cast hlt
    have ha1 : |y - a| ≤ 1 / 2 := by rcases ha with ha | ha; exact ha.le; exact ha.1.le
    have hb1 : |y - b| ≤ 1 / 2 := by rcases hb with hb | hb; exact hb.le; exact hb.1.le
    rw [abs_le] at ha1 hb1
    have e1 : (a : ℚ) = b + 1 := by linarith
    have e2 : y - a = -(1 / 2) := by linarith
    have e3 : y - b = 1 / 2 := by linarith
    have e4 : a = b + 1 := by exact_mod_cast e1
    rcases ha with ha | ha
    · rw [abs_lt] at ha; linarith [ha.1]
    rcases hb with hb | hb
    · rw [abs_lt] at hb; linarith [hb.2]
    omega
  exact le_antisymm (key _ _ hs h) (key _ _ h hs)

theorem round_even_error (y : ℚ) : |(round_even y : ℚ) - y| ≤ 1 / 2 := by
  rw [abs_sub_comm]
  rcases round_even_spec y with h | h
  · exact h.le
  · exact h.1.le

theorem round_even_of_lt (y : ℚ) (m : ℤ) (h : |y - m| < 1 / 2) : round_even y = m :=
  round_even_unique y m (Or.inl h)

theorem round_even_int (n : ℤ) : round_even (n : ℚ) = n :=
  round_even_of_lt _ _ (by simp)

theorem round_even_neg (y : ℚ) : round_even (-y) = -round_even y := by
  apply round_even_unique
  have h := round_even_spec y
  have e : |(-y) - ((-round_even y : ℤ) : ℚ)| = |y - round_even y| := by
    push_cast
    rw [show -y - -(round_even y : ℚ) = -(y - round_even y) by ring, abs_neg]
  rw [e]
  rcases h with h | h
  · exact Or.inl h
  · exact Or.inr ⟨h.1, by omega⟩

theorem round_even_mono (y z : ℚ) (h : y ≤ z) : round_even y ≤ round_even z := by
  have hy := round_even_spec y
  have hz := round_even_spec z
  generalize round_even y = a at hy
  generalize round_even z = b at hz
  by_contra hlt
  have hlt : b + 1 ≤ a := by omega
  have hq : (b : ℚ) + 1 ≤ a := by exact_mod_cast hlt
  have ha1 : |y - a| ≤ 1 / 2 := by rcases hy with ha | ha; exact ha.le; exact ha.1.le
  have hb1 : |z - b| ≤ 1 / 2 := by rcases hz with hb | hb; exact hb.le; exact hb.1.le
  rw [abs_le] at ha1 hb1
  have e1 : (a : ℚ) = b + 1 := by linarith
  have e2 : y - a = -(1 / 2) := by linarith
  have e3 : z - b = 1 / 2 := by linarith
  have e4 : a = b + 1 := by exact_mod_cast e1
  rcases hy with ha | ha
  · rw [abs_lt] at ha; linarith [ha.1]
  rcases hz with hb | hb
  · rw [abs_lt] at hb; linarith [hb.2]
  omega

theorem round_even_nonneg (y : ℚ) (h : 0 ≤ y) : 0 ≤ round_even y := by
  have := round_even_mono 0 y h
  rwa [show (0 : ℚ) = ((0 : ℤ) : ℚ) by simp, round_even_int] at this

theorem two_zpow_pos (q : ℤ) : (0 : ℚ) < 2 ^ q := zpow_pos (by norm_num) q

theorem quantum_ge (x : ℚ) : -1074 ≤ quantum x := le_max_right _ _

theorem quantum_neg (x : ℚ) : quantum (-x) = quantum x := by
  unfold quantum; rw [abs_neg]

theorem log_bounds (x : ℚ) (hx : x ≠ 0) :
    (2 : ℚ) ^ Int.log 2 |x| ≤ |x| ∧ |x| < (2 : ℚ) ^ (Int.log 2 |x| + 1) := by
  have h1 := Int.zpow_log_le_self (b := 2) (r := |x|) (by norm_num) (abs_pos.mpr hx)
  have h2 := Int.lt_zpow_succ_log_self (b := 2) (by norm_num) |x|
  simpa using And.intro h1 h2

theorem log_eq (x : ℚ) (e : ℤ) (h1 : (2 : ℚ) ^ e ≤ |x|) (h2 : |x| < (2 : ℚ) ^ (e + 1)) :
    Int.log 2 |x| = e := by
  have hx : 0 < |x| := lt_of_lt_of_le (two_zpow_pos e) h1
  have a : e ≤ Int.log 2 |x| :=
    (Int.zpow_le_iff_le_log (b := 2) (by norm_num) hx).mp (by simpa using h1)
  have b : Int.log 2 |x| < e + 1 :=
    (Int.lt_zpow_iff_log_lt (b := 2) (by norm_num) hx).mp (by simpa using h2)
  omega

theorem fl64_zero : fl64 0 = 0 := by simp [fl64, round_even]

theorem fl64_neg (x : ℚ) : fl64 (-x) = -fl64 x := by
  unfold fl64
  rw [quantum_neg, neg_div, round_even_neg]
  push_cast
  ring

theorem fl64_nonneg (x : ℚ) (h : 0 ≤ x) : 0 ≤ fl64 x := by
  unfold fl64
  have := round_even_nonneg (x / 2 ^ quantum x) (div_nonneg h (two_zpow_pos _).le)
  exact mul_nonneg (by exact_mod_cast this) (two_zpow_pos _).le

theorem fl64_error_quantum (x : ℚ) : |fl64 x - x| ≤ 2 ^ quantum x / 2 := by
  have hq := two_zpow_pos (quantum x)
  have h := round_even_error (x / 2 ^ quantum x)
  have e : fl64 x - x = ((round_even (x / 2 ^ quantum x) : ℚ) - x / 2 ^ quantum x) * 2 ^ quantum x := by
    unfold fl64
    field_simp
  rw [e, abs_mul, abs_of_pos hq]
  calc _ ≤ 1 / 2 * 2 ^ quantum x := mul_le_mul_of_nonneg_right h hq.le
    _ = _ := by ring

theorem quantum_le_of_abs_le_one (x : ℚ) (h : |x| ≤ 1) : quantum x ≤ -52 := by
  have : Int.log 2 |x| ≤ 0 := by
    rw [Int.log_of_right_le_one 2 h]
    omega
  unfold quantum
  exact max_le (by omega) (by norm_num)

theorem fl64_error (x : ℚ) (h : |x| ≤ 1) : |fl64 x - x| ≤ 1 / 2 ^ 53 := by
  have h1 := fl64_error_quantum x
  have h2 : (2 : ℚ) ^ quantum x ≤ 2 ^ (-52 : ℤ) :=
    zpow_le_zpow_right₀ (by norm_num) (quantum_le_of_abs_le_one x h)
  have h3 : (2 : ℚ) ^ (-52 : ℤ) / 2 = 1 / 2 ^ 53 := by norm_num
  calc |fl64 x - x| ≤ 2 ^ quantum x / 2 := h1
    _ ≤ 2 ^ (-52 : ℤ) / 2 := by
      apply div_le_div_of_nonneg_right h2; norm_num
    _ = _ := h3

theorem fl64_of_int_mul (v : ℚ) (n : ℤ) (h : v = n * 2 ^ quantum v) : fl64 v = v := by
  unfold fl64
  have hq := two_zpow_pos (quantum v)
  have : v / 2 ^ quantum v = n := by
    rw [div_eq_iff hq.ne']; exact h
  rw [this, round_even_int]
  exact h.symm

theorem fl64_of_is_double (v : ℚ) (h : is_double v) : fl64 v = v := by
  obtain ⟨m, q0, hm, hq0, rfl⟩ := h
  by_cases hm0 : m = 0
  · subst hm0; simp [fl64_zero]
  set v : ℚ := m * 2 ^ q0 with hv
  have hvabs : |v| = |(m : ℚ)| * 2 ^ q0 := by
    rw [hv, abs_mul, abs_of_pos (two_zpow_pos q0)]
  have hm1 : (1 : ℚ) ≤ |(m : ℚ)| := by
    have : 1 ≤ |m| := Int.one_le_abs hm0
    exact_mod_cast this
  have hmq : |(m : ℚ)| ≤ 2 ^ 53 := by exact_mod_cast hm
  have hv0 : v ≠ 0 := by
    rw [hv]; exact mul_ne_zero (by exact_mod_cast hm0) (two_zpow_pos q0).ne'
  obtain ⟨hl1, hl2⟩ := log_bounds v hv0
  set e := Int.log 2 |v| with he
  have he1 : e ≤ 53 + q0 := by
    have : (2 : ℚ) ^ e ≤ 2 ^ (53 + q0) := by
      calc (2 : ℚ) ^ e ≤ |v| := hl1
        _ = |(m : ℚ)| * 2 ^ q0 := hvabs
        _ ≤ 2 ^ 53 * 2 ^ q0 := mul_le_mul_of_nonneg_right hmq (two_zpow_pos q0).le
        _ = 2 ^ (53 + q0) := by
          rw [zpow_add₀ (by norm_num : (2 : ℚ) ≠ 0)]; norm_num
    exact (zpow_le_zpow_iff_right₀ (by norm_num : (1 : ℚ) < 2)).mp this
  by_cases hc : e - 52 ≤ q0
  · have hq : quantum v ≤ q0 := max_le hc hq0
    obtain ⟨k, hk⟩ : ∃ k : ℕ, q0 = quantum v + k := ⟨(q0 - quantum v).toNat, by omega⟩
    apply fl64_of_int_mul v (m * 2 ^ k)
    push_cast
    rw [hv]
    conv_lhs => rw [hk]
    rw [zpow_add₀ (by norm_num : (2 : ℚ) ≠ 0), zpow_natCast]
    ring
  · have he2 : e = 53 + q0 := by omega
    have hq : quantum v = q0 + 1 := by
      unfold quantum; rw [← he, he2]
      rw [max_eq_left (by omega)]; omega
    have hm2 : |(m : ℚ)| = 2 ^ 53 := by
      apply le_antisymm hmq
      have : (2 : ℚ) ^ (53 + q0) ≤ |(m : ℚ)| * 2 ^ q0 := by
        rw [← hvabs, ← he2]; exact hl1
      rw [zpow_add₀ (by norm_num : (2 : ℚ) ≠ 0)] at this
      have := le_of_mul_le_mul_right this (two_zpow_pos q0)
      rw [show (2 : ℚ) ^ (53 : ℤ) = 2 ^ (53 : ℕ) by norm_num] at this
      exact this
    rcases abs_choice (m : ℚ) with h | h
    · apply fl64_of_int_mul v (2 ^ 52)
      rw [hq, hv, ← h, hm2, zpow_add₀ (by norm_num : (2 : ℚ) ≠ 0)]
      push_cast; ring
    · apply fl64_of_int_mul v (-2 ^ 52)
      have : (m : ℚ) = -2 ^ 53 := by rw [← hm2, h]; ring
      rw [hq, hv, this, zpow_add₀ (by norm_num : (2 : ℚ) ≠ 0)]
      push_cast; ring

theorem round_even_abs_le (y : ℚ) (n : ℤ) (h : |y| ≤ n) : |round_even y| ≤ n := by
  rw [abs_le] at h ⊢
  constructor
  · have := round_even_mono (((-n : ℤ) : ℚ)) y (by push_cast; exact h.1)
    rwa [round_even_int] at this
  · have := round_even_mono y (n : ℚ) h.2
    rwa [round_even_int] at this

theorem fl64_is_double (x : ℚ) : is_double (fl64 x) := by
  refine ⟨round_even (x / 2 ^ quantum x), quantum x, ?_, quantum_ge x, rfl⟩
  have hq := two_zpow_pos (quantum x)
  by_cases hx : x = 0
  · subst hx; simp [round_even]
  obtain ⟨-, hl2⟩ := log_bounds x hx
  have h1 : Int.log 2 |x| - 52 ≤ quantum x := le_max_left _ _
  have h2 : |x / 2 ^ quantum x| ≤ ((2 ^ 53 : ℤ) : ℚ) := by
    rw [abs_div, abs_of_pos hq, div_le_iff₀ hq]
    push_cast
    calc |x| ≤ 2 ^ (Int.log 2 |x| + 1) := hl2.le
      _ ≤ 2 ^ (53 + quantum x) := zpow_le_zpow_right₀ (by norm_num) (by omega)
      _ = 2 ^ 53 * 2 ^ quantum x := by
        rw [zpow_add₀ (by norm_num : (2 : ℚ) ≠ 0)]; norm_num
  exact round_even_abs_le _ _ h2

theorem fl64_idem (x : ℚ) : fl64 (fl64 x) = fl64 x :=
  fl64_of_is_double _ (fl64_is_double x)

/-- The binade of a positive number bounds its rounding from above. -/
theorem fl64_le_binade (x : ℚ) (hx : 0 < x) : fl64 x ≤ 2 ^ (Int.log 2 |x| + 1) := by
  have hq := two_zpow_pos (quantum x)
  obtain ⟨-, hl2⟩ := log_bounds x hx.ne'
  replace hl2 : x < 2 ^ (Int.log 2 |x| + 1) := lt_of_le_of_lt (le_abs_self x) hl2
  set e := Int.log 2 |x| with he
  have h1 : e - 52 ≤ quantum x := le_max_left _ _
  by_cases hc : 0 ≤ e + 1 - quantum x
  · obtain ⟨k, hk⟩ : ∃ k : ℕ, e + 1 = quantum x + k := ⟨(e + 1 - quantum x).toNat, by omega⟩
    have hy : x / 2 ^ quantum x ≤ ((2 ^ k : ℤ) : ℚ) := by
      rw [div_le_iff₀ hq]
      push_cast
      rw [mul_comm, ← zpow_natCast, ← zpow_add₀ (by norm_num : (2 : ℚ) ≠ 0), ← hk]
      exact hl2.le
    have := round_even_mono _ _ hy
    rw [round_even_int] at this
    unfold fl64
    calc (round_even (x / 2 ^ quantum x) : ℚ) * 2 ^ quantum x
        ≤ ((2 ^ k : ℤ) : ℚ) * 2 ^ quantum x :=
          mul_le_mul_of_nonneg_right (by exact_mod_cast this) hq.le
      _ = 2 ^ (e + 1) := by
        push_cast
        rw [mul_comm, ← zpow_natCast, ← zpow_add₀ (by norm_num : (2 : ℚ) ≠ 0), ← hk]
  · have hy : |x / 2 ^ quantum x - ((0 : ℤ) : ℚ)| < 1 / 2 := by
      have h0 : 0 < x / 2 ^ quantum x := div_pos hx hq
      simp only [Int.cast_zero, sub_zero, abs_of_pos h0]
      rw [div_lt_iff₀ hq]
      calc x < 2 ^ (e + 1) := hl2
        _ ≤ 2 ^ (quantum x - 1) := zpow_le_zpow_right₀ (by norm_num) (by omega)
        _ = 1 / 2 * 2 ^ quantum x := by
          rw [zpow_sub₀ (by norm_num : (2 : ℚ) ≠ 0)]; norm_num; ring
    unfold fl64
    rw [round_even_of_lt _ 0 hy]
    simp only [Int.cast_zero, zero_mul]
    exact (two_zpow_pos _).le

/-- The binade of a positive normal number bounds its rounding from below. -/
theorem binade_le_fl64 (x : ℚ) (hx : 0 < x) (hn : -1074 ≤ Int.log 2 |x| - 52) :
    2 ^ Int.log 2 |x| ≤ fl64 x := by
  obtain ⟨hl1, -⟩ := log_bounds x hx.ne'
  replace hl1 : (2 : ℚ) ^ Int.log 2 |x| ≤ x := le_trans hl1 (abs_of_pos hx).le
  have hqe : quantum x = Int.log 2 |x| - 52 := max_eq_left hn
  have hq := two_zpow_pos (quantum x)
  have hy : (((2 ^ 52 : ℕ) : ℤ) : ℚ) ≤ x / 2 ^ quantum x := by
    rw [le_div_iff₀ hq]
    calc _ = (2 : ℚ) ^ (Int.log 2 |x|) := by
          rw [hqe, zpow_sub₀ (by norm_num : (2 : ℚ) ≠ 0)]; norm_num; ring
      _ ≤ x := hl1
  have := round_even_mono _ _ hy
  rw [round_even_int] at this
  unfold fl64
  calc (2 : ℚ) ^ Int.log 2 |x| = (((2 ^ 52 : ℕ) : ℤ) : ℚ) * 2 ^ quantum x := by
        rw [hqe, zpow_sub₀ (by norm_num : (2 : ℚ) ≠ 0)]; norm_num; ring
    _ ≤ _ := mul_le_mul_of_nonneg_right (by exact_mod_cast this) hq.le

theorem fl64_mono_pos (x y : ℚ) (hx : 0 < x) (h : x ≤ y) : fl64 x ≤ fl64 y := by
  have hy : 0 < y := lt_of_lt_of_le hx h
  have hl : Int.log 2 |x| ≤ Int.log 2 |y| :=
    Int.log_mono_right (abs_pos.mpr hx.ne') (by rwa [abs_of_pos hx, abs_of_pos hy])
  have hq : quantum x ≤ quantum y := max_le_max (by omega) le_rfl
  rcases hq.lt_or_eq with hq | hq
  · have h1 := quantum_ge x
    have hn : -1074 ≤ Int.log 2 |y| - 52 := by
      by_contra hc
      have : quantum y = -1074 := max_eq_right (by omega)
      omega
    have hqy : quantum y = Int.log 2 |y| - 52 := max_eq_left hn
    have hqx : Int.log 2 |x| - 52 ≤ quantum x := le_max_left _ _
    calc fl64 x ≤ 2 ^ (Int.log 2 |x| + 1) := fl64_le_binade x hx
      _ ≤ 2 ^ Int.log 2 |y| := zpow_le_zpow_right₀ (by norm_num) (by omega)
      _ ≤ fl64 y := binade_le_fl64 y hy hn
  · unfold fl64
    rw [hq]
    have hp := two_zpow_pos (quantum y)
    have := round_even_mono (x / 2 ^ quantum y) (y / 2 ^ quantum y)
      (div_le_div_of_nonneg_right h hp.le)
    exact mul_le_mul_of_nonneg_right (by exact_mod_cast this) hp.le

theorem fl64_mono (x y : ℚ) (h : x ≤ y) : fl64 x ≤ fl64 y := by
  rcases lt_trichotomy 0 x with hx | hx | hx
  · exact fl64_mono_pos x y hx h
  · subst hx; rw [fl64_zero]; exact fl64_nonneg y h
  · rcases lt_trichotomy 0 y with hy | hy | hy
    · have a := fl64_nonneg (-x) (by linarith)
      rw [fl64_neg] at a
      linarith [fl64_nonneg y hy.le]
    · subst hy
      have a := fl64_nonneg (-x) (by linarith)
      rw [fl64_neg] at a
      rw [fl64_zero]; linarith
    · have a := fl64_mono_pos (-y) (-x) (by linarith) (by linarith)
      rw [fl64_neg, fl64_neg] at a
      linarith

theorem is_double_grid (v : ℚ) (h : is_double v) : ∃ k : ℤ, v = k * 2 ^ (-1074 : ℤ) := by
  obtain ⟨m, q, -, hq, rfl⟩ := h
  obtain ⟨n, hn⟩ : ∃ n : ℕ, q = -1074 + n := ⟨(q + 1074).toNat, by omega⟩
  refine ⟨m * 2 ^ n, ?_⟩
  rw [hn, zpow_add₀ (by norm_num : (2 : ℚ) ≠ 0), zpow_natCast]
  push_cast; ring

theorem fl64_no_flush (a b : ℚ) (ha : fl64 a = a) (hb : fl64 b = b)
    (h : fl64 (a - b) = 0) : a = b := by
  by_contra hne
  have hd : a - b ≠ 0 := sub_ne_zero.mpr hne
  obtain ⟨ka, hka⟩ := is_double_grid a (ha ▸ fl64_is_double a)
  obtain ⟨kb, hkb⟩ := is_double_grid b (hb ▸ fl64_is_double b)
  have hg := two_zpow_pos (-1074)
  have hk : a - b = ((ka - kb : ℤ) : ℚ) * 2 ^ (-1074 : ℤ) := by
    rw [hka, hkb]; push_cast; ring
  have hk0 : ka - kb ≠ 0 := by
    intro h0; rw [h0] at hk; simp at hk; exact hd hk
  have hge : (2 : ℚ) ^ (-1074 : ℤ) ≤ |a - b| := by
    rw [hk, abs_mul, abs_of_pos hg]
    have : (1 : ℚ) ≤ |((ka - kb : ℤ) : ℚ)| := by
      have := Int.one_le_abs hk0
      exact_mod_cast this
    calc (2 : ℚ) ^ (-1074 : ℤ) = 1 * 2 ^ (-1074 : ℤ) := by ring
      _ ≤ _ := mul_le_mul_of_nonneg_right this hg.le
  obtain ⟨hl1, -⟩ := log_bounds (a - b) hd
  have hq := two_zpow_pos (quantum (a - b))
  have hqle : (2 : ℚ) ^ quantum (a - b) ≤ |a - b| := by
    unfold quantum
    rcases max_cases (Int.log 2 |a - b| - 52) (-1074) with ⟨e, -⟩ | ⟨e, -⟩
    · rw [e]
      exact le_trans (zpow_le_zpow_right₀ (by norm_num) (by omega)) hl1
    · rw [e]; exact hge
  have herr := fl64_error_quantum (a - b)
  rw [h, zero_sub, abs_neg] at herr
  have : 0 < |a - b| := abs_pos.mpr hd
  linarith

/-- A dyadic number of few digits is a `double`. -/
theorem fl64_half : fl64 (1 / 2) = 1 / 2 :=
  fl64_of_is_double _ ⟨1, -1, by norm_num, by norm_num, by norm_num⟩

/-- A double of `[1/2, 1]` less `1` is a double. -/
theorem fl64_sub_one (v : ℚ) (hv : fl64 v = v) (h1 : 1 / 2 ≤ v) (h2 : v ≤ 1) :
    fl64 (v - 1) = v - 1 := by
  apply fl64_of_is_double
  obtain ⟨m, q, hm, hq, e⟩ := hv ▸ fl64_is_double v
  have hp := two_zpow_pos q
  have hmq : (m : ℚ) ≤ 2 ^ 53 := by
    have : m ≤ 2 ^ 53 := le_trans (le_abs_self m) hm
    exact_mod_cast this
  have hq1 : -54 ≤ q := by
    by_contra hc
    have hlt : q ≤ -55 := by omega
    have h3 : (2 : ℚ) ^ q ≤ 2 ^ (-55 : ℤ) := zpow_le_zpow_right₀ (by norm_num) hlt
    have h4 : v ≤ 2 ^ 53 * 2 ^ (-55 : ℤ) := by
      rw [e]
      by_cases hm0 : (0 : ℚ) ≤ m
      · exact mul_le_mul hmq h3 hp.le (by norm_num)
      · have : (m : ℚ) * 2 ^ q ≤ 0 :=
          mul_nonpos_of_nonpos_of_nonneg (not_le.mp hm0).le hp.le
        have : (0 : ℚ) < 2 ^ 53 * 2 ^ (-55 : ℤ) := by positivity
        linarith
    norm_num at h4
    linarith
  obtain ⟨k, hk⟩ : ∃ k : ℕ, q = -54 + k := ⟨(q + 54).toNat, by omega⟩
  have ev : v = ((m * 2 ^ k : ℤ) : ℚ) * 2 ^ (-54 : ℤ) := by
    rw [e, hk, zpow_add₀ (by norm_num : (2 : ℚ) ≠ 0), zpow_natCast]
    push_cast; ring
  refine ⟨m * 2 ^ k - 2 ^ 54, -54, ?_, by norm_num, ?_⟩
  · have h0 : (2 : ℚ) ^ (-54 : ℤ) * 2 ^ 54 = 1 := by norm_num
    have h5 : ((m * 2 ^ k : ℤ) : ℚ) = v * 2 ^ 54 := by
      rw [ev, mul_assoc, h0, mul_one]
    have h6 : (2 : ℚ) ^ 53 ≤ ((m * 2 ^ k : ℤ) : ℚ) := by rw [h5]; linarith
    have h7 : ((m * 2 ^ k : ℤ) : ℚ) ≤ 2 ^ 54 := by rw [h5]; linarith
    have h8 : (2 : ℤ) ^ 53 ≤ m * 2 ^ k := by exact_mod_cast h6
    have h9 : m * 2 ^ k ≤ (2 : ℤ) ^ 54 := by exact_mod_cast h7
    rw [abs_le]
    constructor <;> omega
  · rw [ev]; push_cast; norm_num; ring

theorem fl64_double_rounding : double_rounding fl64 :=
  { mono := fl64_mono
    zero := fl64_zero
    idem := fl64_idem
    error := fl64_error
    no_flush := fl64_no_flush
    half := fl64_half
    sub_one := fl64_sub_one }

/-- Evaluation of the rounding at a number of the normal range. -/
theorem fl64_eval (x : ℚ) (e m : ℤ) (he : -1022 ≤ e) (h1 : (2 : ℚ) ^ e ≤ |x|)
    (h2 : |x| < (2 : ℚ) ^ (e + 1)) (hm : |x / 2 ^ (e - 52) - m| < 1 / 2) :
    fl64 x = m * 2 ^ (e - 52) := by
  have hq : quantum x = e - 52 := by
    unfold quantum
    rw [log_eq x e h1 h2]
    exact max_eq_left (by omega)
  unfold fl64
  rw [hq, round_even_of_lt _ m hm]

@[simp] theorem point.sub_x (a b : point K) : (a - b).x = a.x - b.x := rfl

@[simp] theorem point.sub_y (a b : point K) : (a - b).y = a.y - b.y := rfl

@[simp] theorem point.add_x (a b : point K) : (a + b).x = a.x + b.x := rfl

@[simp] theorem point.add_y (a b : point K) : (a + b).y = a.y + b.y := rfl

/-! ### `trim_01` -/

theorem trunc_of_nonneg (v : K) (h : 0 ≤ v) : trunc v = ((⌊v⌋ : ℤ) : K) := by
  simp [trunc, h]

theorem trunc_of_neg (v : K) (h : v < 0) : trunc v = ((⌈v⌉ : ℤ) : K) := by
  simp [trunc, not_le.mpr h]

theorem trunc_eq_zero (v : K) (h1 : -1 < v) (h2 : v < 1) : trunc v = 0 := by
  unfold trunc
  split_ifs with h
  · have : ⌊v⌋ = 0 := by
      rw [Int.floor_eq_iff]; constructor <;> simp [h, h2]
    simp [this]
  · have : ⌈v⌉ = 0 := by
      rw [Int.ceil_eq_iff]; constructor
      · simpa using h1
      · simpa using (not_le.mp h).le
    simp [this]

/-- For a positive argument `trim_01` is the fractional part. -/
theorem trim_01_of_pos (v : K) (h : 0 < v) : trim_01 v = Int.fract v := by
  unfold trim_01
  rw [if_pos h, trunc_of_nonneg v h.le]
  rfl

/-- For a positive argument `trim_01` returns a value in `[0, 1)`. -/
theorem trim_01_of_pos_mem (v : K) (h : 0 < v) : 0 ≤ trim_01 v ∧ trim_01 v < 1 := by
  rw [trim_01_of_pos v h]
  exact ⟨Int.fract_nonneg v, Int.fract_lt_one v⟩

/-- For an argument that is zero or negative `trim_01` returns a value in `[1, 2)`. -/
theorem trim_01_of_nonpos (v : K) (h : v ≤ 0) : 1 ≤ trim_01 v ∧ trim_01 v < 2 := by
  have hv : ¬ v > 0 := not_lt.mpr h
  simp only [trim_01, hv, if_false]
  rcases h.lt_or_eq with h | h
  · rw [trunc_of_neg v h]
    have h1 := Int.le_ceil v
    have h2 := Int.ceil_lt_add_one v
    constructor <;> linarith
  · subst h
    simp [trunc]

/-- C1 (the code at a failing input): the position `p = 1/16` and the
displacement `d = -1/8` are in range, the sum `p + d` is negative, and
`trim_01 (p + d)` is `17/16`, which is not below `1`: the wrapped result is
outside `[0, 1)`. -/
theorem trim_01_negative_sum_not_below_one :
    (0 ≤ (1/16 : ℚ) ∧ (1/16 : ℚ) < 1) ∧ (-1 < (-1/8 : ℚ) ∧ (-1/8 : ℚ) < 1) ∧
      trim_01 ((1/16 : ℚ) + (-1/8)) = 17/16 ∧ ¬ trim_01 ((1/16 : ℚ) + (-1/8)) < 1 := by
  have h : trim_01 ((1/16 : ℚ) + (-1/8)) = 17/16 := by
    have ht : trunc ((1/16 : ℚ) + (-1/8)) = 0 := trunc_eq_zero _ (by norm_num) (by norm_num)
    simp only [trim_01, ht]
    norm_num
  refine ⟨by norm_num, by norm_num, h, ?_⟩
  rw [h]; norm_num

/-- C2 (the code at a failing input): `trim_01 (-1/2)` is `3/2` and
`trim_01 (3/2)` is `1/2`, so `trim_01 (trim_01 v)` differs from `trim_01 v`
at `v = -1/2`: wrapping is not idempotent there. -/
theorem trim_01_not_idempotent_at_neg_half :
    trim_01 (-1/2 : ℚ) = 3/2 ∧ trim_01 (trim_01 (-1/2 : ℚ)) = 1/2 ∧
      trim_01 (trim_01 (-1/2 : ℚ)) ≠ trim_01 (-1/2 : ℚ) := by
  have h1 : trim_01 (-1/2 : ℚ) = 3/2 := by
    have ht : trunc (-1/2 : ℚ) = 0 := trunc_eq_zero _ (by norm_num) (by norm_num)
    simp only [trim_01, ht]
    norm_num
  have h2 : trim_01 (3/2 : ℚ) = 1/2 := by
    rw [trim_01_of_pos _ (by norm_num)]
    rw [Int.fract_eq_iff]
    refine ⟨by norm_num, by norm_num, 1, by norm_num⟩
  refine ⟨h1, by rw [h1, h2], ?_⟩
  rw [h1, h2]; norm_num

/-! ### `intersect` -/

/-- C3 (the code at a failing input): with an exact square root of `4`, the
segment from `(2,0)` to `(0,0)` against the unit circle at the origin gives
`false`, and the same segment with its endpoints swapped gives `true`: the
result of `intersect` depends on the order of the endpoints. -/
theorem intersect_swap_differs (m : Libm K) (h : m.sqrt 4 = 2) :
    intersect m ⟨2, 0⟩ ⟨0, 0⟩ ⟨0, 0⟩ 1 = .ok false ∧
      intersect m ⟨0, 0⟩ ⟨2, 0⟩ ⟨0, 0⟩ 1 = .ok true := by
  constructor
  · simp only [intersect, norm2, dot, quotient_in_01, point.sub_x, point.sub_y]
    norm_num [h]
  · simp only [intersect, norm2, dot, quotient_in_01, point.sub_x, point.sub_y]
    norm_num [h]

/-- The theorem `intersect_swap_differs` at the real square root. -/
theorem intersect_swap_differs_witness :
    Real.sqrt 4 = 2 ∧
      (intersect (⟨Real.sqrt, Real.cos, Real.sin, fun x y => Real.sqrt (x * x + y * y)⟩ : Libm ℝ)
          ⟨2, 0⟩ ⟨0, 0⟩ ⟨0, 0⟩ 1 = .ok false ∧
        intersect (⟨Real.sqrt, Real.cos, Real.sin, fun x y => Real.sqrt (x * x + y * y)⟩ : Libm ℝ)
          ⟨0, 0⟩ ⟨2, 0⟩ ⟨0, 0⟩ 1 = .ok true) :=
  have h4 : Real.sqrt 4 = 2 := by
    rw [show (4 : ℝ) = 2 ^ 2 by norm_num]
    exact Real.sqrt_sq (by norm_num)
  ⟨h4, intersect_swap_differs _ h4⟩

/-- C4 (the code at a failing input): with an exact square root of `4` and an
exact `hypot 1 0`, the segment with `p = (2,0)`, `q = (0,0)` has `p ≠ q` and
crosses the unit circle at the origin (the point `q + t (p - q)` for `t = 1/2`
is at distance `1` from the center), and `intersect` returns `false`. -/
theorem intersect_misses_crossing (m : Libm K) (h : m.sqrt 4 = 2) (hh : m.hypot 1 0 = 1) :
    (⟨2, 0⟩ : point K) ≠ ⟨0, 0⟩ ∧
      intersect m ⟨2, 0⟩ ⟨0, 0⟩ ⟨0, 0⟩ 1 = .ok false ∧
      ∃ t : K, 0 ≤ t ∧ t ≤ 1 ∧
        norm m ((⟨0, 0⟩ : point K) + point.lscale t ((⟨2, 0⟩ : point K) - ⟨0, 0⟩) - ⟨0, 0⟩) = 1 := by
  refine ⟨?_, ?_, 1 / 2, by norm_num, by norm_num, ?_⟩
  · intro hp
    have := congrArg point.x hp
    norm_num at this
  · simp only [intersect, norm2, dot, quotient_in_01, point.sub_x, point.sub_y]
    norm_num [h]
  · simp only [norm, point.lscale, point.sub_x, point.sub_y, point.add_x, point.add_y]
    norm_num [hh]

/-- The theorem `intersect_misses_crossing` at the real square root. -/
theorem intersect_misses_crossing_witness :
    (Real.sqrt 4 = 2 ∧ Real.sqrt (1 * 1 + 0 * 0) = 1) ∧
      ((⟨2, 0⟩ : point ℝ) ≠ ⟨0, 0⟩ ∧
        intersect (⟨Real.sqrt, Real.cos, Real.sin, fun x y => Real.sqrt (x * x + y * y)⟩ : Libm ℝ)
          ⟨2, 0⟩ ⟨0, 0⟩ ⟨0, 0⟩ 1 = .ok false ∧
        ∃ t : ℝ, 0 ≤ t ∧ t ≤ 1 ∧
          norm (⟨Real.sqrt, Real.cos, Real.sin, fun x y => Real.sqrt (x * x + y * y)⟩ : Libm ℝ)
            ((⟨0, 0⟩ : point ℝ) + point.lscale t ((⟨2, 0⟩ : point ℝ) - ⟨0, 0⟩) - ⟨0, 0⟩) = 1) :=
  have h4 : Real.sqrt 4 = 2 := by
    rw [show (4 : ℝ) = 2 ^ 2 by norm_num]
    exact Real.sqrt_sq (by norm_num)
  have h1 : Real.sqrt (1 * 1 + 0 * 0) = 1 := by norm_num
  ⟨⟨h4, h1⟩, intersect_misses_crossing _ h4 h1⟩

/-! ### Lists and `destroy_asteroid` -/

theorem swap_pop_last {α : Type} (pre : List α) (e : α) :
    swap_pop (pre ++ [e]) pre.length = pre := by
  simp [swap_pop]

theorem swap_pop_mid {α : Type} (pre rest : List α) (e b : α) :
    swap_pop (pre ++ e :: (rest ++ [b])) pre.length = pre ++ b :: rest := by
  have h : pre ++ e :: (rest ++ [b]) = (pre ++ e :: rest) ++ [b] := by simp
  have h2 : (pre ++ b :: rest ++ [b]).dropLast = pre ++ b :: rest := List.dropLast_concat
  simp only [swap_pop]
  rw [h, List.getLast?_concat]
  simp only [List.append_assoc, List.cons_append]
  rw [List.set_append_right _ _ (le_refl _)]
  simp only [Nat.sub_self, List.set_cons_zero]
  simpa using h2

theorem getElem?_append_cons {α : Type} (pre rest : List α) (e : α) :
    (pre ++ e :: rest)[pre.length]? = some e := by
  rw [List.getElem?_append_right (le_refl _)]
  simp

theorem set_append_cons {α : Type} (pre rest : List α) (e e' : α) :
    (pre ++ e :: rest).set pre.length e' = pre ++ e' :: rest := by
  rw [List.set_append_right _ _ (le_refl _)]
  simp

theorem spawn_children_spec (env : Env K) (pos : point K) (size : Int) (velocity : K)
    (n : Nat) (s : asteroids_model K) :
    ∃ new : List (asteroid K),
      (spawn_children env pos size velocity n s).asteroids = s.asteroids ++ new ∧
      new.length = n ∧
      (∀ c ∈ new, c.pos = pos ∧ c.size = size - 1 ∧ c.health = size) ∧
      (spawn_children env pos size velocity n s).bullets = s.bullets ∧
      (spawn_children env pos size velocity n s).dead = s.dead ∧
      (spawn_children env pos size velocity n s).ship = s.ship ∧
      (spawn_children env pos size velocity n s).ship_yaw = s.ship_yaw ∧
      (spawn_children env pos size velocity n s).time_till_next_shot = s.time_till_next_shot ∧
      (spawn_children env pos size velocity n s).rand_pos = s.rand_pos + 2 * n := by
  induction n generalizing s with
  | zero => exact ⟨[], by simp [spawn_children]⟩
  | succ n ih =>
    simp only [spawn_children]
    obtain ⟨new, h1, h2, h3, h4, h5, h6, h7, h8, h9⟩ := ih
      { s with
        asteroids := s.asteroids ++ [child env pos size velocity s.rand_pos]
        rand_pos := s.rand_pos + 2 }
    refine ⟨child env pos size velocity s.rand_pos :: new, ?_, ?_, ?_, h4, h5, h6, h7, h8, ?_⟩
    · rw [h1]; simp
    · simp [h2]
    · intro c hc
      rcases List.mem_cons.mp hc with rfl | hc
      · simp [child]
      · exact h3 c hc
    · rw [h9]; simp; ring

/-- C5: for every position and every size `s` in `{0,1,2}`,
`destroy_asteroid pos s` returns normally and appends to the asteroid list
exactly 2 asteroids when `s = 2`, exactly 3 when `s = 1` and nothing when
`s = 0`; every appended asteroid sits at `pos` and has size `s - 1`, which is
strictly smaller, and the asteroids already in the list stay in place as a
prefix. -/
theorem destroy_asteroid_split (env : Env K) (pos : point K) (size : Int)
    (s : asteroids_model K) (h : size = 0 ∨ size = 1 ∨ size = 2) :
    ∃ (s' : asteroids_model K) (new : List (asteroid K)),
      destroy_asteroid env pos size s = .ok s' ∧
      s'.asteroids = s.asteroids ++ new ∧
      new.length = (if size = 2 then 2 else if size = 1 then 3 else 0) ∧
      (∀ c ∈ new, c.pos = pos ∧ c.size = size - 1 ∧ c.size < size) := by
  rcases h with rfl | rfl | rfl
  · exact ⟨s, [], by simp [destroy_asteroid]⟩
  · obtain ⟨new, h1, h2, h3, -⟩ := spawn_children_spec env pos 1 3.1 3 s
    refine ⟨_, new, by simp [destroy_asteroid], h1, by simp [h2], ?_⟩
    intro c hc
    obtain ⟨a, b, -⟩ := h3 c hc
    exact ⟨a, b, by rw [b]; norm_num⟩
  · obtain ⟨new, h1, h2, h3, -⟩ := spawn_children_spec env pos 2 2 2 s
    refine ⟨_, new, by simp [destroy_asteroid], h1, by simp [h2], ?_⟩
    intro c hc
    obtain ⟨a, b, -⟩ := h3 c hc
    exact ⟨a, b, by rw [b]; norm_num⟩


/-! ### The passes of `draw` -/

/-- The bullets that the bullet pass keeps. -/
theorem bullets_loop_spec (frame_time : Nat) :
    ∀ (fuel : Nat) (rest pre : List (bullet K)), rest.length < fuel →
      ∃ out, bullets_loop env frame_time fuel (pre ++ rest) pre.length = .ok out ∧
        out.Perm (pre ++ (rest.filter
          (fun b => decide (0 ≤ (bullet_step env frame_time b).ttl))).map (bullet_step env frame_time)) := by
  intro fuel
  induction fuel with
  | zero => intro rest pre h; exact absurd h (Nat.not_lt_zero _)
  | succ fuel ih =>
    intro rest pre h
    cases rest with
    | nil => exact ⟨pre, by simp [bullets_loop], by simp⟩
    | cons e0 rest =>
      have hne : ¬ pre.length = (pre ++ e0 :: rest).length := by simp
      simp only [bullets_loop, hne, if_false, getElem?_append_cons, set_append_cons]
      by_cases hk : (bullet_step env frame_time e0).ttl < 0
      · have hk' : ¬ 0 ≤ (bullet_step env frame_time e0).ttl := not_le.mpr hk
        simp only [hk, if_true, List.filter_cons, hk', decide_False, Bool.false_eq_true, if_false]
        rcases List.eq_nil_or_concat rest with rfl | ⟨r, b, rfl⟩
        · rw [swap_pop_last]
          obtain ⟨out, h1, h2⟩ := ih [] pre (by simp at h ⊢; omega)
          refine ⟨out, by simpa using h1, by simpa using h2⟩
        · rw [List.concat_eq_append] at h ⊢
          rw [swap_pop_mid]
          obtain ⟨out, h1, h2⟩ := ih (b :: r) pre (by simp at h ⊢; omega)
          refine ⟨out, h1, h2.trans ?_⟩
          apply List.Perm.append_left
          apply List.Perm.map
          apply List.Perm.filter
          simpa using (List.perm_append_singleton b r).symm
      · have hk' : 0 ≤ (bullet_step env frame_time e0).ttl := not_lt.mp hk
        simp only [hk, if_false, List.filter_cons, hk', decide_True, if_true, List.map_cons]
        obtain ⟨out, h1, h2⟩ := ih rest (pre ++ [bullet_step env frame_time e0])
          (by simp at h ⊢; omega)
        refine ⟨out, ?_, ?_⟩
        · simpa using h1
        · simpa using h2


theorem same_ship.refl (s : asteroids_model K) : same_ship s s := by
  simp [same_ship]

theorem same_ship.trans {s1 s2 s3 : asteroids_model K} (h1 : same_ship s1 s2)
    (h2 : same_ship s2 s3) : same_ship s1 s3 := by
  obtain ⟨a1, a2, a3, a4, a5, a6, a7⟩ := h1
  obtain ⟨b1, b2, b3, b4, b5, b6, b7⟩ := h2
  exact ⟨b1.trans a1, b2.trans a2, b3.trans a3, b4.trans a4, b5.trans a5, b6.trans a6,
    b7.trans a7⟩

theorem spawn_children_same_ship (env : Env K) (pos : point K) (size : Int) (velocity : K)
    (n : Nat) (s : asteroids_model K) :
    same_ship s (spawn_children env pos size velocity n s) ∧
      (spawn_children env pos size velocity n s).dead = s.dead ∧
      (spawn_children env pos size velocity n s).bullets = s.bullets := by
  induction n generalizing s with
  | zero => simp [spawn_children, same_ship]
  | succ n ih =>
    simp only [spawn_children]
    obtain ⟨h1, h2, h3⟩ := ih
      { s with
        asteroids := s.asteroids ++ [child env pos size velocity s.rand_pos]
        rand_pos := s.rand_pos + 2 }
    exact ⟨h1, h2, h3⟩

theorem destroy_asteroid_same_ship (env : Env K) (pos : point K) (size : Int)
    (s s' : asteroids_model K) (h : destroy_asteroid env pos size s = .ok s') :
    same_ship s s' ∧ s'.dead = s.dead ∧ s'.bullets = s.bullets := by
  unfold destroy_asteroid at h
  split_ifs at h
  · cases h; exact ⟨same_ship.refl s, rfl, rfl⟩
  · cases h; exact spawn_children_same_ship env pos size _ _ s
  · cases h; exact spawn_children_same_ship env pos size _ _ s

theorem asteroid_visit_same_ship (env : Env K) (frame_time : Nat) (s : asteroids_model K)
    (i : Nat) (s' : asteroids_model K) (next : Option Nat)
    (h : asteroid_visit env frame_time s i = .ok (s', next)) :
    same_ship s s' ∧ (s.dead = true → s'.dead = true) := by
  unfold asteroid_visit at h
  cases he : s.asteroids[i]? with
  | none => simp [he] at h
  | some e0 =>
    simp only [he] at h
    cases hscan : bullet_scan env (asteroid_step frame_time e0) s.bullets 0 with
    | error err => simp [hscan, bind, Except.bind] at h
    | ok hit =>
      simp only [hscan, bind, Except.bind] at h
      split at h
      · simp at h
      · rename_i b hcol
        split_ifs at h with hb hz
        · simp only [pure, Except.pure, Except.ok.injEq, Prod.mk.injEq] at h
          obtain ⟨h, -⟩ := h
          subst h
          exact ⟨by simp [same_ship], fun _ => rfl⟩
        · split at h
          · simp at h
          · rename_i s3 hd
            simp only [pure, Except.pure, Except.ok.injEq, Prod.mk.injEq] at h
            obtain ⟨h, -⟩ := h
            subst h
            obtain ⟨k1, k2, -⟩ := destroy_asteroid_same_ship env _ _ _ _ hd
            exact ⟨same_ship.trans (by simp [same_ship]) k1, fun hdead => by rw [k2]; exact hdead⟩
        · simp only [pure, Except.pure, Except.ok.injEq, Prod.mk.injEq] at h
          obtain ⟨h, -⟩ := h
          subst h
          exact ⟨by simp [same_ship], fun hdead => hdead⟩

theorem draw_asteroids_same_ship (env : Env K) (frame_time : Nat) :
    ∀ (fuel : Nat) (s : asteroids_model K) (i : Nat) (s' : asteroids_model K),
      draw_asteroids env frame_time fuel s i = .ok s' →
        same_ship s s' ∧ (s.dead = true → s'.dead = true) := by
  intro fuel
  induction fuel with
  | zero => intro s i s' h; simp [draw_asteroids] at h
  | succ fuel ih =>
    intro s i s' h
    simp only [draw_asteroids] at h
    split_ifs at h with hi
    · cases h; exact ⟨same_ship.refl s, id⟩
    · split at h
      · simp at h
      · rename_i s1 hv
        cases h
        exact asteroid_visit_same_ship env frame_time s i _ _ hv
      · rename_i s1 j hv
        obtain ⟨a1, a2⟩ := asteroid_visit_same_ship env frame_time s i _ _ hv
        obtain ⟨b1, b2⟩ := ih _ _ _ h
        exact ⟨same_ship.trans a1 b1, fun hd => b2 (a2 hd)⟩

theorem trim_01_of_mem (v : K) (h0 : 0 < v) (h1 : v < 1) : trim_01 v = v := by
  unfold trim_01
  rw [if_pos h0, trunc_eq_zero v (by linarith) h1, sub_zero]

/-! ### `gen_asteroid` and the respawn block -/

theorem gen_asteroid_spec (fuel : Nat) (env : Env K) (s s' : asteroids_model K)
    (h : gen_asteroid fuel env s = .ok s') :
    (∃ c : asteroid K, s'.asteroids = s.asteroids ++ [c] ∧ c.size = 2 ∧ c.health = 3) ∧
      same_ship s s' ∧ s'.dead = s.dead ∧ s'.bullets = s.bullets := by
  simp only [gen_asteroid, bind, Except.bind] at h
  split at h
  · simp at h
  · simp only [pure, Except.pure, Except.ok.injEq] at h
    subst h
    exact ⟨⟨_, rfl, rfl, rfl⟩, by simp [same_ship], rfl, rfl⟩

theorem draw_respawn_spec (fuel : Nat) (env : Env K) (s s' : asteroids_model K)
    (h : draw_respawn fuel env s = .ok s') :
    same_ship s s' ∧ s'.dead = s.dead ∧ s'.bullets = s.bullets ∧
      (s.asteroids ≠ [] → s' = s) ∧
      (s.asteroids = [] → ∃ c1 c2 c3 : asteroid K, s'.asteroids = [c1, c2, c3] ∧
        (c1.size = 2 ∧ c1.health = 3) ∧ (c2.size = 2 ∧ c2.health = 3) ∧
        (c3.size = 2 ∧ c3.health = 3)) := by
  unfold draw_respawn at h
  split_ifs at h with he
  · cases h1 : gen_asteroid fuel env s with
    | error err => simp [h1, bind, Except.bind] at h
    | ok s1 =>
      simp only [h1, bind, Except.bind] at h
      cases h2 : gen_asteroid fuel env s1 with
      | error err => simp [h2] at h
      | ok s2 =>
        simp only [h2] at h
        obtain ⟨⟨c1, a1, b1⟩, k1, d1, u1⟩ := gen_asteroid_spec fuel env s s1 h1
        obtain ⟨⟨c2, a2, b2⟩, k2, d2, u2⟩ := gen_asteroid_spec fuel env s1 s2 h2
        obtain ⟨⟨c3, a3, b3⟩, k3, d3, u3⟩ := gen_asteroid_spec fuel env s2 s' h
        have he' : s.asteroids = [] := List.isEmpty_iff.mp he
        refine ⟨same_ship.trans (same_ship.trans k1 k2) k3, by rw [d3, d2, d1], by rw [u3, u2, u1],
          fun hne => absurd he' hne, fun _ => ⟨c1, c2, c3, ?_, b1, b2, b3⟩⟩
        rw [a3, a2, a1, he']
        rfl
  · cases h
    refine ⟨same_ship.refl s, rfl, rfl, fun _ => rfl, fun he' => ?_⟩
    exact absurd (List.isEmpty_iff.mpr he') he

theorem draw_bullets_spec (frame_time fuel : Nat) (s : asteroids_model K)
    (h : s.bullets.length < fuel) :
    ∃ bs, draw_bullets env frame_time fuel s = .ok { s with bullets := bs } ∧
      bs.Perm ((s.bullets.filter (fun b => decide (0 ≤ (bullet_step env frame_time b).ttl))).map
        (bullet_step env frame_time)) := by
  obtain ⟨out, h1, h2⟩ := bullets_loop_spec frame_time fuel s.bullets [] h
  refine ⟨out, ?_, by simpa using h2⟩
  simp only [List.nil_append, List.length_nil] at h1
  simp [draw_bullets, h1, bind, Except.bind, pure, Except.pure]

theorem draw_bullets_frame (frame_time fuel : Nat) (s s' : asteroids_model K)
    (h : draw_bullets env frame_time fuel s = .ok s') :
    same_ship s s' ∧ s'.dead = s.dead ∧ s'.asteroids = s.asteroids := by
  unfold draw_bullets at h
  cases hb : bullets_loop env frame_time fuel s.bullets 0 with
  | error err => simp [hb, bind, Except.bind] at h
  | ok bs =>
    simp only [hb, bind, Except.bind, pure, Except.pure, Except.ok.injEq] at h
    subst h
    exact ⟨by simp [same_ship], rfl, rfl⟩

/-- The tick as the composition of its passes. -/
theorem draw_eq_of_passes (fuel : Nat) (env : Env K) (frame_time : Nat)
    (s0 s1 s2 : asteroids_model K)
    (h1 : draw_asteroids env frame_time fuel (draw_ship env frame_time s0) 0 = .ok s1)
    (h2 : draw_bullets env frame_time fuel s1 = .ok s2) :
    draw fuel env frame_time s0 = draw_respawn fuel env s2 := by
  simp [draw, h1, h2, bind, Except.bind]

/-- Every tick that returns went through its passes. -/
theorem draw_passes (fuel : Nat) (env : Env K) (frame_time : Nat)
    (s0 s' : asteroids_model K) (h : draw fuel env frame_time s0 = .ok s') :
    ∃ s1 s2, draw_asteroids env frame_time fuel (draw_ship env frame_time s0) 0 = .ok s1 ∧
      draw_bullets env frame_time fuel s1 = .ok s2 ∧ draw_respawn fuel env s2 = .ok s' := by
  unfold draw at h
  cases h1 : draw_asteroids env frame_time fuel (draw_ship env frame_time s0) 0 with
  | error err => simp [h1, bind, Except.bind] at h
  | ok s1 =>
    simp only [h1, bind, Except.bind] at h
    cases h2 : draw_bullets env frame_time fuel s1 with
    | error err => simp [h2] at h
    | ok s2 =>
      simp only [h2] at h
      exact ⟨s1, s2, rfl, h2, h⟩

/-- The exact arithmetic has the properties of a rounding. -/
theorem id_double_rounding : double_rounding (fun x : K => x) :=
  { mono := fun _ _ h => h
    zero := rfl
    idem := fun _ => rfl
    error := fun x _ => by
      show |x - x| ≤ 1 / 2 ^ 53
      rw [sub_self, abs_zero]; positivity
    no_flush := fun a b _ _ h => sub_eq_zero.mp h
    half := rfl
    sub_one := fun _ _ _ _ => rfl }

theorem sample_fl (i0 : Nat) (x : ℚ) : (sample_env i0).fl x = x := rfl

theorem sample_elapsed (i0 frame_time : Nat) :
    elapsed (sample_env i0) frame_time = (frame_time : ℚ) * 0.001 := rfl

theorem sample_double_rounding (i0 : Nat) : double_rounding (sample_env i0).fl :=
  id_double_rounding

theorem double_env_rounding : double_rounding double_env.fl := fl64_double_rounding

/-- The double `0.001`. -/
theorem fl64_milli : fl64 0.001 = 1152921504606847 / 2 ^ 60 := by
  rw [fl64_eval 0.001 (-10) 4611686018427388 (by norm_num) (by norm_num [abs_of_pos])
    (by norm_num [abs_of_pos]) (by norm_num [abs_lt])]
  norm_num

/-- In the arithmetic of `double`, `500 * 0.001` is `0.5`. -/
theorem double_elapsed_500 : elapsed double_env 500 = 1 / 2 := by
  show fl64 (((500 : Nat) : ℚ) * fl64 0.001) = 1 / 2
  rw [fl64_milli]
  rw [fl64_eval _ (-1) 4503599627370496 (by norm_num) (by norm_num [abs_of_pos])
    (by norm_num [abs_of_pos]) (by norm_num [abs_lt])]
  norm_num

theorem elapsed_nonneg (env : Env K) (hfl : double_rounding env.fl) (frame_time : Nat) :
    0 ≤ elapsed env frame_time := by
  have h1 : (0 : K) ≤ env.fl 0.001 := by
    have := hfl.mono 0 0.001 (by norm_num)
    rwa [hfl.zero] at this
  have := hfl.mono 0 ((frame_time : K) * env.fl 0.001) (mul_nonneg (Nat.cast_nonneg _) h1)
  rwa [hfl.zero] at this

theorem elapsed_double (env : Env K) (hfl : double_rounding env.fl) (frame_time : Nat) :
    env.fl (elapsed env frame_time) = elapsed env frame_time := hfl.idem _

/-- The test of the bullet pass: the aged time-to-live of a bullet is not below
zero exactly when the elapsed time is at most the time-to-live. -/
theorem ttl_kept_iff (env : Env K) (hfl : double_rounding env.fl) (frame_time : Nat) (b : bullet K)
    (hb : env.fl b.ttl = b.ttl) :
    0 ≤ (bullet_step env frame_time b).ttl ↔ elapsed env frame_time ≤ b.ttl := by
  show 0 ≤ env.fl (b.ttl - elapsed env frame_time) ↔ _
  constructor
  · intro h
    by_contra hlt
    have h1 : b.ttl - elapsed env frame_time ≤ 0 := by linarith [not_le.mp hlt]
    have h2 := hfl.mono _ _ h1
    rw [hfl.zero] at h2
    have h3 := hfl.no_flush _ _ hb (elapsed_double env hfl frame_time) (le_antisymm h2 h)
    exact hlt h3.ge
  · intro h
    have := hfl.mono 0 (b.ttl - elapsed env frame_time) (by linarith)
    rwa [hfl.zero] at this

/-- C6 (as amended): let `s` be the state when the asteroid pass of a tick is
done, so that `s.bullets` are the bullets that no asteroid consumed, each with
a time-to-live that is a `double`, and let `fl` be a rounding to `double`.  The
bullet pass then returns, the bullets at the end of the tick are those of the
bullet pass, and they are (up to order) exactly the bullets of `s` whose
time-to-live `T` satisfies `E ≤ T` for the elapsed time `E`, the double
`frame_time * 0.001`, each moved and aged by `bullet_step`, whose time-to-live
is the double `T - E`; the bullets with `E > T` are removed. -/
theorem bullet_lifetime (fuel : Nat) (env : Env K) (frame_time : Nat)
    (s0 s : asteroids_model K) (hfl : double_rounding env.fl)
    (hT : ∀ b ∈ s.bullets, env.fl b.ttl = b.ttl)
    (h1 : draw_asteroids env frame_time fuel (draw_ship env frame_time s0) 0 = .ok s)
    (h2 : s.bullets.length < fuel) :
    ∃ s' : asteroids_model K, draw_bullets env frame_time fuel s = .ok s' ∧
      draw fuel env frame_time s0 = draw_respawn fuel env s' ∧
      (∀ s1, draw fuel env frame_time s0 = .ok s1 → s1.bullets = s'.bullets) ∧
      s'.bullets.Perm ((s.bullets.filter
        (fun b => decide (elapsed env frame_time ≤ b.ttl))).map (bullet_step env frame_time)) ∧
      (∀ b : bullet K,
        (bullet_step env frame_time b).ttl = env.fl (b.ttl - elapsed env frame_time)) ∧
      elapsed env frame_time = env.fl ((frame_time : K) * env.fl 0.001) := by
  obtain ⟨bs, hb, hp⟩ := draw_bullets_spec frame_time fuel s h2
  have hd := draw_eq_of_passes fuel env frame_time s0 s _ h1 hb
  have hf : s.bullets.filter (fun b => decide (0 ≤ (bullet_step env frame_time b).ttl)) =
      s.bullets.filter (fun b => decide (elapsed env frame_time ≤ b.ttl)) := by
    apply List.filter_congr
    intro b hb
    exact decide_eq_decide.mpr (ttl_kept_iff env hfl frame_time b (hT b hb))
  refine ⟨_, hb, hd, ?_, hf ▸ hp, fun b => rfl, rfl⟩
  intro s1 hs1
  rw [hd] at hs1
  exact (draw_respawn_spec fuel env _ s1 hs1).2.2.1

theorem sample_draw_asteroids (f : ℚ → ℚ) :
    draw_asteroids { sample_env 0 with fl := f } 500 2
        (draw_ship { sample_env 0 with fl := f } 500 sample_state) 0 =
      .ok sample_state := by
  have h1 : trim_01 (1/4 : ℚ) = 1/4 := trim_01_of_mem _ (by norm_num) (by norm_num)
  have h2 : |(1/2 : ℚ)| = 1/2 := abs_of_pos (by norm_num)
  simp only [draw_ship, sample_state, if_true]
  simp only [draw_asteroids, asteroid_visit, asteroid_step, hit_asteroid, hit_bullets, bullet_scan, collide,
    asteroid_sizes, distance, norm, sample_env, sample_libm, line_width, bullet_radius]
  norm_num [h1, h2, bind, Except.bind, pure, Except.pure]

theorem sample_draw_bullets :
    draw_bullets double_env 500 2 sample_state =
      .ok { sample_state with
            bullets := [{ pos := ⟨3/4, 3/4⟩, velocity := ⟨10, 0⟩, ttl := 0 }] } := by
  have h1 : trim_01 (3/4 : ℚ) = 3/4 := trim_01_of_mem _ (by norm_num) (by norm_num)
  have h2 : double_env.fl 0 = 0 := fl64_zero
  simp only [draw_bullets, sample_state, bullets_loop, bullet_step, double_elapsed_500]
  norm_num [h1, h2, bind, Except.bind, pure, Except.pure]

/-- The theorem `bullet_lifetime` on the sample state, for a tick of 500 ms in
the arithmetic of `double`. -/
theorem bullet_lifetime_witness :
    (double_rounding double_env.fl ∧
        (∀ b ∈ sample_state.bullets, double_env.fl b.ttl = b.ttl) ∧
        draw_asteroids double_env 500 2 (draw_ship double_env 500 sample_state) 0 =
          .ok sample_state ∧ sample_state.bullets.length < 2) ∧
      ∃ s' : asteroids_model ℚ, draw_bullets double_env 500 2 sample_state = .ok s' ∧
        draw 2 double_env 500 sample_state = draw_respawn 2 double_env s' ∧
        (∀ s1, draw 2 double_env 500 sample_state = .ok s1 → s1.bullets = s'.bullets) ∧
        s'.bullets.Perm ((sample_state.bullets.filter
          (fun b => decide (elapsed double_env 500 ≤ b.ttl))).map (bullet_step double_env 500)) ∧
        (∀ b : bullet ℚ,
          (bullet_step double_env 500 b).ttl = double_env.fl (b.ttl - elapsed double_env 500)) ∧
        elapsed double_env 500 = double_env.fl (((500 : Nat) : ℚ) * double_env.fl 0.001) :=
  have hT : ∀ b ∈ sample_state.bullets, double_env.fl b.ttl = b.ttl := by
    intro b hb
    simp only [sample_state, List.mem_singleton] at hb
    subst hb
    exact fl64_half
  ⟨⟨double_env_rounding, hT, sample_draw_asteroids fl64, by decide⟩,
    bullet_lifetime 2 double_env 500 sample_state sample_state double_env_rounding hT
      (sample_draw_asteroids fl64) (by decide)⟩

/-- C6 (counterexample to the claim as stated): on the sample state the bullet
has time-to-live `T = 1/2` and no asteroid hits it; in the arithmetic of
`double` the tick of 500 ms has elapsed time `E = 500 * 0.001 = 1/2 ≥ T`, and
after the tick the bullet is still in the list, with time-to-live `0`. -/
theorem bullet_with_ttl_equal_to_elapsed_time_stays :
    elapsed double_env 500 ≥ 1/2 ∧
      sample_state.bullets = [{ pos := ⟨1/4, 3/4⟩, velocity := ⟨10, 0⟩, ttl := 1/2 }] ∧
      draw 2 double_env 500 sample_state =
        .ok { sample_state with
              bullets := [{ pos := ⟨3/4, 3/4⟩, velocity := ⟨10, 0⟩, ttl := 0 }] } := by
  refine ⟨by rw [double_elapsed_500], rfl, ?_⟩
  rw [draw_eq_of_passes 2 double_env 500 sample_state sample_state _ (sample_draw_asteroids fl64)
    sample_draw_bullets]
  simp [draw_respawn, sample_state]

/-! ### The reload timer -/

theorem draw_ship_dead (env : Env K) (frame_time : Nat) (s : asteroids_model K) :
    (draw_ship env frame_time s).dead = s.dead := by
  by_cases hd : s.dead = true
  · simp [draw_ship, hd]
  · by_cases hs : s.shooting_enabled = true
    · by_cases ht : s.time_till_next_shot ≥ 0 <;> simp [draw_ship, hd, hs, ht]
    · simp [draw_ship, hd, hs]

/-- The ship block appends at most one bullet. -/
theorem draw_ship_bullets_length (env : Env K) (frame_time : Nat) (s : asteroids_model K) :
    (draw_ship env frame_time s).bullets.length ≤ s.bullets.length + 1 := by
  by_cases hd : s.dead = true
  · simp [draw_ship, hd]
  · by_cases hs : s.shooting_enabled = true
    · by_cases ht : s.time_till_next_shot ≥ 0 <;> simp [draw_ship, hd, hs, ht]
    · simp [draw_ship, hd, hs]

/-- When the ship block appends a bullet, the ship was alive, firing was on,
the reload timer was below zero, and the timer is the double `0.2` afterwards. -/
theorem spawn_count_eq_one (env : Env K) (frame_time : Nat) (s : asteroids_model K)
    (h : spawn_count env frame_time s = 1) :
    s.dead = false ∧ s.shooting_enabled = true ∧ s.time_till_next_shot < 0 ∧
      (draw_ship env frame_time s).time_till_next_shot = env.fl 0.2 := by
  by_cases hd : s.dead = true
  · simp [spawn_count, draw_ship, hd] at h
  · by_cases hs : s.shooting_enabled = true
    · by_cases ht : s.time_till_next_shot ≥ 0
      · simp [spawn_count, draw_ship, hd, hs, ht] at h
      · refine ⟨by simpa using hd, hs, not_le.mp ht, ?_⟩
        simp [draw_ship, hd, hs, ht]
    · simp [spawn_count, draw_ship, hd, hs] at h

/-- The ship block appends a bullet when the ship is alive, firing is on and
the reload timer is below zero. -/
theorem spawn_count_of_ready (env : Env K) (frame_time : Nat) (s : asteroids_model K)
    (hd : s.dead = false) (hs : s.shooting_enabled = true) (ht : s.time_till_next_shot < 0) :
    spawn_count env frame_time s = 1 := by
  simp [spawn_count, draw_ship, hd, hs, not_le.mpr ht]

/-- The reload timer after the ship block. -/
theorem draw_ship_timer (env : Env K) (frame_time : Nat) (s : asteroids_model K) :
    (draw_ship env frame_time s).time_till_next_shot =
      if s.dead = true then s.time_till_next_shot
      else if s.shooting_enabled = true then
        (if s.time_till_next_shot ≥ 0 then
          env.fl (s.time_till_next_shot - elapsed env frame_time)
         else env.fl 0.2)
      else s.time_till_next_shot := by
  by_cases hd : s.dead = true
  · simp [draw_ship, hd]
  · by_cases hs : s.shooting_enabled = true
    · by_cases ht : s.time_till_next_shot ≥ 0 <;> simp [draw_ship, hd, hs, ht]
    · simp [draw_ship, hd, hs]

/-- A rounding moves a number of `[-1, 1]` by at most `2^-53`. -/
theorem rounding_near (fl : K → K) (hfl : double_rounding fl) (x : K) (hx : |x| ≤ 1) :
    x - 1 / 2 ^ 53 ≤ fl x ∧ fl x ≤ x + 1 / 2 ^ 53 := by
  have := abs_le.mp (hfl.error x hx)
  constructor <;> linarith [this.1, this.2]

/-- The elapsed time of a tick of at most 199 ms, as the program computes it,
exceeds the frame time in seconds by at most two rounding errors per
millisecond (and is `0` for a frame time of `0`). -/
theorem elapsed_near (env : Env K) (hfl : double_rounding env.fl) (frame_time : Nat)
    (hft : frame_time ≤ 199) :
    elapsed env frame_time ≤ (frame_time : K) / 1000 + 2 * ((frame_time : K) / 2 ^ 53) ∧
      elapsed env frame_time ≤ 1 / 4 := by
  have hc := rounding_near env.fl hfl 0.001 (by rw [abs_le]; constructor <;> norm_num)
  have hc0 : (0 : K) ≤ env.fl 0.001 := by
    have := hfl.mono 0 0.001 (by norm_num)
    rwa [hfl.zero] at this
  have hn : (0 : K) ≤ (frame_time : K) := Nat.cast_nonneg _
  have hn1 : (frame_time : K) ≤ 199 := by exact_mod_cast hft
  have hd : (0 : K) < 1 / 2 ^ 53 := by positivity
  have hd1 : (1 : K) / 2 ^ 53 ≤ 1 / 1000000 := by
    rw [div_le_div_iff₀ (by positivity) (by norm_num)]; norm_num
  rcases Nat.eq_zero_or_pos frame_time with h0 | hpos
  · subst h0
    have : elapsed env 0 = 0 := by
      show env.fl (((0 : Nat) : K) * env.fl 0.001) = 0
      rw [Nat.cast_zero, zero_mul, hfl.zero]
    rw [this]
    norm_num
  · have hn2 : (1 : K) ≤ (frame_time : K) := by exact_mod_cast hpos
    have hp : (frame_time : K) * env.fl 0.001 ≤
        (frame_time : K) / 1000 + (frame_time : K) / 2 ^ 53 := by
      have := mul_le_mul_of_nonneg_left hc.2 hn
      calc (frame_time : K) * env.fl 0.001 ≤ (frame_time : K) * (0.001 + 1 / 2 ^ 53) := this
        _ = _ := by ring
    have hp1 : (frame_time : K) * env.fl 0.001 ≤ 1 / 5 := by
      have a : (frame_time : K) / 1000 ≤ 199 / 1000 := by linarith
      have b : (frame_time : K) / 2 ^ 53 ≤ 199 / 1000000 := by
        calc (frame_time : K) / 2 ^ 53 = (frame_time : K) * (1 / 2 ^ 53) := by ring
          _ ≤ 199 * (1 / 1000000) := mul_le_mul hn1 hd1 hd.le (by norm_num)
          _ = _ := by norm_num
      linarith
    have hp0 : 0 ≤ (frame_time : K) * env.fl 0.001 := mul_nonneg hn hc0
    have he := rounding_near env.fl hfl ((frame_time : K) * env.fl 0.001)
      (by rw [abs_le]; constructor <;> linarith)
    have e : elapsed env frame_time = env.fl ((frame_time : K) * env.fl 0.001) := rfl
    rw [e]
    have h3 : (1 : K) / 2 ^ 53 ≤ (frame_time : K) / 2 ^ 53 :=
      div_le_div_of_nonneg_right hn2 (by positivity)
    constructor
    · linarith [he.2]
    · linarith [he.2]

/-- The reload timer under the ship block of a tick: while the frame times
since the last spawn add up to at most 199 ms, the timer is a double, at most
the double `0.2`, and at least `0.2` less the time elapsed and the rounding
errors made on the way. -/
theorem draw_ship_timer_bound (env : Env K) (hfl : double_rounding env.fl)
    (frame_time A : Nat) (s : asteroids_model K) (hA : A + frame_time ≤ 199)
    (h1 : env.fl s.time_till_next_shot = s.time_till_next_shot)
    (h2 : s.time_till_next_shot ≤ env.fl 0.2)
    (h3 : 0.2 - (A : K) / 1000 - (1 + 3 * (A : K)) / 2 ^ 53 ≤ s.time_till_next_shot) :
    env.fl (draw_ship env frame_time s).time_till_next_shot =
        (draw_ship env frame_time s).time_till_next_shot ∧
      (draw_ship env frame_time s).time_till_next_shot ≤ env.fl 0.2 ∧
      0.2 - ((A + frame_time : Nat) : K) / 1000 - (1 + 3 * ((A + frame_time : Nat) : K)) / 2 ^ 53 ≤
        (draw_ship env frame_time s).time_till_next_shot := by
  have hn : (0 : K) ≤ (frame_time : K) := Nat.cast_nonneg _
  have hAn : (0 : K) ≤ (A : K) := Nat.cast_nonneg _
  have hd : (0 : K) < 1 / 2 ^ 53 := by positivity
  have hd1 : (1 : K) / 2 ^ 53 ≤ 1 / 1000000 := by
    rw [div_le_div_iff₀ (by positivity) (by norm_num)]; norm_num
  have h02 := rounding_near env.fl hfl 0.2 (by rw [abs_le]; constructor <;> norm_num)
  have hE := elapsed_near env hfl frame_time (by omega)
  have hE0 := elapsed_nonneg env hfl frame_time
  -- the bound only decreases
  have hb : 0.2 - ((A + frame_time : Nat) : K) / 1000 -
      (1 + 3 * ((A + frame_time : Nat) : K)) / 2 ^ 53 ≤
      0.2 - (A : K) / 1000 - (1 + 3 * (A : K)) / 2 ^ 53 - (frame_time : K) / 1000 -
        3 * (frame_time : K) / 2 ^ 53 := by
    push_cast
    apply le_of_eq
    ring
  have hf : (0 : K) ≤ (frame_time : K) / 1000 + 3 * (frame_time : K) / 2 ^ 53 := by positivity
  rw [draw_ship_timer]
  split_ifs with hdead hshoot ht
  · exact ⟨h1, h2, by linarith⟩
  · -- the timer is lowered
    set t := s.time_till_next_shot with htdef
    have ht0 : 0 ≤ t := ht
    rcases Nat.eq_zero_or_pos frame_time with h0 | hpos
    · subst h0
      have : elapsed env 0 = 0 := by
        show env.fl (((0 : Nat) : K) * env.fl 0.001) = 0
        rw [Nat.cast_zero, zero_mul, hfl.zero]
      rw [this, sub_zero, h1]
      refine ⟨h1, h2, ?_⟩
      simpa using h3
    · have hx : |t - elapsed env frame_time| ≤ 1 := by
        rw [abs_le]; constructor <;> linarith [h02.2]
      have hr := rounding_near env.fl hfl (t - elapsed env frame_time) hx
      refine ⟨hfl.idem _, ?_, ?_⟩
      · have := hfl.mono (t - elapsed env frame_time) t (by linarith)
        rw [h1] at this
        exact le_trans this h2
      · have hn2 : (1 : K) ≤ (frame_time : K) := by exact_mod_cast hpos
        have h4 : (1 : K) / 2 ^ 53 ≤ (frame_time : K) / 2 ^ 53 :=
          div_le_div_of_nonneg_right hn2 (by positivity)
        have : 3 * (frame_time : K) / 2 ^ 53 = 3 * ((frame_time : K) / 2 ^ 53) := by ring
        rw [this] at hb
        linarith [hr.1, hE.1]
  · exact ⟨hfl.idem _, le_rfl, by linarith [h02.1]⟩
  · exact ⟨h1, h2, by linarith⟩

/-- A key press other than ESCAPE leaves the reload timer as it is. -/
theorem key_down_timer (env : Env K) (p : key_down_params) (s : asteroids_model K) (c : context)
    (hp : p.key ≠ .SDLK_ESCAPE) :
    (key_down env p s c).1.time_till_next_shot = s.time_till_next_shot := by
  unfold key_down
  split <;> first | rfl | exact absurd (by assumption) hp

/-- A key release leaves the reload timer as it is. -/
theorem key_up_timer (p : key_up_params) (s : asteroids_model K) (c : context) :
    (key_up p s c).1.time_till_next_shot = s.time_till_next_shot := by
  unfold key_up
  split <;> first | rfl | (split_ifs <;> rfl)

/-- The passes after the ship block do not write the reload timer. -/
theorem draw_timer (fuel : Nat) (env : Env K) (frame_time : Nat) (s s' : asteroids_model K)
    (h : draw fuel env frame_time s = .ok s') :
    s'.time_till_next_shot = (draw_ship env frame_time s).time_till_next_shot := by
  obtain ⟨s1, s2, h1, h2, h3⟩ := draw_passes fuel env frame_time s s' h
  have a := (draw_asteroids_same_ship env frame_time fuel _ 0 s1 h1).1
  have b := (draw_bullets_frame frame_time fuel s1 s2 h2).1
  have c := (draw_respawn_spec fuel env s2 s' h3).1
  exact (same_ship.trans (same_ship.trans a b) c).2.2.2.2.2.2

/-- The reload timer in a run without a reset: while the frame times add up to
at most 199 ms, the bounds of `draw_ship_timer_bound` go through the run. -/
theorem run_timer_bound (fuel : Nat) (env : Env K) (hfl : double_rounding env.fl) :
    ∀ (evs : List event) (A : Nat) (sc sc' : asteroids_model K × context),
      run fuel env evs sc = .ok sc' →
      (∀ p, event.key_down p ∈ evs → p.key ≠ .SDLK_ESCAPE) →
      A + (frame_times evs).sum ≤ 199 →
      env.fl sc.1.time_till_next_shot = sc.1.time_till_next_shot →
      sc.1.time_till_next_shot ≤ env.fl 0.2 →
      0.2 - (A : K) / 1000 - (1 + 3 * (A : K)) / 2 ^ 53 ≤ sc.1.time_till_next_shot →
      0.2 - ((A + (frame_times evs).sum : Nat) : K) / 1000 -
          (1 + 3 * ((A + (frame_times evs).sum : Nat) : K)) / 2 ^ 53 ≤
        sc'.1.time_till_next_shot := by
  intro evs
  induction evs with
  | nil =>
    intro A sc sc' h _ _ _ _ h3
    simp only [run, Except.ok.injEq] at h
    subst h
    simpa [frame_times] using h3
  | cons ev evs ih =>
    intro A sc sc' h hk hA h1 h2 h3
    have hk' : ∀ p, event.key_down p ∈ evs → p.key ≠ .SDLK_ESCAPE :=
      fun p hp => hk p (List.mem_cons_of_mem _ hp)
    cases ev with
    | tick ft =>
      simp only [run, bind, Except.bind] at h
      simp only [frame_times, List.sum_cons] at hA ⊢
      split at h
      · simp at h
      · rename_i s1 hs1
        have ht := draw_timer fuel env ft sc.1 s1 hs1
        obtain ⟨b1, b2, b3⟩ := draw_ship_timer_bound env hfl ft A sc.1 (by omega) h1 h2 h3
        rw [← ht] at b1 b2 b3
        have := ih (A + ft) (s1, sc.2) sc' h hk' (by omega) b1 b2 b3
        rwa [Nat.add_assoc] at this
    | key_down p =>
      simp only [run] at h
      simp only [frame_times] at hA ⊢
      have ht := key_down_timer env p sc.1 sc.2 (hk p (List.mem_cons_self _ _))
      exact ih A _ sc' h hk' hA (by rw [ht]; exact h1) (by rw [ht]; exact h2)
        (by rw [ht]; exact h3)
    | key_up p =>
      simp only [run] at h
      simp only [frame_times] at hA ⊢
      have ht := key_up_timer p sc.1 sc.2
      exact ih A _ sc' h hk' hA (by rw [ht]; exact h1) (by rw [ht]; exact h2)
        (by rw [ht]; exact h3)

/-- C7: let `fl` be a rounding to `double`.  Every tick spawns at most one
bullet.  In a run of ticks and key events, when the tick with frame time `ft0`
(from state `s0`) spawns a bullet and, after the events `mid` with no press of
ESCAPE (no reset) among them, the tick with frame time `ft1` spawns a bullet,
the frame times of the ticks of `mid` add up to at least 200 ms, and so do the
frame times of the ticks after the first spawn up to and including the
second. -/
theorem reload_gating (fuel : Nat) (env : Env K) (ft0 : Nat) (mid : List event) (ft1 : Nat)
    (s0 s1 s2 : asteroids_model K) (c1 c2 : context) (hfl : double_rounding env.fl)
    (h1 : draw fuel env ft0 s0 = .ok s1) (h2 : run fuel env mid (s1, c1) = .ok (s2, c2))
    (hk : ∀ p, event.key_down p ∈ mid → p.key ≠ .SDLK_ESCAPE)
    (hs0 : spawn_count env ft0 s0 = 1) (hs2 : spawn_count env ft1 s2 = 1) :
    (∀ (ft : Nat) (s : asteroids_model K), spawn_count env ft s ≤ 1) ∧
      200 ≤ (frame_times mid).sum ∧ 200 ≤ (frame_times mid).sum + ft1 := by
  have hA : ∀ (ft : Nat) (s : asteroids_model K), spawn_count env ft s ≤ 1 := by
    intro ft s
    have := draw_ship_bullets_length env ft s
    unfold spawn_count
    omega
  have t1 : s1.time_till_next_shot = env.fl 0.2 := by
    rw [draw_timer fuel env ft0 s0 s1 h1]
    exact (spawn_count_eq_one env ft0 s0 hs0).2.2.2
  have t3 := (spawn_count_eq_one env ft1 s2 hs2).2.2.1
  have h02 := rounding_near env.fl hfl 0.2 (by rw [abs_le]; constructor <;> norm_num)
  have t5 : 200 ≤ (frame_times mid).sum := by
    by_contra hlt
    have hle : 0 + (frame_times mid).sum ≤ 199 := by omega
    have t2 := run_timer_bound fuel env hfl mid 0 (s1, c1) (s2, c2) h2 hk hle
      (by show env.fl s1.time_till_next_shot = _; rw [t1]; exact hfl.idem _)
      (by show s1.time_till_next_shot ≤ _; rw [t1])
      (by show _ ≤ s1.time_till_next_shot; rw [t1]; simpa using h02.1)
    simp only [Nat.zero_add] at t2 hle
    have hS : (((frame_times mid).sum : Nat) : K) ≤ 199 := by exact_mod_cast hle
    have hS0 : (0 : K) ≤ (((frame_times mid).sum : Nat) : K) := Nat.cast_nonneg _
    have hd1 : (1 : K) / 2 ^ 53 ≤ 1 / 1000000 := by
      rw [div_le_div_iff₀ (by positivity) (by norm_num)]; norm_num
    have hd0 : (0 : K) < 1 / 2 ^ 53 := by positivity
    have : (1 + 3 * (((frame_times mid).sum : Nat) : K)) / 2 ^ 53 ≤ 598 / 1000000 := by
      calc (1 + 3 * (((frame_times mid).sum : Nat) : K)) / 2 ^ 53
          = (1 + 3 * (((frame_times mid).sum : Nat) : K)) * (1 / 2 ^ 53) := by ring
        _ ≤ 598 * (1 / 1000000) := mul_le_mul (by linarith) hd1 hd0.le (by norm_num)
        _ = _ := by norm_num
    have hs2t : s2.time_till_next_shot < 0 := t3
    have e : (0.2 : K) = 200 / 1000 := by norm_num
    rw [e] at t2
    have : (0 : K) < s2.time_till_next_shot := by
      have : (200 : K) / 1000 - (((frame_times mid).sum : Nat) : K) / 1000 ≥ 1 / 1000 := by
        linarith
      linarith
    linarith
  exact ⟨hA, t5, by omega⟩

theorem sample_collide (s : asteroids_model ℚ) (hd : s.dead = false)
    (hs : s.ship = ⟨1/2, 1/2⟩) (hy : s.ship_yaw = 0) :
    collide (sample_env 0) s { pos := ⟨9/10, 1/2⟩, velocity := ⟨0, 0⟩, size := 2, health := 3 } =
      .ok false := by
  simp only [collide, hd, hs, hy, collide_edge, asteroid_sizes, intersect, sample_env, sample_libm,
    ship_p1, ship_p2, ship_p3, collision_tolerance, dot, norm2, point.sub_x, point.sub_y,
    point.add_x, point.add_y, bind, Except.bind, pure, Except.pure]
  norm_num

theorem double_collide (s : asteroids_model ℚ) (hd : s.dead = false)
    (hs : s.ship = ⟨1/2, 1/2⟩) (hy : s.ship_yaw = 0) :
    collide double_env s { pos := ⟨9/10, 1/2⟩, velocity := ⟨0, 0⟩, size := 2, health := 3 } =
      .ok false :=
  sample_collide s hd hs hy

theorem sample_hypot (i0 : Nat) (x : ℚ) : (sample_env i0).libm.hypot x 0 = |x| := by
  simp [sample_env, sample_libm]

theorem sample_cos_sin (i0 : Nat) :
    (sample_env i0).libm.cos 0 = 1 ∧ (sample_env i0).libm.sin 0 = 0 := by
  simp [sample_env, sample_libm]

theorem double_env_libm : double_env.libm = (sample_env 0).libm := rfl

/-- Evaluation of the rounding of `double_env` at a number of the normal range. -/
theorem double_fl_eval (x : ℚ) (e m : ℤ) (v : ℚ) (he : -1022 ≤ e) (h1 : (2 : ℚ) ^ e ≤ |x|)
    (h2 : |x| < (2 : ℚ) ^ (e + 1)) (hm : |x / 2 ^ (e - 52) - m| < 1 / 2)
    (hv : (m : ℚ) * 2 ^ (e - 52) = v) : double_env.fl x = v :=
  (fl64_eval x e m he h1 h2 hm).trans hv

theorem double_fl_02 : double_env.fl (1 / 5) = 3602879701896397 / 18014398509481984 :=
  double_fl_eval _ (-3) 7205759403792794 _ (by norm_num) (by norm_num [abs_of_pos])
    (by norm_num [abs_of_pos]) (by norm_num [abs_lt]) (by norm_num)

theorem double_fl_08 : double_env.fl (4 / 5) = 3602879701896397 / 4503599627370496 :=
  double_fl_eval _ (-1) 7205759403792794 _ (by norm_num) (by norm_num [abs_of_pos])
    (by norm_num [abs_of_pos]) (by norm_num [abs_lt]) (by norm_num)

theorem double_elapsed_16 : elapsed double_env 16 = 1152921504606847 / 72057594037927936 := by
  show fl64 (((16 : Nat) : ℚ) * fl64 0.001) = _
  rw [fl64_milli]
  exact double_fl_eval _ (-6) 4611686018427388 _ (by norm_num) (by norm_num [abs_of_pos])
    (by norm_num [abs_of_pos]) (by norm_num [abs_lt]) (by norm_num)

theorem double_elapsed_250 : elapsed double_env 250 = 1 / 4 := by
  show fl64 (((250 : Nat) : ℚ) * fl64 0.001) = _
  rw [fl64_milli]
  exact double_fl_eval _ (-2) 4503599627370496 _ (by norm_num) (by norm_num [abs_of_pos])
    (by norm_num [abs_of_pos]) (by norm_num [abs_lt]) (by norm_num)

theorem double_fl_ttl_1 :
    double_env.fl (56493153725735505 / 72057594037927936) =
      3530822107858469 / 4503599627370496 :=
  double_fl_eval _ (-1) 7061644215716938 _ (by norm_num) (by norm_num [abs_of_pos])
    (by norm_num [abs_of_pos]) (by norm_num [abs_lt]) (by norm_num)

theorem double_fl_timer_2 :
    double_env.fl (-(900719925474099 / 18014398509481984)) =
      -(900719925474099 / 18014398509481984) :=
  double_fl_eval _ (-5) (-7205759403792792) _ (by norm_num) (by norm_num [abs_of_pos])
    (by norm_num [abs_of_pos]) (by norm_num [abs_lt]) (by norm_num)

theorem double_fl_ttl_2 :
    double_env.fl (2404922201015845 / 4503599627370496) =
      2404922201015845 / 4503599627370496 :=
  double_fl_eval _ (-1) 4809844402031690 _ (by norm_num) (by norm_num [abs_of_pos])
    (by norm_num [abs_of_pos]) (by norm_num [abs_lt]) (by norm_num)

theorem sample_firing_draw :
    draw 3 double_env 16 sample_firing = .ok sample_firing_1 := by
  have h1 : trim_01 (1/2 : ℚ) = 1/2 := trim_01_of_mem _ (by norm_num) (by norm_num)
  have h2 : trim_01 (9/10 : ℚ) = 9/10 := trim_01_of_mem _ (by norm_num) (by norm_num)
  have h3 : trim_01 (953/1750 : ℚ) = 953/1750 :=
    trim_01_of_mem _ (by norm_num) (by norm_num)
  have h4 : |(13/35 : ℚ)| = 13/35 := abs_of_pos (by norm_num)
  have hs : draw_ship double_env 16 sample_firing =
      { sample_firing with
        time_till_next_shot := 3602879701896397 / 18014398509481984
        bullets := [{ pos := ⟨37/70, 1/2⟩, velocity := ⟨10, 0⟩,
                      ttl := 3602879701896397 / 4503599627370496 }] } := by
    simp only [draw_ship, sample_firing, double_env_libm, (sample_cos_sin 0).1,
      (sample_cos_sin 0).2]
    norm_num [h1, double_fl_02, double_fl_08]
  have ha : draw_asteroids double_env 16 3
      { sample_firing with
        time_till_next_shot := 3602879701896397 / 18014398509481984
        bullets := [{ pos := ⟨37/70, 1/2⟩, velocity := ⟨10, 0⟩,
                      ttl := 3602879701896397 / 4503599627370496 }] } 0 =
      .ok { sample_firing with
        time_till_next_shot := 3602879701896397 / 18014398509481984
        bullets := [{ pos := ⟨37/70, 1/2⟩, velocity := ⟨10, 0⟩,
                      ttl := 3602879701896397 / 4503599627370496 }] } := by
    simp only [draw_asteroids, asteroid_visit, asteroid_step, hit_asteroid, hit_bullets, sample_firing,
      bullet_scan, asteroid_sizes, distance, norm, line_width, bullet_radius, bind, Except.bind,
      pure, Except.pure, point.sub_x, point.sub_y, double_env_libm]
    norm_num [h2, h1, h4, sample_hypot, double_collide]
  have hb : draw_bullets double_env 16 3
      { sample_firing with
        time_till_next_shot := 3602879701896397 / 18014398509481984
        bullets := [{ pos := ⟨37/70, 1/2⟩, velocity := ⟨10, 0⟩,
                      ttl := 3602879701896397 / 4503599627370496 }] } =
      .ok sample_firing_1 := by
    simp only [draw_bullets, sample_firing_1, sample_firing, bullets_loop, bullet_step,
      double_elapsed_16]
    norm_num [h1, h3, double_fl_ttl_1, bind, Except.bind, pure, Except.pure]
  rw [draw_eq_of_passes 3 double_env 16 sample_firing _ _ (by rw [hs]; exact ha) hb]
  simp [draw_respawn, sample_firing_1, sample_firing]

theorem sample_firing_draw_1 :
    draw 3 double_env 250 sample_firing_1 = .ok sample_firing_2 := by
  have h1 : trim_01 (1/2 : ℚ) = 1/2 := trim_01_of_mem _ (by norm_num) (by norm_num)
  have h2 : trim_01 (9/10 : ℚ) = 9/10 := trim_01_of_mem _ (by norm_num) (by norm_num)
  have h3 : trim_01 (2781/3500 : ℚ) = 2781/3500 :=
    trim_01_of_mem _ (by norm_num) (by norm_num)
  have h4 : |(311/875 : ℚ)| = 311/875 := abs_of_pos (by norm_num)
  have hs : draw_ship double_env 250 sample_firing_1 =
      { sample_firing_1 with
        time_till_next_shot := -900719925474099 / 18014398509481984 } := by
    simp only [draw_ship, sample_firing_1, sample_firing, double_env_libm, (sample_cos_sin 0).1,
      (sample_cos_sin 0).2, double_elapsed_250]
    norm_num [h1, double_fl_timer_2]
  have ha : draw_asteroids double_env 250 3
      { sample_firing_1 with time_till_next_shot := -900719925474099 / 18014398509481984 } 0 =
      .ok { sample_firing_1 with
            time_till_next_shot := -900719925474099 / 18014398509481984 } := by
    simp only [draw_asteroids, asteroid_visit, asteroid_step, hit_asteroid, hit_bullets, sample_firing_1,
      sample_firing, bullet_scan, asteroid_sizes, distance, norm, line_width, bullet_radius, bind,
      Except.bind, pure, Except.pure, point.sub_x, point.sub_y, double_env_libm]
    norm_num [h2, h1, h4, sample_hypot, double_collide]
  have hb : draw_bullets double_env 250 3
      { sample_firing_1 with time_till_next_shot := -900719925474099 / 18014398509481984 } =
      .ok sample_firing_2 := by
    simp only [draw_bullets, sample_firing_2, sample_firing_1, sample_firing, bullets_loop,
      bullet_step, double_elapsed_250]
    norm_num [h1, h3, double_fl_ttl_2, bind, Except.bind, pure, Except.pure]
  rw [draw_eq_of_passes 3 double_env 250 sample_firing_1 _ _ (by rw [hs]; exact ha) hb]
  simp [draw_respawn, sample_firing_2, sample_firing]

/-- The theorem `reload_gating` on a sample run in the arithmetic of `double`:
the tick of 16 ms from `sample_firing` spawns a bullet; then SPACE is pressed
again, a tick of 250 ms follows, which spawns no bullet, and the UP key is
released; the tick after that spawns the next bullet. -/
theorem reload_gating_witness :
    (double_rounding double_env.fl ∧
        draw 3 double_env 16 sample_firing = .ok sample_firing_1 ∧
        run 3 double_env [.key_down ⟨.SDLK_SPACE, 0⟩, .tick 250, .key_up ⟨.SDLK_UP, 0⟩]
            (sample_firing_1, ⟨false, false, 720, 720⟩) =
          .ok (sample_firing_2, ⟨false, false, 720, 720⟩) ∧
        (∀ p, event.key_down p ∈
            [event.key_down ⟨.SDLK_SPACE, 0⟩, .tick 250, .key_up ⟨.SDLK_UP, 0⟩] →
          p.key ≠ .SDLK_ESCAPE) ∧
        spawn_count double_env 16 sample_firing = 1 ∧
        spawn_count double_env 16 sample_firing_2 = 1) ∧
      ((∀ (ft : Nat) (s : asteroids_model ℚ), spawn_count double_env ft s ≤ 1) ∧
        200 ≤ (frame_times
          [event.key_down ⟨.SDLK_SPACE, 0⟩, .tick 250, .key_up ⟨.SDLK_UP, 0⟩]).sum ∧
        200 ≤ (frame_times
          [event.key_down ⟨.SDLK_SPACE, 0⟩, .tick 250, .key_up ⟨.SDLK_UP, 0⟩]).sum + 16) :=
  have h2 : run 3 double_env [.key_down ⟨.SDLK_SPACE, 0⟩, .tick 250, .key_up ⟨.SDLK_UP, 0⟩]
      (sample_firing_1, ⟨false, false, 720, 720⟩) =
      .ok (sample_firing_2, ⟨false, false, 720, 720⟩) := by
    have e1 : key_down double_env ⟨.SDLK_SPACE, 0⟩ sample_firing_1 ⟨false, false, 720, 720⟩ =
        (sample_firing_1, ⟨false, false, 720, 720⟩) := by
      simp only [key_down, sample_firing_1, sample_firing]
    have e2 : key_up ⟨.SDLK_UP, 0⟩ sample_firing_2 ⟨false, false, 720, 720⟩ =
        (sample_firing_2, ⟨false, false, 720, 720⟩) := by
      simp only [key_up, sample_firing_2, sample_firing]
    rw [run, e1, run, sample_firing_draw_1]
    simp only [bind, Except.bind]
    rw [run, e2, run]
  have hk : ∀ p, event.key_down p ∈
      [event.key_down ⟨.SDLK_SPACE, 0⟩, .tick 250, .key_up ⟨.SDLK_UP, 0⟩] →
      p.key ≠ .SDLK_ESCAPE := by
    intro p hp
    simp only [List.mem_cons, event.key_down.injEq, List.mem_singleton, reduceCtorEq,
      List.not_mem_nil, or_false] at hp
    subst hp
    decide
  have hs0 : spawn_count double_env 16 sample_firing = 1 :=
    spawn_count_of_ready _ _ _ rfl rfl (by norm_num [sample_firing])
  have hs2 : spawn_count double_env 16 sample_firing_2 = 1 :=
    spawn_count_of_ready _ _ _ rfl rfl (by norm_num [sample_firing_2, sample_firing])
  ⟨⟨double_env_rounding, sample_firing_draw, h2, hk, hs0, hs2⟩,
    reload_gating 3 double_env 16 [.key_down ⟨.SDLK_SPACE, 0⟩, .tick 250, .key_up ⟨.SDLK_UP, 0⟩]
      16 sample_firing sample_firing_1 sample_firing_2 ⟨false, false, 720, 720⟩
      ⟨false, false, 720, 720⟩ double_env_rounding sample_firing_draw h2 hk hs0 hs2⟩

/-- The theorem `destroy_asteroid_split` for a size-2 asteroid destroyed at
`(1/4, 1/4)` in the sample state. -/
theorem destroy_asteroid_split_witness :
    ((2 : Int) = 0 ∨ (2 : Int) = 1 ∨ (2 : Int) = 2) ∧
      ∃ (s' : asteroids_model ℚ) (new : List (asteroid ℚ)),
        destroy_asteroid (sample_env 0) ⟨1/4, 1/4⟩ 2 sample_state = .ok s' ∧
        s'.asteroids = sample_state.asteroids ++ new ∧
        new.length = (if (2 : Int) = 2 then 2 else if (2 : Int) = 1 then 3 else 0) ∧
        (∀ c ∈ new, c.pos = ⟨1/4, 1/4⟩ ∧ c.size = 2 - 1 ∧ c.size < 2) :=
  ⟨by decide, destroy_asteroid_split (sample_env 0) ⟨1/4, 1/4⟩ 2 sample_state (by decide)⟩

/-! ### Keys, death and reset -/

/-- C10 (as amended): key-down of ESCAPE in a state in which the ship is dead
leaves the context alone and yields a state with the ship alive at
`(0.5, 0.5)` with zero velocity, reload timer `0` and empty asteroid and
bullet lists, and every freshly constructed model has these same values of
these members; the heading is drawn at random, and the thrust flag, the firing
flag and the rotation keep the values they had before the key, while a freshly
constructed model has both flags off.  Key-down of ESCAPE while the ship is
alive changes neither the model nor the context. -/
theorem escape_resets (env : Env K) (p : key_down_params) (s : asteroids_model K)
    (c : context) (hk : p.key = .SDLK_ESCAPE) :
    (s.dead = true →
        (key_down env p s c).2 = c ∧
        (key_down env p s c).1.dead = false ∧
        (key_down env p s c).1.ship = ⟨0.5, 0.5⟩ ∧
        (key_down env p s c).1.ship_velocity = ⟨0, 0⟩ ∧
        (key_down env p s c).1.time_till_next_shot = 0 ∧
        (key_down env p s c).1.asteroids = [] ∧
        (key_down env p s c).1.bullets = [] ∧
        (key_down env p s c).1.ship_yaw =
          2 * 3.1415 * (env.rand s.rand_pos : K) / (env.RAND_MAX : K) ∧
        (key_down env p s c).1.engine_enabled = s.engine_enabled ∧
        (key_down env p s c).1.shooting_enabled = s.shooting_enabled ∧
        (key_down env p s c).1.ship_rot = s.ship_rot ∧
        ∀ (rot : ship_rotation) (rand_pos : Nat),
          (construct env rot rand_pos).dead = (key_down env p s c).1.dead ∧
          (construct env rot rand_pos).ship = (key_down env p s c).1.ship ∧
          (construct env rot rand_pos).ship_velocity = (key_down env p s c).1.ship_velocity ∧
          (construct env rot rand_pos).time_till_next_shot =
            (key_down env p s c).1.time_till_next_shot ∧
          (construct env rot rand_pos).asteroids = (key_down env p s c).1.asteroids ∧
          (construct env rot rand_pos).bullets = (key_down env p s c).1.bullets ∧
          (construct env rot rand_pos).ship_yaw =
            2 * 3.1415 * (env.rand rand_pos : K) / (env.RAND_MAX : K) ∧
          (construct env rot rand_pos).engine_enabled = false ∧
          (construct env rot rand_pos).shooting_enabled = false) ∧
      (s.dead = false → key_down env p s c = (s, c)) := by
  obtain ⟨k, m⟩ := p
  simp only at hk
  subst hk
  constructor
  · intro hd
    simp [key_down, hd, reset, construct]
  · intro hd
    simp [key_down, hd]

/-- The theorem `escape_resets` on the sample state `sample_dead_thrust`, whose
ship is dead with the thrust and firing keys held. -/
theorem escape_resets_witness :
    ((⟨.SDLK_ESCAPE, 0⟩ : key_down_params).key = .SDLK_ESCAPE ∧
        sample_dead_thrust.dead = true) ∧
      ((key_down (sample_env 0) ⟨.SDLK_ESCAPE, 0⟩ sample_dead_thrust
          ⟨false, false, 720, 720⟩).2 = ⟨false, false, 720, 720⟩ ∧
        (key_down (sample_env 0) ⟨.SDLK_ESCAPE, 0⟩ sample_dead_thrust
          ⟨false, false, 720, 720⟩).1.dead = false ∧
        (key_down (sample_env 0) ⟨.SDLK_ESCAPE, 0⟩ sample_dead_thrust
          ⟨false, false, 720, 720⟩).1.ship = ⟨0.5, 0.5⟩ ∧
        (key_down (sample_env 0) ⟨.SDLK_ESCAPE, 0⟩ sample_dead_thrust
          ⟨false, false, 720, 720⟩).1.asteroids = [] ∧
        (key_down (sample_env 0) ⟨.SDLK_ESCAPE, 0⟩ sample_dead_thrust
          ⟨false, false, 720, 720⟩).1.bullets = [] ∧
        (key_down (sample_env 0) ⟨.SDLK_ESCAPE, 0⟩ sample_dead_thrust
          ⟨false, false, 720, 720⟩).1.engine_enabled = sample_dead_thrust.engine_enabled ∧
        (key_down (sample_env 0) ⟨.SDLK_ESCAPE, 0⟩ sample_dead_thrust
          ⟨false, false, 720, 720⟩).1.shooting_enabled = sample_dead_thrust.shooting_enabled) :=
  have h := (escape_resets (sample_env 0) ⟨.SDLK_ESCAPE, 0⟩ sample_dead_thrust
    ⟨false, false, 720, 720⟩ rfl).1 rfl
  ⟨⟨rfl, rfl⟩, h.1, h.2.1, h.2.2.1, h.2.2.2.2.2.1, h.2.2.2.2.2.2.1, h.2.2.2.2.2.2.2.2.1,
    h.2.2.2.2.2.2.2.2.2.1⟩

/-- C10 (counterexample to the claim as stated): in the sample state
`sample_dead_thrust` the ship is dead and the thrust and firing keys are held.
After key-down of ESCAPE the thrust flag and the firing flag are still on,
while every freshly constructed model has both flags off: the state after the
reset is not the configuration of a freshly constructed model. -/
theorem escape_keeps_thrust_and_firing :
    sample_dead_thrust.dead = true ∧
      (key_down (sample_env 0) ⟨.SDLK_ESCAPE, 0⟩ sample_dead_thrust
        ⟨false, false, 720, 720⟩).1.engine_enabled = true ∧
      (key_down (sample_env 0) ⟨.SDLK_ESCAPE, 0⟩ sample_dead_thrust
        ⟨false, false, 720, 720⟩).1.shooting_enabled = true ∧
      ∀ (rot : ship_rotation) (rand_pos : Nat),
        (construct (sample_env 0) rot rand_pos).engine_enabled = false ∧
        (construct (sample_env 0) rot rand_pos).shooting_enabled = false :=
  ⟨rfl, rfl, rfl, fun _ _ => ⟨rfl, rfl⟩⟩

/-! ### One round of the asteroid pass -/

theorem swap_pop_perm {α : Type} (pre rest : List α) (e : α) :
    ∃ rest', rest'.Perm rest ∧ swap_pop (pre ++ e :: rest) pre.length = pre ++ rest' := by
  rcases List.eq_nil_or_concat rest with rfl | ⟨r, b, rfl⟩
  · exact ⟨[], List.Perm.refl _, by rw [swap_pop_last]; simp⟩
  · rw [List.concat_eq_append, swap_pop_mid]
    exact ⟨b :: r, by simpa using (List.perm_append_singleton b r).symm, rfl⟩

theorem asteroid_sizes_ok (n : Int) (h : valid_size n) :
    ∃ r : K, asteroid_sizes n = .ok r ∧ collision_tolerance < r := by
  rcases h with rfl | rfl | rfl
  · exact ⟨0.016, by simp [asteroid_sizes], by norm_num [collision_tolerance]⟩
  · exact ⟨0.029, by simp [asteroid_sizes], by norm_num [collision_tolerance]⟩
  · exact ⟨0.053, by simp [asteroid_sizes], by norm_num [collision_tolerance]⟩

theorem bullet_scan_ok (env : Env K) (e : asteroid K) (h : valid_size e.size) :
    ∀ (bs : List (bullet K)) (j : Nat),
      ∃ hit, bullet_scan env e bs j = .ok hit ∧
        ∀ k, hit = some k → j ≤ k ∧ k < j + bs.length := by
  obtain ⟨r, hr, -⟩ := asteroid_sizes_ok (K := K) e.size h
  intro bs
  induction bs with
  | nil => intro j; exact ⟨none, by simp [bullet_scan], by simp⟩
  | cons b bs ih =>
    intro j
    simp only [bullet_scan, hr, bind, Except.bind]
    split_ifs with hd
    · exact ⟨some j, rfl, fun k hk => by simp at hk; subst hk; simp⟩
    · obtain ⟨hit, h1, h2⟩ := ih (j + 1)
      refine ⟨hit, h1, fun k hk => ?_⟩
      have := h2 k hk
      simp only [List.length_cons]
      omega

theorem intersect_ok (m : Libm K) (p q cc : point K) (r : K) (hr : 0 < r) :
    ∃ b, intersect m p q cc r = .ok b := by
  unfold intersect
  simp only [not_lt.mpr (le_of_lt hr), hr, not_true_eq_false, if_false]
  split_ifs <;> exact ⟨_, rfl⟩

theorem collide_edge_ok (env : Env K) (a b : point K) (e : asteroid K) (h : valid_size e.size) :
    ∃ r, collide_edge env a b e = .ok r := by
  obtain ⟨r, hr, hpos⟩ := asteroid_sizes_ok (K := K) e.size h
  simp only [collide_edge, hr, bind, Except.bind]
  exact intersect_ok _ _ _ _ _ (by linarith)

theorem collide_ok (env : Env K) (s : asteroids_model K) (e : asteroid K)
    (h : valid_size e.size) : ∃ b, collide env s e = .ok b := by
  unfold collide
  split_ifs with h1 h2
  · exact ⟨false, rfl⟩
  · exact ⟨false, rfl⟩
  · simp only [bind, Except.bind, pure, Except.pure]
    obtain ⟨r1, hr1⟩ := collide_edge_ok env
      (s.ship + ⟨dot ⟨env.libm.cos s.ship_yaw, env.libm.sin s.ship_yaw⟩ ship_p1,
        dot ⟨env.libm.sin s.ship_yaw, -env.libm.cos s.ship_yaw⟩ ship_p1⟩)
      (s.ship + ⟨dot ⟨env.libm.cos s.ship_yaw, env.libm.sin s.ship_yaw⟩ ship_p2,
        dot ⟨env.libm.sin s.ship_yaw, -env.libm.cos s.ship_yaw⟩ ship_p2⟩) e h
    obtain ⟨r2, hr2⟩ := collide_edge_ok env
      (s.ship + ⟨dot ⟨env.libm.cos s.ship_yaw, env.libm.sin s.ship_yaw⟩ ship_p2,
        dot ⟨env.libm.sin s.ship_yaw, -env.libm.cos s.ship_yaw⟩ ship_p2⟩)
      (s.ship + ⟨dot ⟨env.libm.cos s.ship_yaw, env.libm.sin s.ship_yaw⟩ ship_p3,
        dot ⟨env.libm.sin s.ship_yaw, -env.libm.cos s.ship_yaw⟩ ship_p3⟩) e h
    obtain ⟨r3, hr3⟩ := collide_edge_ok env
      (s.ship + ⟨dot ⟨env.libm.cos s.ship_yaw, env.libm.sin s.ship_yaw⟩ ship_p3,
        dot ⟨env.libm.sin s.ship_yaw, -env.libm.cos s.ship_yaw⟩ ship_p3⟩)
      (s.ship + ⟨dot ⟨env.libm.cos s.ship_yaw, env.libm.sin s.ship_yaw⟩ ship_p1,
        dot ⟨env.libm.sin s.ship_yaw, -env.libm.cos s.ship_yaw⟩ ship_p1⟩) e h
    rw [hr1]
    cases r1
    · simp only [Bool.false_eq_true, if_false]
      rw [hr2]
      cases r2
      · simp only [Bool.false_eq_true, if_false]
        exact ⟨r3, hr3⟩
      · exact ⟨true, rfl⟩
    · exact ⟨true, rfl⟩

/-- A collision needs a living ship and an asteroid with health. -/
theorem collide_true (env : Env K) (s : asteroids_model K) (e : asteroid K)
    (h : collide env s e = .ok true) : s.dead = false ∧ e.health ≠ 0 := by
  unfold collide at h
  split_ifs at h with h1 h2
  · simp at h
  · simp at h
  · exact ⟨by simpa using h1, h2⟩

@[simp] theorem asteroid_step_size (frame_time : Nat) (e : asteroid K) :
    (asteroid_step frame_time e).size = e.size := rfl

@[simp] theorem asteroid_step_health (frame_time : Nat) (e : asteroid K) :
    (asteroid_step frame_time e).health = e.health := rfl

@[simp] theorem hit_asteroid_size (hit : Option Nat) (e : asteroid K) :
    (hit_asteroid hit e).size = e.size := by
  cases hit <;> rfl

@[simp] theorem hit_asteroid_pos (hit : Option Nat) (e : asteroid K) :
    (hit_asteroid hit e).pos = e.pos := by
  cases hit <;> rfl

/-- What one round of the asteroid pass does to the asteroid `e0` at index
`pre.length`, when its size is a valid index: the bullet scan returns `hit`,
the body returns, and it ends in one of three ways: a collision with the ship
(`break`), the removal of the asteroid with its split, or the step to the next
index. -/
theorem asteroid_visit_spec (env : Env K) (frame_time : Nat) (s : asteroids_model K)
    (pre : List (asteroid K)) (e0 : asteroid K) (rest : List (asteroid K))
    (hs : s.asteroids = pre ++ e0 :: rest) (hv : valid_size e0.size) :
    ∃ (hit : Option Nat) (s' : asteroids_model K) (next : Option Nat),
      bullet_scan env (asteroid_step frame_time e0) s.bullets 0 = .ok hit ∧
      asteroid_visit env frame_time s pre.length = .ok (s', next) ∧
      s'.bullets = hit_bullets hit s.bullets ∧
      ((next = none ∧ s.dead = false ∧ s'.dead = true ∧
          (hit_asteroid hit (asteroid_step frame_time e0)).health ≠ 0 ∧
          s'.asteroids =
            pre ++ { hit_asteroid hit (asteroid_step frame_time e0) with health := 0 } :: rest) ∨
        (next = some pre.length ∧
          (hit_asteroid hit (asteroid_step frame_time e0)).health = 0 ∧ s'.dead = s.dead ∧
          ∃ rest' children : List (asteroid K), rest'.Perm rest ∧
            s'.asteroids = pre ++ rest' ++ children ∧
            children.length = (if e0.size = 2 then 2 else if e0.size = 1 then 3 else 0) ∧
            ∀ c ∈ children, c.pos = (asteroid_step frame_time e0).pos ∧
              c.size = e0.size - 1 ∧ c.health = e0.size) ∨
        (next = some (pre.length + 1) ∧
          (hit_asteroid hit (asteroid_step frame_time e0)).health ≠ 0 ∧ s'.dead = s.dead ∧
          s'.asteroids = pre ++ hit_asteroid hit (asteroid_step frame_time e0) :: rest)) := by
  have hget : s.asteroids[pre.length]? = some e0 := by rw [hs]; exact getElem?_append_cons _ _ _
  obtain ⟨hit, hscan, -⟩ := bullet_scan_ok env (asteroid_step frame_time e0)
    (by simpa using hv) s.bullets 0
  have hset : s.asteroids.set pre.length (hit_asteroid hit (asteroid_step frame_time e0)) =
      pre ++ hit_asteroid hit (asteroid_step frame_time e0) :: rest := by
    rw [hs]; exact set_append_cons _ _ _ _
  obtain ⟨b, hb⟩ := collide_ok env
    { s with
      asteroids := s.asteroids.set pre.length (hit_asteroid hit (asteroid_step frame_time e0))
      bullets := hit_bullets hit s.bullets }
    (hit_asteroid hit (asteroid_step frame_time e0)) (by simpa using hv)
  simp only [asteroid_visit, hget, hscan, bind, Except.bind, hb]
  cases b with
  | true =>
    obtain ⟨hd, hh⟩ := collide_true env _ _ hb
    refine ⟨hit,
      { s with
        dead := true
        asteroids := (s.asteroids.set pre.length
          (hit_asteroid hit (asteroid_step frame_time e0))).set pre.length
            { hit_asteroid hit (asteroid_step frame_time e0) with health := 0 }
        bullets := hit_bullets hit s.bullets },
      none, rfl, rfl, rfl, Or.inl ⟨rfl, hd, rfl, hh, ?_⟩⟩
    simp only [hset]
    exact set_append_cons _ _ _ _
  | false =>
    simp only [Bool.false_eq_true, if_false]
    by_cases hz : (hit_asteroid hit (asteroid_step frame_time e0)).health = 0
    · simp only [hz, if_true, hset]
      obtain ⟨rest', hperm, hswap⟩ := swap_pop_perm pre rest
        (hit_asteroid hit (asteroid_step frame_time e0))
      rw [hswap]
      simp only [hit_asteroid_size, hit_asteroid_pos, asteroid_step_size]
      rcases hv with h0 | h1 | h2
      · refine ⟨hit, { s with asteroids := pre ++ rest', bullets := hit_bullets hit s.bullets },
          some pre.length, rfl, by simp [destroy_asteroid, h0, pure, Except.pure],
          rfl, Or.inr (Or.inl ⟨rfl, hz, rfl, rest', [], hperm, by simp, by simp [h0], by simp⟩)⟩
      · obtain ⟨new, k1, k2, k3, k4, k5, -⟩ := spawn_children_spec env
          (asteroid_step frame_time e0).pos e0.size 3.1 3
          { s with asteroids := pre ++ rest', bullets := hit_bullets hit s.bullets }
        refine ⟨hit, spawn_children env (asteroid_step frame_time e0).pos e0.size 3.1 3
            { s with asteroids := pre ++ rest', bullets := hit_bullets hit s.bullets },
          some pre.length, rfl,
          by simp [destroy_asteroid, h1, pure, Except.pure], k4,
          Or.inr (Or.inl ⟨rfl, hz, k5, rest', new, hperm, k1, by simp [h1, k2], k3⟩)⟩
      · obtain ⟨new, k1, k2, k3, k4, k5, -⟩ := spawn_children_spec env
          (asteroid_step frame_time e0).pos e0.size 2 2
          { s with asteroids := pre ++ rest', bullets := hit_bullets hit s.bullets }
        refine ⟨hit, spawn_children env (asteroid_step frame_time e0).pos e0.size 2 2
            { s with asteroids := pre ++ rest', bullets := hit_bullets hit s.bullets },
          some pre.length, rfl,
          by simp [destroy_asteroid, h2, pure, Except.pure], k4,
          Or.inr (Or.inl ⟨rfl, hz, k5, rest', new, hperm, k1, by simp [h2, k2], k3⟩)⟩
    · simp only [hz, if_false, pure, Except.pure]
      exact ⟨hit,
        { s with
          asteroids := s.asteroids.set pre.length (hit_asteroid hit (asteroid_step frame_time e0))
          bullets := hit_bullets hit s.bullets },
        some (pre.length + 1), rfl, rfl, rfl, Or.inr (Or.inr ⟨rfl, hz, rfl, hset⟩)⟩

/-! ### Termination of the asteroid pass -/

theorem weight_pos (e : asteroid K) : 1 ≤ weight e := by
  unfold weight
  split_ifs <;> omega

theorem total_weight_append (l1 l2 : List (asteroid K)) :
    total_weight (l1 ++ l2) = total_weight l1 + total_weight l2 := by
  simp [total_weight]

theorem total_weight_perm {l1 l2 : List (asteroid K)} (h : l1.Perm l2) :
    total_weight l1 = total_weight l2 := by
  unfold total_weight
  exact (h.map weight).sum_eq

theorem total_weight_const (l : List (asteroid K)) (w : Nat) (h : ∀ c ∈ l, weight c = w) :
    total_weight l = l.length * w := by
  induction l with
  | nil => simp [total_weight]
  | cons c l ih =>
    have h1 := h c (List.mem_cons_self _ _)
    have h2 := ih (fun c hc => h c (List.mem_cons_of_mem _ hc))
    simp only [total_weight, List.map_cons, List.sum_cons, List.length_cons] at h2 ⊢
    rw [h1, h2]
    ring

/-- The children of a split weigh less than the asteroid they come from. -/
theorem children_weight_lt (e0 : asteroid K) (hv : valid_size e0.size)
    (children : List (asteroid K))
    (hl : children.length = (if e0.size = 2 then 2 else if e0.size = 1 then 3 else 0))
    (hc : ∀ c ∈ children, c.size = e0.size - 1) :
    total_weight children < weight e0 ∧ ∀ c ∈ children, valid_size c.size := by
  rcases hv with h0 | h1 | h2
  · have : children = [] := by
      apply List.eq_nil_of_length_eq_zero
      simpa [h0] using hl
    subst this
    exact ⟨by simp [total_weight, weight, h0], by simp⟩
  · have hw : ∀ c ∈ children, weight c = 1 := by
      intro c hcm
      have := hc c hcm
      simp [weight, this, h1]
    rw [total_weight_const children 1 hw]
    refine ⟨by simp [hl, h1, weight], fun c hcm => Or.inl ?_⟩
    rw [hc c hcm, h1]; rfl
  · have hw : ∀ c ∈ children, weight c = 4 := by
      intro c hcm
      have := hc c hcm
      simp [weight, this, h2]
    rw [total_weight_const children 4 hw]
    refine ⟨by simp [hl, h2, weight], fun c hcm => Or.inr (Or.inl ?_)⟩
    rw [hc c hcm, h2]; rfl

/-- The asteroid pass returns when every asteroid not yet visited has a valid
size and the fuel exceeds their total weight. -/
theorem draw_asteroids_terminates (env : Env K) (frame_time : Nat) :
    ∀ (fuel : Nat) (rest pre : List (asteroid K)) (s : asteroids_model K),
      s.asteroids = pre ++ rest → (∀ e ∈ rest, valid_size e.size) →
        total_weight rest < fuel →
          ∃ s', draw_asteroids env frame_time fuel s pre.length = .ok s' := by
  intro fuel
  induction fuel with
  | zero => intro rest pre s _ _ h; exact absurd h (Nat.not_lt_zero _)
  | succ fuel ih =>
    intro rest pre s hs hv hf
    cases rest with
    | nil => exact ⟨s, by simp [draw_asteroids, hs]⟩
    | cons e0 rest =>
      have hne : ¬ pre.length = s.asteroids.length := by rw [hs]; simp
      obtain ⟨hit, s1, next, -, hvis, -, hcase⟩ := asteroid_visit_spec env frame_time s pre e0 rest
        hs (hv e0 (List.mem_cons_self _ _))
      simp only [draw_asteroids, hne, if_false, hvis]
      have hf' : weight e0 + total_weight rest < fuel + 1 := by
        simpa [total_weight] using hf
      rcases hcase with ⟨rfl, -⟩ | ⟨rfl, -, -, rest', children, hperm, hast, hlen, hch⟩ |
        ⟨rfl, -, -, hast⟩
      · exact ⟨s1, rfl⟩
      · obtain ⟨hw, hcv⟩ := children_weight_lt e0 (hv e0 (List.mem_cons_self _ _)) children hlen
          (fun c hc => (hch c hc).2.1)
        apply ih (rest' ++ children) pre s1 (by rw [hast, List.append_assoc])
        · intro e he
          rcases List.mem_append.mp he with he | he
          · exact hv e (List.mem_cons_of_mem _ (hperm.mem_iff.mp he))
          · exact hcv e he
        · rw [total_weight_append, total_weight_perm hperm]
          omega
      · have := ih rest (pre ++ [hit_asteroid hit (asteroid_step frame_time e0)]) s1
          (by rw [hast]; simp) (fun e he => hv e (List.mem_cons_of_mem _ he))
          (by have := weight_pos e0; omega)
        simpa using this

/-! ### Termination of the tick and the respawn block -/

theorem gen_asteroid_pos_terminates (env : Env K) (ship : point K) :
    ∀ (fuel i rand_pos : Nat), i % 2 = 0 → i ≤ 20 → (20 - i) / 2 < fuel →
      ∃ r, gen_asteroid_pos env ship fuel i rand_pos = .ok r := by
  intro fuel
  induction fuel with
  | zero => intro i rp _ _ h; exact absurd h (Nat.not_lt_zero _)
  | succ fuel ih =>
    intro i rp he hle hf
    simp only [gen_asteroid_pos]
    split_ifs with hc
    · exact ⟨_, rfl⟩
    · have hi : i ≠ 20 := fun h => hc (Or.inr h)
      have h18 : i ≤ 18 := by omega
      have hm : (i + 1 + 1) % 2 ^ 64 = i + 2 := by
        apply Nat.mod_eq_of_lt
        have : (2 : Nat) ^ 64 = 18446744073709551616 := by norm_num
        omega
      rw [hm]
      exact ih (i + 2) (rp + 2) (by omega) (by omega) (by omega)

/-- When the counter starts odd and every candidate is within `0.2` of the
ship, the position search never returns. -/
theorem gen_asteroid_pos_stuck (env : Env K) (ship : point K)
    (hnear : ∀ n, ¬ distance env.libm ⟨rand01 env n, rand01 env (n + 1)⟩ ship > 0.2) :
    ∀ (fuel i rand_pos : Nat), i % 2 = 1 →
      gen_asteroid_pos env ship fuel i rand_pos = .error .out_of_fuel := by
  intro fuel
  induction fuel with
  | zero => intro i rp _; rfl
  | succ fuel ih =>
    intro i rp ho
    have hi : i ≠ 20 := by omega
    simp only [gen_asteroid_pos, hnear rp, hi, or_self, if_false]
    apply ih
    have h2 : (2 : Nat) ∣ 2 ^ 64 := Dvd.intro_left (2 ^ 63) (by norm_num)
    rw [Nat.mod_mod_of_dvd _ h2]
    omega

theorem gen_asteroid_terminates (fuel : Nat) (env : Env K) (s : asteroids_model K)
    (hc : counter_reaches_cap env) (hf : 10 < fuel) :
    ∃ s', gen_asteroid fuel env s = .ok s' := by
  obtain ⟨r, hr⟩ := gen_asteroid_pos_terminates env s.ship fuel
    (env.uninit_i s.rand_pos % 2 ^ 64) s.rand_pos (hc _).1 (hc _).2 (by omega)
  obtain ⟨pos, rp⟩ := r
  simp only [gen_asteroid, hr, bind, Except.bind, pure, Except.pure]
  exact ⟨_, rfl⟩

theorem draw_respawn_terminates (fuel : Nat) (env : Env K) (s : asteroids_model K)
    (hc : counter_reaches_cap env) (hf : 10 < fuel) :
    ∃ s', draw_respawn fuel env s = .ok s' := by
  unfold draw_respawn
  split_ifs
  · obtain ⟨s1, h1⟩ := gen_asteroid_terminates fuel env s hc hf
    obtain ⟨s2, h2⟩ := gen_asteroid_terminates fuel env s1 hc hf
    obtain ⟨s3, h3⟩ := gen_asteroid_terminates fuel env s2 hc hf
    simp only [h1, h2, h3, bind, Except.bind]
    exact ⟨s3, rfl⟩
  · exact ⟨s, rfl⟩

theorem draw_ship_asteroids (env : Env K) (frame_time : Nat) (s : asteroids_model K) :
    (draw_ship env frame_time s).asteroids = s.asteroids := by
  by_cases hd : s.dead = true
  · simp [draw_ship, hd]
  · by_cases hs : s.shooting_enabled = true
    · by_cases ht : s.time_till_next_shot ≥ 0 <;> simp [draw_ship, hd, hs, ht]
    · simp [draw_ship, hd, hs]

theorem swap_pop_length_le {α : Type} (v : List α) (i : Nat) :
    (swap_pop v i).length ≤ v.length := by
  unfold swap_pop
  split
  · exact le_rfl
  · simp

theorem hit_bullets_length_le (hit : Option Nat) (bs : List (bullet K)) :
    (hit_bullets hit bs).length ≤ bs.length := by
  cases hit
  · exact le_rfl
  · exact swap_pop_length_le _ _

/-- One round of the asteroid pass removes the bullet that hit, if any, and
leaves the other bullets alone. -/
theorem asteroid_visit_bullets (env : Env K) (frame_time : Nat) (s : asteroids_model K)
    (i : Nat) (s' : asteroids_model K) (next : Option Nat)
    (h : asteroid_visit env frame_time s i = .ok (s', next)) :
    ∃ hit, s'.bullets = hit_bullets hit s.bullets := by
  unfold asteroid_visit at h
  cases he : s.asteroids[i]? with
  | none => simp [he] at h
  | some e0 =>
    simp only [he] at h
    cases hscan : bullet_scan env (asteroid_step frame_time e0) s.bullets 0 with
    | error err => simp [hscan, bind, Except.bind] at h
    | ok hit =>
      simp only [hscan, bind, Except.bind] at h
      refine ⟨hit, ?_⟩
      split at h
      · simp at h
      · split_ifs at h with hb hz
        · simp only [pure, Except.pure, Except.ok.injEq, Prod.mk.injEq] at h
          obtain ⟨h, -⟩ := h
          subst h
          rfl
        · split at h
          · simp at h
          · rename_i s3 hd
            simp only [pure, Except.pure, Except.ok.injEq, Prod.mk.injEq] at h
            obtain ⟨h, -⟩ := h
            subst h
            exact (destroy_asteroid_same_ship env _ _ _ _ hd).2.2
        · simp only [pure, Except.pure, Except.ok.injEq, Prod.mk.injEq] at h
          obtain ⟨h, -⟩ := h
          subst h
          rfl

theorem draw_asteroids_bullets_length (env : Env K) (frame_time : Nat) :
    ∀ (fuel : Nat) (s : asteroids_model K) (i : Nat) (s' : asteroids_model K),
      draw_asteroids env frame_time fuel s i = .ok s' →
        s'.bullets.length ≤ s.bullets.length := by
  intro fuel
  induction fuel with
  | zero => intro s i s' h; simp [draw_asteroids] at h
  | succ fuel ih =>
    intro s i s' h
    simp only [draw_asteroids] at h
    split_ifs at h with hi
    · cases h; exact le_rfl
    · split at h
      · simp at h
      · rename_i s1 hv
        cases h
        obtain ⟨hit, hb⟩ := asteroid_visit_bullets env frame_time s i _ _ hv
        rw [hb]; exact hit_bullets_length_le _ _
      · rename_i s1 j hv
        obtain ⟨hit, hb⟩ := asteroid_visit_bullets env frame_time s i _ _ hv
        have := ih _ _ _ h
        have h2 := hit_bullets_length_le hit s.bullets
        rw [← hb] at h2
        omega

/-- The tick returns when every asteroid has a valid size, the counter of
`gen_asteroid` reaches its cap, and the fuel covers the loops. -/
theorem draw_terminates (fuel : Nat) (env : Env K) (frame_time : Nat) (s : asteroids_model K)
    (hv : ∀ e ∈ s.asteroids, valid_size e.size) (hc : counter_reaches_cap env)
    (hf1 : total_weight s.asteroids < fuel) (hf2 : s.bullets.length + 1 < fuel)
    (hf3 : 10 < fuel) :
    ∃ s', draw fuel env frame_time s = .ok s' := by
  obtain ⟨s1, h1⟩ := draw_asteroids_terminates env frame_time fuel s.asteroids []
    (draw_ship env frame_time s) (by simp [draw_ship_asteroids]) hv hf1
  have hb := draw_asteroids_bullets_length env frame_time fuel _ 0 s1 h1
  have hb2 := draw_ship_bullets_length env frame_time s
  obtain ⟨bs, h2, -⟩ := draw_bullets_spec frame_time fuel s1 (by omega)
  obtain ⟨s3, h3⟩ := draw_respawn_terminates fuel env { s1 with bullets := bs } hc hf3
  exact ⟨s3, by rw [draw_eq_of_passes fuel env frame_time s s1 _ h1 h2]; exact h3⟩

/-- Every tick that returns leaves a non-empty asteroid list. -/
theorem draw_asteroids_ne_nil (fuel : Nat) (env : Env K) (frame_time : Nat)
    (s s' : asteroids_model K) (h : draw fuel env frame_time s = .ok s') :
    s'.asteroids ≠ [] := by
  obtain ⟨s1, s2, -, -, h3⟩ := draw_passes fuel env frame_time s s' h
  obtain ⟨-, -, -, k1, k2⟩ := draw_respawn_spec fuel env s2 s' h3
  by_cases he : s2.asteroids = []
  · obtain ⟨c1, c2, c3, hc, -⟩ := k2 he
    rw [hc]; simp
  · rw [k1 he]; exact he

/-- C8: for every state and frame time, every tick that returns leaves a
non-empty asteroid list: with `s2` the state when the asteroid and bullet
passes of the tick are done, the tick ends with exactly 3 asteroids, each of
size 2 with health 3, when the list of `s2` is empty, and with `s2` itself
otherwise.  The tick does return when the asteroid sizes are valid, the
counter of `gen_asteroid` reaches its cap and the loops get enough fuel. -/
theorem empty_field_respawn (fuel : Nat) (env : Env K) (frame_time : Nat)
    (s0 : asteroids_model K) :
    (∀ s' : asteroids_model K, draw fuel env frame_time s0 = .ok s' →
      s'.asteroids ≠ [] ∧
      ∃ s1 s2 : asteroids_model K,
        draw_asteroids env frame_time fuel (draw_ship env frame_time s0) 0 = .ok s1 ∧
        draw_bullets env frame_time fuel s1 = .ok s2 ∧
        (s2.asteroids = [] → ∃ c1 c2 c3 : asteroid K, s'.asteroids = [c1, c2, c3] ∧
          (c1.size = 2 ∧ c1.health = 3) ∧ (c2.size = 2 ∧ c2.health = 3) ∧
          (c3.size = 2 ∧ c3.health = 3)) ∧
        (s2.asteroids ≠ [] → s' = s2)) ∧
    ((∀ e ∈ s0.asteroids, valid_size e.size) → counter_reaches_cap env →
      total_weight s0.asteroids < fuel → s0.bullets.length + 1 < fuel → 10 < fuel →
      ∃ s', draw fuel env frame_time s0 = .ok s') := by
  refine ⟨fun s' hd => ?_, fun hv hc hf1 hf2 hf3 =>
    draw_terminates fuel env frame_time s0 hv hc hf1 hf2 hf3⟩
  obtain ⟨s1, s2, h1, h2, h3⟩ := draw_passes fuel env frame_time s0 s' hd
  obtain ⟨-, -, -, k1, k2⟩ := draw_respawn_spec fuel env s2 s' h3
  exact ⟨draw_asteroids_ne_nil fuel env frame_time s0 s' hd, s1, s2, h1, h2, k2, k1⟩

theorem sample_counter (i0 : Nat) (h1 : i0 % 2 = 0) (h2 : i0 ≤ 20) :
    counter_reaches_cap (sample_env i0) := by
  intro n
  have : i0 % 2 ^ 64 = i0 := Nat.mod_eq_of_lt (by
    have : (2 : Nat) ^ 64 = 18446744073709551616 := by norm_num
    omega)
  simp only [sample_env, this]
  exact ⟨h1, h2⟩

/-- The theorem `empty_field_respawn` on the sample state with the empty
field, with the counter of `gen_asteroid` starting at `0`: the tick returns,
and it ends with exactly 3 asteroids, each of size 2 with health 3. -/
theorem empty_field_respawn_witness :
    ∃ (s' : asteroids_model ℚ) (c1 c2 c3 : asteroid ℚ),
      draw 11 (sample_env 0) 16 sample_empty = .ok s' ∧ s'.asteroids = [c1, c2, c3] ∧
        (c1.size = 2 ∧ c1.health = 3) ∧ (c2.size = 2 ∧ c2.health = 3) ∧
        (c3.size = 2 ∧ c3.health = 3) := by
  obtain ⟨s', hd⟩ := (empty_field_respawn 11 (sample_env 0) 16 sample_empty).2
    (by simp [sample_empty]) (sample_counter 0 (by decide) (by decide))
    (by simp [sample_empty, total_weight]) (by simp [sample_empty]) (by decide)
  obtain ⟨-, s1, s2, h1, h2, k, -⟩ :=
    (empty_field_respawn 11 (sample_env 0) 16 sample_empty).1 s' hd
  have e1 : s1 = sample_empty := by
    simp only [draw_asteroids, draw_ship, sample_empty, if_true, List.length_nil,
      Except.ok.injEq] at h1
    exact h1.symm
  subst e1
  obtain ⟨-, -, k3⟩ := draw_bullets_frame 16 11 sample_empty s2 h2
  obtain ⟨c1, c2, c3, hc⟩ := k (by rw [k3]; rfl)
  exact ⟨s', c1, c2, c3, hd, hc⟩

/-- C9: in a state in which the ship is dead, every tick that returns leaves
the ship dead, and so does every key-down event other than ESCAPE and every
key-up event; key-down of ESCAPE is the call of `reset`, the only place that
clears the flag.  The tick does return, with the ship dead, when the asteroid
sizes are valid, the counter of `gen_asteroid` reaches its cap and the loops
get enough fuel. -/
theorem death_is_absorbing (s : asteroids_model K) (hd : s.dead = true) :
    (∀ (fuel : Nat) (env : Env K) (frame_time : Nat) (s' : asteroids_model K),
        draw fuel env frame_time s = .ok s' → s'.dead = true) ∧
      (∀ (env : Env K) (p : key_down_params) (c : context),
        p.key ≠ .SDLK_ESCAPE → (key_down env p s c).1.dead = true) ∧
      (∀ (p : key_up_params) (c : context), (key_up p s c).1.dead = true) ∧
      (∀ (env : Env K) (p : key_down_params) (c : context),
        p.key = .SDLK_ESCAPE → (key_down env p s c).1 = reset env s) ∧
      (∀ (fuel : Nat) (env : Env K) (frame_time : Nat),
        (∀ e ∈ s.asteroids, valid_size e.size) → counter_reaches_cap env →
        total_weight s.asteroids < fuel → s.bullets.length + 1 < fuel → 10 < fuel →
        ∃ s', draw fuel env frame_time s = .ok s' ∧ s'.dead = true) := by
  have hdraw : ∀ (fuel : Nat) (env : Env K) (frame_time : Nat) (s' : asteroids_model K),
      draw fuel env frame_time s = .ok s' → s'.dead = true := by
    intro fuel env frame_time s' h
    obtain ⟨s1, s2, h1, h2, h3⟩ := draw_passes fuel env frame_time s s' h
    have a := (draw_asteroids_same_ship env frame_time fuel _ 0 s1 h1).2
      (by rw [draw_ship_dead]; exact hd)
    have b := (draw_bullets_frame frame_time fuel s1 s2 h2).2.1
    have c := (draw_respawn_spec fuel env s2 s' h3).2.1
    rw [c, b, a]
  refine ⟨hdraw, ?_, ?_, ?_, ?_⟩
  · intro env p c hk
    obtain ⟨k, m⟩ := p
    cases k <;> simp_all [key_down]
  · intro p c
    obtain ⟨k, m⟩ := p
    cases k <;> simp [key_up, hd] <;> split_ifs <;> simp [hd]
  · intro env p c hk
    obtain ⟨k, m⟩ := p
    simp only at hk
    subst hk
    simp [key_down, hd]
  · intro fuel env frame_time hv hc hf1 hf2 hf3
    obtain ⟨s', h⟩ := draw_terminates fuel env frame_time s hv hc hf1 hf2 hf3
    exact ⟨s', h, hdraw fuel env frame_time s' h⟩

/-- The theorem `death_is_absorbing` on the sample state, whose ship is dead:
the tick of 500 ms returns with the ship dead. -/
theorem death_is_absorbing_witness :
    sample_state.dead = true ∧
      ∃ s', draw 11 (sample_env 0) 500 sample_state = .ok s' ∧ s'.dead = true :=
  ⟨rfl, (death_is_absorbing sample_state rfl).2.2.2.2 11 (sample_env 0) 500
    (by simp [sample_state, valid_size]) (sample_counter 0 (by decide) (by decide))
    (by simp [sample_state, total_weight, weight]) (by simp [sample_state]) (by decide)⟩

theorem sample_rand01 (i0 n : Nat) : rand01 (sample_env i0) n = 0 := by
  unfold rand01
  have h : (sample_env i0).rand n = 0 := rfl
  rw [h, Nat.cast_zero, zero_div]

theorem distance_eq (m : Libm K) (a b c d : K) :
    distance m ⟨a, b⟩ ⟨c, d⟩ = m.hypot (a - c) (b - d) := rfl

/-- In the sample environment every candidate position of `gen_asteroid` is
`(0, 0)`, at distance `1/8` from a ship at `(1/8, 0)`. -/
theorem sample_candidates_near (i0 : Nat) : ∀ n, ¬ distance (sample_env i0).libm
    ⟨rand01 (sample_env i0) n, rand01 (sample_env i0) (n + 1)⟩ (⟨1/8, 0⟩ : point ℚ) > 0.2 := by
  intro n
  have h : |(0 : ℚ) - 1/8| = 1/8 := by
    rw [abs_sub_comm, sub_zero]
    exact abs_of_pos (by norm_num)
  rw [distance_eq, sample_rand01, sample_rand01, sub_self, sample_hypot, h]
  norm_num

/-! ### A bullet within hit distance -/

/-- `collide` reads only the `dead` flag, the position and the heading of the ship. -/
theorem collide_congr (env : Env K) (s s' : asteroids_model K) (e : asteroid K)
    (h1 : s'.dead = s.dead) (h2 : s'.ship = s.ship) (h3 : s'.ship_yaw = s.ship_yaw) :
    collide env s' e = collide env s e := by
  simp only [collide, h1, h2, h3]

theorem bullet_scan_head (env : Env K) (e : asteroid K) (b : bullet K) (bs : List (bullet K))
    (j : Nat) (r : K) (hr : asteroid_sizes e.size = .ok r)
    (hd : distance env.libm e.pos b.pos < r + line_width + bullet_radius) :
    bullet_scan env e (b :: bs) j = .ok (some j) := by
  simp [bullet_scan, hr, bind, Except.bind, hd, pure, Except.pure]

theorem bullet_scan_head_miss (env : Env K) (e : asteroid K) (b : bullet K)
    (bs : List (bullet K)) (j : Nat) (r : K) (hr : asteroid_sizes e.size = .ok r)
    (hd : ¬ distance env.libm e.pos b.pos < r + line_width + bullet_radius) :
    bullet_scan env e (b :: bs) j = bullet_scan env e bs (j + 1) := by
  simp [bullet_scan, hr, bind, Except.bind, hd]

/-- The ship block keeps the bullets and appends at most one. -/
theorem draw_ship_bullets (env : Env K) (frame_time : Nat) (s : asteroids_model K) :
    ∃ sp, (draw_ship env frame_time s).bullets = s.bullets ++ sp ∧ sp.length ≤ 1 ∧
      (s.dead = true → sp = []) := by
  by_cases hd : s.dead = true
  · exact ⟨[], by simp [draw_ship, hd], by simp, fun _ => rfl⟩
  · by_cases hs : s.shooting_enabled = true
    · by_cases ht : s.time_till_next_shot ≥ 0
      · exact ⟨[], by simp [draw_ship, hd, hs, ht], by simp, fun _ => rfl⟩
      · exact ⟨_, by simp only [draw_ship, hd, hs, ht, if_true, if_false]; rfl, by simp,
          fun h => absurd h hd⟩
    · exact ⟨[], by simp [draw_ship, hd, hs], by simp, fun _ => rfl⟩

theorem swap_pop_zero {α : Type} (b : α) (sp : List α) (h : sp.length ≤ 1) :
    swap_pop (b :: sp) 0 = sp := by
  match sp, h with
  | [], _ => simp [swap_pop]
  | [x], _ => simp [swap_pop]

theorem valid_size_of_ok (n : Int) (r : K) (h : asteroid_sizes n = .ok r) : valid_size n := by
  unfold asteroid_sizes at h
  split_ifs at h with h0 h1 h2
  · exact Or.inl h0
  · exact Or.inr (Or.inl h1)
  · exact Or.inr (Or.inr h2)

theorem swap_pop_mem {α : Type} (v : List α) (i : Nat) (x : α) (h : x ∈ swap_pop v i) :
    x ∈ v := by
  unfold swap_pop at h
  split at h
  · exact h
  · rename_i b hb
    have h1 := List.mem_of_mem_dropLast h
    rcases List.mem_or_eq_of_mem_set h1 with h2 | h2
    · exact h2
    · rw [h2]
      exact List.mem_of_getLast?_eq_some hb

theorem hit_bullets_mem (hit : Option Nat) (bs : List (bullet K)) (x : bullet K)
    (h : x ∈ hit_bullets hit bs) : x ∈ bs := by
  cases hit
  · exact h
  · exact swap_pop_mem _ _ _ h

/-- The asteroid pass only removes bullets. -/
theorem draw_asteroids_bullets_mem (env : Env K) (frame_time : Nat) :
    ∀ (fuel : Nat) (s : asteroids_model K) (i : Nat) (s' : asteroids_model K),
      draw_asteroids env frame_time fuel s i = .ok s' →
        ∀ x ∈ s'.bullets, x ∈ s.bullets := by
  intro fuel
  induction fuel with
  | zero => intro s i s' h; simp [draw_asteroids] at h
  | succ fuel ih =>
    intro s i s' h
    simp only [draw_asteroids] at h
    split_ifs at h with hi
    · cases h; exact fun x hx => hx
    · split at h
      · simp at h
      · rename_i s1 hv
        cases h
        obtain ⟨hit, hb⟩ := asteroid_visit_bullets env frame_time s i _ _ hv
        intro x hx
        rw [hb] at hx
        exact hit_bullets_mem _ _ _ hx
      · rename_i s1 j hv
        obtain ⟨hit, hb⟩ := asteroid_visit_bullets env frame_time s i _ _ hv
        intro x hx
        have := ih _ _ _ h x hx
        rw [hb] at this
        exact hit_bullets_mem _ _ _ this

/-- C11 (as amended): take a state with one asteroid `e` (its size a valid
index, health at least 1) and exactly one bullet `b` such that, after the move
of the asteroid for this frame time, the bullet lies within the hit distance of
the asteroid, and such that the ship does not collide with the asteroid.  Then
the visit of the asteroid in the asteroid pass finds the bullet `b`, removes it
from the bullet list (what is left are the bullets `sp` that the ship block
appended in this tick, at most one) and lowers the health of the asteroid by
exactly one: with health at least 2 the moved asteroid stays, with its health
lowered by one; with health 1 the health reaches 0 and the asteroid is removed
and split in the same visit (the list then holds its children, by its size).
In every tick that returns the bullets left are among the aged bullets of `sp`,
and with health at least 2 the asteroid list is the moved asteroid with its
health lowered by one and the bullets are those of `sp` that the bullet pass
kept.  The tick does return when the counter of `gen_asteroid` reaches its cap
and the loops get enough fuel. -/
theorem bullet_at_center (fuel : Nat) (env : Env K) (frame_time : Nat)
    (s : asteroids_model K) (e : asteroid K) (b : bullet K) (r : K)
    (hs : s.asteroids = [e]) (hb : s.bullets = [b])
    (hr : asteroid_sizes e.size = .ok r)
    (hd : distance env.libm (asteroid_step frame_time e).pos b.pos
      < r + line_width + bullet_radius)
    (hh : 1 ≤ e.health)
    (hnc : collide env (draw_ship env frame_time s)
      { asteroid_step frame_time e with health := e.health - 1 } = .ok false) :
    ∃ sp : List (bullet K), (draw_ship env frame_time s).bullets = b :: sp ∧ sp.length ≤ 1 ∧
      (∃ (s1 : asteroids_model K) (next : Option Nat),
        bullet_scan env (asteroid_step frame_time e) (draw_ship env frame_time s).bullets 0 =
          .ok (some 0) ∧
        asteroid_visit env frame_time (draw_ship env frame_time s) 0 = .ok (s1, next) ∧
        s1.bullets = sp ∧
        (2 ≤ e.health → next = some 1 ∧
          s1.asteroids = [{ asteroid_step frame_time e with health := e.health - 1 }]) ∧
        (e.health = 1 → next = some 0 ∧
          s1.asteroids.length = (if e.size = 2 then 2 else if e.size = 1 then 3 else 0) ∧
          ∀ c ∈ s1.asteroids, c.pos = (asteroid_step frame_time e).pos ∧
            c.size = e.size - 1 ∧ c.health = e.size)) ∧
      (∀ s' : asteroids_model K, draw fuel env frame_time s = .ok s' →
        s'.bullets.length ≤ sp.length ∧
        (∀ x ∈ s'.bullets, x ∈ sp.map (bullet_step env frame_time)) ∧
        (2 ≤ e.health →
          s'.asteroids = [{ asteroid_step frame_time e with health := e.health - 1 }] ∧
          s'.bullets.Perm ((sp.filter
            (fun b => decide (0 ≤ (bullet_step env frame_time b).ttl))).map
              (bullet_step env frame_time)))) ∧
      (counter_reaches_cap env → 10 < fuel → ∃ s', draw fuel env frame_time s = .ok s') := by
  obtain ⟨sp, hsp, hlen, -⟩ := draw_ship_bullets env frame_time s
  rw [hb] at hsp
  have hsp' : (draw_ship env frame_time s).bullets = b :: sp := by simpa using hsp
  have hast : (draw_ship env frame_time s).asteroids = [] ++ e :: [] := by
    rw [draw_ship_asteroids, hs]; rfl
  have hv : valid_size e.size := valid_size_of_ok e.size r hr
  have hscan : bullet_scan env (asteroid_step frame_time e)
      (draw_ship env frame_time s).bullets 0 = .ok (some 0) := by
    rw [hsp']
    exact bullet_scan_head env _ b sp 0 r (by simpa using hr) hd
  have hhit : hit_asteroid (some 0) (asteroid_step frame_time e) =
      { asteroid_step frame_time e with health := e.health - 1 } := rfl
  have hbul : hit_bullets (some 0) (draw_ship env frame_time s).bullets = sp := by
    rw [hsp']
    exact swap_pop_zero b sp hlen
  -- the visit
  obtain ⟨hit, s1, next, k1, k2, k3, k4⟩ :=
    asteroid_visit_spec env frame_time (draw_ship env frame_time s) [] e [] hast hv
  rw [hscan] at k1
  cases k1
  rw [hbul] at k3
  rw [hhit] at k4
  simp only [List.length_nil, List.nil_append, zero_add] at k2 k4
  have hnot : ¬ (next = none ∧ (draw_ship env frame_time s).dead = false ∧ s1.dead = true ∧
      ({ asteroid_step frame_time e with health := e.health - 1 } : asteroid K).health ≠ 0 ∧
      s1.asteroids = [{ ({ asteroid_step frame_time e with health := e.health - 1 } :
        asteroid K) with health := 0 }]) := by
    rintro ⟨hn, -, -, -, -⟩
    subst hn
    have hcol := hnc
    unfold asteroid_visit at k2
    have hget : (draw_ship env frame_time s).asteroids[0]? = some e := by rw [hast]; rfl
    simp only [hget, hscan, bind, Except.bind, hhit] at k2
    have hc2 : collide env
        { draw_ship env frame_time s with
          asteroids := (draw_ship env frame_time s).asteroids.set 0
            { asteroid_step frame_time e with health := e.health - 1 }
          bullets := hit_bullets (some 0) (draw_ship env frame_time s).bullets }
        { asteroid_step frame_time e with health := e.health - 1 } = .ok false := hnc
    simp only [hc2, Bool.false_eq_true, if_false] at k2
    split_ifs at k2
    · split at k2
      · simp at k2
      · simp [pure, Except.pure] at k2
    · simp [pure, Except.pure] at k2
  have hvisit : (2 ≤ e.health → next = some 1 ∧
        s1.asteroids = [{ asteroid_step frame_time e with health := e.health - 1 }]) ∧
      (e.health = 1 → next = some 0 ∧
        s1.asteroids.length = (if e.size = 2 then 2 else if e.size = 1 then 3 else 0) ∧
        ∀ c ∈ s1.asteroids, c.pos = (asteroid_step frame_time e).pos ∧
          c.size = e.size - 1 ∧ c.health = e.size) := by
    rcases k4 with k4 | k4 | k4
    · exact absurd k4 hnot
    · obtain ⟨hn, hz, -, rest', children, hperm, hlist, hcount, hch⟩ := k4
      have hz' : e.health - 1 = 0 := hz
      have hr0 : rest' = [] := List.Perm.eq_nil hperm
      subst hr0
      simp only [List.nil_append] at hlist
      refine ⟨fun h2 => by omega, fun _ => ⟨hn, by rw [hlist]; exact hcount, ?_⟩⟩
      intro c hc
      rw [hlist] at hc
      exact hch c hc
    · obtain ⟨hn, hz, -, hlist⟩ := k4
      have hz' : e.health - 1 ≠ 0 := hz
      exact ⟨fun _ => ⟨hn, hlist⟩, fun h1 => by omega⟩
  refine ⟨sp, hsp', hlen, ⟨s1, next, hscan, k2, k3, hvisit⟩, ?_, ?_⟩
  · -- every tick that returns
    intro s' hdraw
    obtain ⟨t1, t2, h1, h2, h3⟩ := draw_passes fuel env frame_time s s' hdraw
    have hfirst : ∃ f j, fuel = f + 1 ∧ next = some j ∧
        draw_asteroids env frame_time f s1 j = .ok t1 := by
      cases fuel with
      | zero => simp [draw_asteroids] at h1
      | succ f =>
        have h01 : ¬ (0 = (draw_ship env frame_time s).asteroids.length) := by
          rw [hast]; simp
        simp only [draw_asteroids, h01, if_false, k2] at h1
        cases next with
        | none =>
          exfalso
          rcases hvisit with ⟨a, c⟩
          rcases lt_or_le e.health 2 with h | h
          · have := (c (by omega)).1; simp at this
          · have := (a h).1; simp at this
        | some j => exact ⟨f, j, rfl, rfl, h1⟩
    obtain ⟨f, j, rfl, hj, hrest⟩ := hfirst
    have hm1 := draw_asteroids_bullets_mem env frame_time f s1 j t1 hrest
    have hl1 := draw_asteroids_bullets_length env frame_time f s1 j t1 hrest
    rw [k3] at hm1 hl1
    have hsb : s'.bullets = t2.bullets := (draw_respawn_spec (f + 1) env t2 s' h3).2.2.1
    have hf2 : 1 ≤ f := by
      cases f with
      | zero => simp [draw_asteroids] at hrest
      | succ f => omega
    obtain ⟨bs, hbs, hperm⟩ := draw_bullets_spec frame_time (f + 1) t1 (by omega)
    rw [hbs] at h2
    cases h2
    simp only at hsb
    refine ⟨?_, ?_, ?_⟩
    · rw [hsb, hperm.length_eq, List.length_map]
      exact le_trans (List.length_filter_le _ _) hl1
    · intro x hx
      rw [hsb] at hx
      have := (hperm.mem_iff).mp hx
      obtain ⟨y, hy, rfl⟩ := List.mem_map.mp this
      exact List.mem_map.mpr ⟨y, hm1 y (List.mem_of_mem_filter hy), rfl⟩
    · intro h2
      obtain ⟨hn, hlist⟩ := hvisit.1 h2
      rw [hn] at hj
      cases hj
      have ht1 : t1 = s1 := by
        cases f with
        | zero => omega
        | succ f =>
          simp only [draw_asteroids, hlist, List.length_singleton, if_true,
            Except.ok.injEq] at hrest
          exact hrest.symm
      subst ht1
      have hne : ({ t1 with bullets := bs } : asteroids_model K).asteroids ≠ [] := by
        simp [hlist]
      have := (draw_respawn_spec (f + 1) env _ s' h3).2.2.2.1 hne
      rw [this]
      refine ⟨hlist, ?_⟩
      simpa [k3] using hperm
  · intro hc hf
    have hw : total_weight s.asteroids < fuel := by
      rw [hs]
      have : weight e ≤ 9 := by unfold weight; split_ifs <;> omega
      simp only [total_weight, List.map_cons, List.map_nil, List.sum_cons, List.sum_nil]
      omega
    exact draw_terminates fuel env frame_time s
      (by rw [hs]; intro a ha; rw [List.mem_singleton.mp ha]; exact hv) hc hw
      (by rw [hb]; simp; omega) hf

theorem sample_hit_distance (h : Int) :
    distance (sample_env 0).libm
      (asteroid_step 16
        ({ pos := ⟨1/4, 1/4⟩, velocity := ⟨0, 0⟩, size := 2, health := h } : asteroid ℚ)).pos
      (⟨1/4, 1/4⟩ : point ℚ) < 0.053 + line_width + bullet_radius := by
  have h1 : trim_01 (1/4 : ℚ) = 1/4 := trim_01_of_mem _ (by norm_num) (by norm_num)
  have h2 : asteroid_step 16
      ({ pos := ⟨1/4, 1/4⟩, velocity := ⟨0, 0⟩, size := 2, health := h } : asteroid ℚ) =
      { pos := ⟨1/4, 1/4⟩, velocity := ⟨0, 0⟩, size := 2, health := h } := by
    simp only [asteroid_step]
    norm_num [h1]
  rw [h2, distance_eq, sub_self, sample_hypot]
  norm_num [line_width, bullet_radius]

/-- The theorem `bullet_at_center` on the sample states `sample_hit`, whose
asteroid has health 3, and `sample_last_hit`, whose asteroid has health 1 and
is removed and split by the hit. -/
theorem bullet_at_center_witness :
    ((sample_hit.asteroids = [{ pos := ⟨1/4, 1/4⟩, velocity := ⟨0, 0⟩, size := 2, health := 3 }] ∧
        sample_hit.bullets = [{ pos := ⟨1/4, 1/4⟩, velocity := ⟨10, 0⟩, ttl := 4/5 }] ∧
        asteroid_sizes (2 : Int) = (.ok 0.053 : Except Fault ℚ) ∧ (1 : Int) ≤ 3) ∧
      ∃ sp : List (bullet ℚ), (draw_ship (sample_env 0) 16 sample_hit).bullets =
          ({ pos := ⟨1/4, 1/4⟩, velocity := ⟨10, 0⟩, ttl := 4/5 } : bullet ℚ) :: sp ∧
        sp.length ≤ 1 ∧
        (∃ (s1 : asteroids_model ℚ) (next : Option Nat),
          bullet_scan (sample_env 0) (asteroid_step 16 ({ pos := ⟨1/4, 1/4⟩, velocity := ⟨0, 0⟩, size := 2, health := 3 } : asteroid ℚ))
            (draw_ship (sample_env 0) 16 sample_hit).bullets 0 = .ok (some 0) ∧
          asteroid_visit (sample_env 0) 16 (draw_ship (sample_env 0) 16 sample_hit) 0 =
            .ok (s1, next) ∧
          s1.bullets = sp ∧
          (2 ≤ ({ pos := ⟨1/4, 1/4⟩, velocity := ⟨0, 0⟩, size := 2, health := 3 } : asteroid ℚ).health → next = some 1 ∧
            s1.asteroids = [{ asteroid_step 16 ({ pos := ⟨1/4, 1/4⟩, velocity := ⟨0, 0⟩, size := 2, health := 3 } : asteroid ℚ) with health := ({ pos := ⟨1/4, 1/4⟩, velocity := ⟨0, 0⟩, size := 2, health := 3 } : asteroid ℚ).health - 1 }]) ∧
          (({ pos := ⟨1/4, 1/4⟩, velocity := ⟨0, 0⟩, size := 2, health := 3 } : asteroid ℚ).health = 1 → next = some 0 ∧
            s1.asteroids.length =
              (if ({ pos := ⟨1/4, 1/4⟩, velocity := ⟨0, 0⟩, size := 2, health := 3 } : asteroid ℚ).size = 2 then 2 else if ({ pos := ⟨1/4, 1/4⟩, velocity := ⟨0, 0⟩, size := 2, health := 3 } : asteroid ℚ).size = 1 then 3 else 0) ∧
            ∀ c ∈ s1.asteroids, c.pos = (asteroid_step 16 ({ pos := ⟨1/4, 1/4⟩, velocity := ⟨0, 0⟩, size := 2, health := 3 } : asteroid ℚ)).pos ∧
              c.size = ({ pos := ⟨1/4, 1/4⟩, velocity := ⟨0, 0⟩, size := 2, health := 3 } : asteroid ℚ).size - 1 ∧ c.health = ({ pos := ⟨1/4, 1/4⟩, velocity := ⟨0, 0⟩, size := 2, health := 3 } : asteroid ℚ).size)) ∧
        (∀ s' : asteroids_model ℚ, draw 11 (sample_env 0) 16 sample_hit = .ok s' →
          s'.bullets.length ≤ sp.length ∧
          (∀ x ∈ s'.bullets, x ∈ sp.map (bullet_step (sample_env 0) 16)) ∧
          (2 ≤ ({ pos := ⟨1/4, 1/4⟩, velocity := ⟨0, 0⟩, size := 2, health := 3 } : asteroid ℚ).health →
            s'.asteroids = [{ asteroid_step 16 ({ pos := ⟨1/4, 1/4⟩, velocity := ⟨0, 0⟩, size := 2, health := 3 } : asteroid ℚ) with health := ({ pos := ⟨1/4, 1/4⟩, velocity := ⟨0, 0⟩, size := 2, health := 3 } : asteroid ℚ).health - 1 }] ∧
            s'.bullets.Perm ((sp.filter
              (fun b => decide (0 ≤ (bullet_step (sample_env 0) 16 b).ttl))).map
                (bullet_step (sample_env 0) 16)))) ∧
        (counter_reaches_cap (sample_env 0) → 10 < 11 →
          ∃ s', draw 11 (sample_env 0) 16 sample_hit = .ok s')) ∧
    ((sample_last_hit.asteroids = [{ pos := ⟨1/4, 1/4⟩, velocity := ⟨0, 0⟩, size := 2, health := 1 }] ∧
        sample_last_hit.bullets = [{ pos := ⟨1/4, 1/4⟩, velocity := ⟨10, 0⟩, ttl := 4/5 }] ∧
        asteroid_sizes (2 : Int) = (.ok 0.053 : Except Fault ℚ) ∧ (1 : Int) ≤ 1) ∧
      ∃ sp : List (bullet ℚ), (draw_ship (sample_env 0) 16 sample_last_hit).bullets =
          ({ pos := ⟨1/4, 1/4⟩, velocity := ⟨10, 0⟩, ttl := 4/5 } : bullet ℚ) :: sp ∧
        sp.length ≤ 1 ∧
        (∃ (s1 : asteroids_model ℚ) (next : Option Nat),
          bullet_scan (sample_env 0) (asteroid_step 16 ({ pos := ⟨1/4, 1/4⟩, velocity := ⟨0, 0⟩, size := 2, health := 1 } : asteroid ℚ))
            (draw_ship (sample_env 0) 16 sample_last_hit).bullets 0 = .ok (some 0) ∧
          asteroid_visit (sample_env 0) 16 (draw_ship (sample_env 0) 16 sample_last_hit) 0 =
            .ok (s1, next) ∧
          s1.bullets = sp ∧
          (2 ≤ ({ pos := ⟨1/4, 1/4⟩, velocity := ⟨0, 0⟩, size := 2, health := 1 } : asteroid ℚ).health → next = some 1 ∧
            s1.asteroids = [{ asteroid_step 16 ({ pos := ⟨1/4, 1/4⟩, velocity := ⟨0, 0⟩, size := 2, health := 1 } : asteroid ℚ) with health := ({ pos := ⟨1/4, 1/4⟩, velocity := ⟨0, 0⟩, size := 2, health := 1 } : asteroid ℚ).health - 1 }]) ∧
          (({ pos := ⟨1/4, 1/4⟩, velocity := ⟨0, 0⟩, size := 2, health := 1 } : asteroid ℚ).health = 1 → next = some 0 ∧
            s1.asteroids.length =
              (if ({ pos := ⟨1/4, 1/4⟩, velocity := ⟨0, 0⟩, size := 2, health := 1 } : asteroid ℚ).size = 2 then 2 else if ({ pos := ⟨1/4, 1/4⟩, velocity := ⟨0, 0⟩, size := 2, health := 1 } : asteroid ℚ).size = 1 then 3 else 0) ∧
            ∀ c ∈ s1.asteroids, c.pos = (asteroid_step 16 ({ pos := ⟨1/4, 1/4⟩, velocity := ⟨0, 0⟩, size := 2, health := 1 } : asteroid ℚ)).pos ∧
              c.size = ({ pos := ⟨1/4, 1/4⟩, velocity := ⟨0, 0⟩, size := 2, health := 1 } : asteroid ℚ).size - 1 ∧ c.health = ({ pos := ⟨1/4, 1/4⟩, velocity := ⟨0, 0⟩, size := 2, health := 1 } : asteroid ℚ).size)) ∧
        (∀ s' : asteroids_model ℚ, draw 11 (sample_env 0) 16 sample_last_hit = .ok s' →
          s'.bullets.length ≤ sp.length ∧
          (∀ x ∈ s'.bullets, x ∈ sp.map (bullet_step (sample_env 0) 16)) ∧
          (2 ≤ ({ pos := ⟨1/4, 1/4⟩, velocity := ⟨0, 0⟩, size := 2, health := 1 } : asteroid ℚ).health →
            s'.asteroids = [{ asteroid_step 16 ({ pos := ⟨1/4, 1/4⟩, velocity := ⟨0, 0⟩, size := 2, health := 1 } : asteroid ℚ) with health := ({ pos := ⟨1/4, 1/4⟩, velocity := ⟨0, 0⟩, size := 2, health := 1 } : asteroid ℚ).health - 1 }] ∧
            s'.bullets.Perm ((sp.filter
              (fun b => decide (0 ≤ (bullet_step (sample_env 0) 16 b).ttl))).map
                (bullet_step (sample_env 0) 16)))) ∧
        (counter_reaches_cap (sample_env 0) → 10 < 11 →
          ∃ s', draw 11 (sample_env 0) 16 sample_last_hit = .ok s')) :=
  have hr : asteroid_sizes (2 : Int) = (.ok 0.053 : Except Fault ℚ) := by simp [asteroid_sizes]
  ⟨⟨⟨rfl, rfl, hr, by decide⟩,
    bullet_at_center 11 (sample_env 0) 16 sample_hit
      { pos := ⟨1/4, 1/4⟩, velocity := ⟨0, 0⟩, size := 2, health := 3 }
      { pos := ⟨1/4, 1/4⟩, velocity := ⟨10, 0⟩, ttl := 4/5 } 0.053 rfl rfl hr
      (sample_hit_distance 3) (by decide) (by simp [collide, draw_ship, sample_hit])⟩,
   ⟨⟨rfl, rfl, hr, by decide⟩,
    bullet_at_center 11 (sample_env 0) 16 sample_last_hit
      { pos := ⟨1/4, 1/4⟩, velocity := ⟨0, 0⟩, size := 2, health := 1 }
      { pos := ⟨1/4, 1/4⟩, velocity := ⟨10, 0⟩, ttl := 4/5 } 0.053 rfl rfl hr
      (sample_hit_distance 1) (by decide)
      (by simp [collide, draw_ship, sample_last_hit, sample_hit])⟩⟩

/-- The tick of 100 ms on the sample state `sample_miss`: the asteroid first
moves by `0.03`, which is more than the hit distance `0.0255` of a size-0
asteroid, so the bullet scan misses. -/
theorem sample_miss_draw :
    draw 2 (sample_env 0) 100 sample_miss =
      .ok { sample_miss with
            asteroids := [{ pos := ⟨7/25, 1/4⟩, velocity := ⟨3, 0⟩, size := 0, health := 1 }]
            bullets := [{ pos := ⟨7/20, 1/4⟩, velocity := ⟨10, 0⟩, ttl := 7/10 }] } := by
  have h1 : trim_01 (1/4 : ℚ) = 1/4 := trim_01_of_mem _ (by norm_num) (by norm_num)
  have h2 : trim_01 (7/25 : ℚ) = 7/25 := trim_01_of_mem _ (by norm_num) (by norm_num)
  have h3 : trim_01 (7/20 : ℚ) = 7/20 := trim_01_of_mem _ (by norm_num) (by norm_num)
  have h4 : |(3/100 : ℚ)| = 3/100 := abs_of_pos (by norm_num)
  have ha : draw_asteroids (sample_env 0) 100 2 (draw_ship (sample_env 0) 100 sample_miss) 0 =
      .ok { sample_miss with
            asteroids := [{ pos := ⟨7/25, 1/4⟩, velocity := ⟨3, 0⟩, size := 0, health := 1 }] } := by
    simp only [draw_ship, sample_miss, if_true]
    simp only [draw_asteroids, asteroid_visit, asteroid_step, hit_asteroid, hit_bullets,
      bullet_scan, collide, asteroid_sizes, distance, norm, line_width, bullet_radius, bind,
      Except.bind, pure, Except.pure, point.sub_x, point.sub_y]
    norm_num [h1, h2, h4, sample_hypot]
  have hb : draw_bullets (sample_env 0) 100 2
      { sample_miss with
        asteroids := [{ pos := ⟨7/25, 1/4⟩, velocity := ⟨3, 0⟩, size := 0, health := 1 }] } =
      .ok { sample_miss with
            asteroids := [{ pos := ⟨7/25, 1/4⟩, velocity := ⟨3, 0⟩, size := 0, health := 1 }]
            bullets := [{ pos := ⟨7/20, 1/4⟩, velocity := ⟨10, 0⟩, ttl := 7/10 }] } := by
    simp only [draw_bullets, sample_miss, bullets_loop, bullet_step, sample_elapsed, sample_fl]
    norm_num [h1, h3, bind, Except.bind, pure, Except.pure]
  rw [draw_eq_of_passes 2 (sample_env 0) 100 sample_miss _ _ ha hb]
  simp [draw_respawn]

theorem sample_sqrt_sq (i0 : Nat) (q : ℚ) (h : 0 ≤ q) : (sample_env i0).libm.sqrt (q * q) = q := by
  show Rat.sqrt (q * q) = q
  rw [Rat.sqrt_eq, abs_of_nonneg h]

theorem sample_sqrt_1 : (sample_env 0).libm.sqrt (1/25000000) = 1/5000 := by
  have h := sample_sqrt_sq 0 (1/5000) (by norm_num)
  have e : (1/5000 : ℚ) * (1/5000) = 1/25000000 := by norm_num
  rw [e] at h
  exact h

theorem collide_rear_edge (env : Env ℚ) (s : asteroids_model ℚ) (hd : s.dead = false)
    (hs : s.ship = ⟨1/2, 1/2⟩) (hcos : env.libm.cos s.ship_yaw = 1)
    (hsin : env.libm.sin s.ship_yaw = 0) (hsqrt : env.libm.sqrt (1/25000000) = 1/5000) :
    collide env s
      { pos := ⟨402/875, 1/2⟩, velocity := ⟨0, 0⟩, size := 0, health := 1 } = .ok true := by
  simp only [collide, hd, hs, hcos, hsin, collide_edge, asteroid_sizes, intersect, quotient_in_01,
    ship_p1, ship_p2, ship_p3, collision_tolerance, dot, norm2, point.sub_x, point.sub_y,
    point.add_x, point.add_y, bind, Except.bind, pure, Except.pure]
  norm_num [hsqrt]

theorem sample_collision_collide (s : asteroids_model ℚ) (hd : s.dead = false)
    (hs : s.ship = ⟨1/2, 1/2⟩) (hy : s.ship_yaw = 0) :
    collide (sample_env 0) s
      { pos := ⟨402/875, 1/2⟩, velocity := ⟨0, 0⟩, size := 0, health := 1 } = .ok true :=
  collide_rear_edge (sample_env 0) s hd hs (by rw [hy]; exact (sample_cos_sin 0).1)
    (by rw [hy]; exact (sample_cos_sin 0).2) sample_sqrt_1

/-- The asteroid pass leaves no asteroid with health 0 behind unless it ends
with a collision: the asteroids before the current index have a health other
than 0, and a visit removes the asteroid whose health is 0. -/
theorem draw_asteroids_health (env : Env K) (frame_time : Nat) :
    ∀ (fuel : Nat) (rest pre : List (asteroid K)) (s s1 : asteroids_model K),
      s.asteroids = pre ++ rest → (∀ e ∈ rest, valid_size e.size) →
        (∀ e ∈ pre, e.health ≠ 0) →
          draw_asteroids env frame_time fuel s pre.length = .ok s1 →
            (s.dead = true ∨ s1.dead = false) → ∀ e ∈ s1.asteroids, e.health ≠ 0 := by
  intro fuel
  induction fuel with
  | zero => intro rest pre s s1 _ _ _ h; simp [draw_asteroids] at h
  | succ fuel ih =>
    intro rest pre s s1 hs hv hp h hd
    cases rest with
    | nil =>
      have hlen : pre.length = s.asteroids.length := by rw [hs]; simp
      simp only [draw_asteroids, hlen, if_true, Except.ok.injEq] at h
      subst h
      rw [hs]
      simpa using hp
    | cons e0 rest =>
      have hne : ¬ pre.length = s.asteroids.length := by rw [hs]; simp
      obtain ⟨hit, s2, next, -, hvis, -, hcase⟩ := asteroid_visit_spec env frame_time s pre e0 rest
        hs (hv e0 (List.mem_cons_self _ _))
      simp only [draw_asteroids, hne, if_false, hvis] at h
      rcases hcase with ⟨rfl, hd0, hd1, -, -⟩ |
        ⟨rfl, -, hdead, rest', children, hperm, hast, hlen, hch⟩ | ⟨rfl, hh, hdead, hast⟩
      · simp only [Except.ok.injEq] at h
        subst h
        rcases hd with hd | hd
        · rw [hd0] at hd; exact absurd hd (by decide)
        · rw [hd1] at hd; exact absurd hd (by decide)
      · have hv0 := hv e0 (List.mem_cons_self _ _)
        apply ih (rest' ++ children) pre s2 s1 (by rw [hast, List.append_assoc]) _ hp h
          (by rw [hdead]; exact hd)
        intro e he
        rcases List.mem_append.mp he with he | he
        · exact hv e (List.mem_cons_of_mem _ (hperm.mem_iff.mp he))
        · exact (children_weight_lt e0 hv0 children hlen (fun c hc => (hch c hc).2.1)).2 e he
      · have := ih rest (pre ++ [hit_asteroid hit (asteroid_step frame_time e0)]) s2 s1
          (by rw [hast]; simp) (fun e he => hv e (List.mem_cons_of_mem _ he))
          (by
            intro e he
            rcases List.mem_append.mp he with he | he
            · exact hp e he
            · rw [List.mem_singleton.mp he]; exact hh)
          (by simpa using h) (by rw [hdead]; exact hd)
        exact this

/-- The removal of an asteroid of health 0 on the path without a collision: for
every state whose asteroids have sizes in `{0,1,2}` and every frame time (with
the counter of `gen_asteroid` reaching its cap and enough fuel for the loops)
the tick returns a state `s'`, and when the ship does not die in this tick (it
was dead before, or it is alive afterwards) no asteroid with health 0 is in the
list of `s'`: an asteroid whose health is 0 when the pass visits it is removed
from the list in that visit. -/
theorem zero_health_removed (fuel : Nat) (env : Env K) (frame_time : Nat)
    (s : asteroids_model K)
    (hv : ∀ e ∈ s.asteroids, valid_size e.size) (hc : counter_reaches_cap env)
    (hf1 : total_weight s.asteroids < fuel) (hf2 : s.bullets.length + 1 < fuel)
    (hf3 : 10 < fuel) :
    ∃ s', draw fuel env frame_time s = .ok s' ∧
      ((s.dead = true ∨ s'.dead = false) → ∀ e ∈ s'.asteroids, e.health ≠ 0) := by
  obtain ⟨s', h⟩ := draw_terminates fuel env frame_time s hv hc hf1 hf2 hf3
  refine ⟨s', h, fun hd e he => ?_⟩
  obtain ⟨s1, s2, h1, h2, h3⟩ := draw_passes fuel env frame_time s s' h
  obtain ⟨-, hd2, ha2⟩ := draw_bullets_frame frame_time fuel s1 s2 h2
  obtain ⟨-, hd3, -, k1, k2⟩ := draw_respawn_spec fuel env s2 s' h3
  have hd1 : (draw_ship env frame_time s).dead = true ∨ s1.dead = false := by
    rcases hd with hd | hd
    · exact Or.inl (by rw [draw_ship_dead]; exact hd)
    · exact Or.inr (by rw [← hd2, ← hd3]; exact hd)
  have hall := draw_asteroids_health env frame_time fuel (draw_ship env frame_time s).asteroids []
    (draw_ship env frame_time s) s1 rfl (by rw [draw_ship_asteroids]; exact hv)
    (by simp) h1 hd1
  by_cases hne : s2.asteroids = []
  · obtain ⟨c1, c2, c3, hl, q1, q2, q3⟩ := k2 hne
    rw [hl] at he
    simp only [List.mem_cons, List.mem_singleton, List.not_mem_nil, or_false] at he
    rcases he with rfl | rfl | rfl
    · rw [q1.2]; decide
    · rw [q2.2]; decide
    · rw [q3.2]; decide
  · rw [k1 hne, ha2] at he
    exact hall e he

/-- The theorem `zero_health_removed` on the sample state `sample_hit`, in which
the ship is dead. -/
theorem zero_health_removed_witness :
    ((∀ e ∈ sample_hit.asteroids, valid_size e.size) ∧ counter_reaches_cap (sample_env 0) ∧
        total_weight sample_hit.asteroids < 11 ∧ sample_hit.bullets.length + 1 < 11 ∧
        10 < 11) ∧
      ∃ s' : asteroids_model ℚ, draw 11 (sample_env 0) 16 sample_hit = .ok s' ∧
        ((sample_hit.dead = true ∨ s'.dead = false) → ∀ e ∈ s'.asteroids, e.health ≠ 0) :=
  have hv : ∀ e ∈ sample_hit.asteroids, valid_size e.size := by simp [sample_hit, valid_size]
  have hc : counter_reaches_cap (sample_env 0) := sample_counter 0 (by decide) (by decide)
  have hf1 : total_weight sample_hit.asteroids < 11 := by
    simp [sample_hit, total_weight, weight]
  have hf2 : sample_hit.bullets.length + 1 < 11 := by simp [sample_hit]
  ⟨⟨hv, hc, hf1, hf2, by decide⟩,
    zero_health_removed 11 (sample_env 0) 16 sample_hit hv hc hf1 hf2 (by decide)⟩

theorem sample_collision_ship : draw_ship (sample_env 0) 16 sample_collision = sample_collision := by
  have h1 : trim_01 (1/2 : ℚ) = 1/2 := trim_01_of_mem _ (by norm_num) (by norm_num)
  simp only [draw_ship, sample_collision]
  norm_num [h1]

theorem sample_collision_step : asteroid_step 16
    ({ pos := ⟨402/875, 1/2⟩, velocity := ⟨0, 0⟩, size := 0, health := 1 } : asteroid ℚ) =
      { pos := ⟨402/875, 1/2⟩, velocity := ⟨0, 0⟩, size := 0, health := 1 } := by
  have h1 : trim_01 (1/2 : ℚ) = 1/2 := trim_01_of_mem _ (by norm_num) (by norm_num)
  have h2 : trim_01 (402/875 : ℚ) = 402/875 := trim_01_of_mem _ (by norm_num) (by norm_num)
  simp only [asteroid_step]
  norm_num [h1, h2]

/-- The asteroid pass on a single asteroid that collides with the ship, with no
bullets: the ship dies, the health of the asteroid is set to 0 and the loop is
left. -/
theorem draw_asteroids_collision (env : Env K) (frame_time fuel : Nat) (s : asteroids_model K)
    (e : asteroid K) (hs : s.asteroids = [e]) (hb : s.bullets = [])
    (hcol : collide env
      { s with asteroids := [asteroid_step frame_time e], bullets := [] }
      (asteroid_step frame_time e) = .ok true) :
    draw_asteroids env frame_time (fuel + 1) s 0 =
      .ok { s with
            dead := true
            asteroids := [{ asteroid_step frame_time e with health := 0 }]
            bullets := [] } := by
  simp only [draw_asteroids, asteroid_visit, hs, hb, bullet_scan, hit_asteroid, hit_bullets,
    bind, Except.bind, pure, Except.pure, List.length_singleton, List.getElem?_cons_zero,
    List.set_cons_zero, hcol]
  simp

theorem sample_collision_pass : draw_asteroids (sample_env 0) 16 2 sample_collision 0 =
    .ok { sample_collision with
          dead := true
          asteroids := [{ pos := ⟨402/875, 1/2⟩, velocity := ⟨0, 0⟩, size := 0, health := 0 }] } := by
  have h := draw_asteroids_collision (sample_env 0) 16 1 sample_collision
    { pos := ⟨402/875, 1/2⟩, velocity := ⟨0, 0⟩, size := 0, health := 1 } rfl rfl
    (by rw [sample_collision_step]; exact sample_collision_collide _ rfl rfl rfl)
  rw [sample_collision_step] at h
  exact h

theorem collide_rear_edge_hit (env : Env ℚ) (s : asteroids_model ℚ) (hd : s.dead = false)
    (hs : s.ship = ⟨1/2, 1/2⟩) (hcos : env.libm.cos s.ship_yaw = 1)
    (hsin : env.libm.sin s.ship_yaw = 0) (hsqrt : env.libm.sqrt (1/25000000) = 1/5000) :
    collide env s
      { pos := ⟨402/875, 1/2⟩, velocity := ⟨0, 0⟩, size := 0, health := 3 - 1 } = .ok true := by
  simp only [collide, hd, hs, hcos, hsin, collide_edge, asteroid_sizes, intersect, quotient_in_01,
    ship_p1, ship_p2, ship_p3, collision_tolerance, dot, norm2, point.sub_x, point.sub_y,
    point.add_x, point.add_y, bind, Except.bind, pure, Except.pure]
  norm_num [hsqrt]

/-- The asteroid pass on a single asteroid that the only bullet hits and that
collides with the ship: the bullet is removed, the ship dies, the health of the
asteroid is set to 0 and the loop is left. -/
theorem draw_asteroids_hit_collision (env : Env K) (frame_time fuel : Nat)
    (s : asteroids_model K) (e : asteroid K) (b : bullet K)
    (hs : s.asteroids = [e]) (hb : s.bullets = [b])
    (hscan : bullet_scan env (asteroid_step frame_time e) [b] 0 = .ok (some 0))
    (hcol : collide env
      { s with
        asteroids := [{ asteroid_step frame_time e with health := e.health - 1 }]
        bullets := [] }
      { asteroid_step frame_time e with health := e.health - 1 } = .ok true) :
    draw_asteroids env frame_time (fuel + 1) s 0 =
      .ok { s with
            dead := true
            asteroids := [{ asteroid_step frame_time e with health := 0 }]
            bullets := [] } := by
  have hsw : swap_pop [b] 0 = [] := swap_pop_zero b [] (by simp)
  simp only [draw_asteroids, asteroid_visit, hs, hb, hscan, hit_asteroid, hit_bullets, hsw,
    bind, Except.bind, pure, Except.pure, List.length_singleton, List.getElem?_cons_zero,
    List.set_cons_zero, asteroid_step_health, hcol]
  simp

theorem sample_collision_hit_pass :
    draw_asteroids (sample_env 0) 16 2 sample_collision_hit 0 =
      .ok { sample_collision_hit with
            dead := true
            asteroids := [{ pos := ⟨402/875, 1/2⟩, velocity := ⟨0, 0⟩, size := 0, health := 0 }]
            bullets := [] } := by
  have h1 : trim_01 (1/2 : ℚ) = 1/2 := trim_01_of_mem _ (by norm_num) (by norm_num)
  have h2 : trim_01 (402/875 : ℚ) = 402/875 := trim_01_of_mem _ (by norm_num) (by norm_num)
  have hstep : asteroid_step 16
      ({ pos := ⟨402/875, 1/2⟩, velocity := ⟨0, 0⟩, size := 0, health := 3 } : asteroid ℚ) =
        { pos := ⟨402/875, 1/2⟩, velocity := ⟨0, 0⟩, size := 0, health := 3 } := by
    simp only [asteroid_step]
    norm_num [h1, h2]
  have hscan : bullet_scan (sample_env 0)
      ({ pos := ⟨402/875, 1/2⟩, velocity := ⟨0, 0⟩, size := 0, health := 3 } : asteroid ℚ)
      [{ pos := ⟨402/875, 1/2⟩, velocity := ⟨0, 0⟩, ttl := 4/5 }] 0 = .ok (some 0) := by
    apply bullet_scan_head (sample_env 0) _ _ _ 0 0.016 (by simp [asteroid_sizes])
    rw [distance_eq, sub_self, sub_self, sample_hypot]
    norm_num [line_width, bullet_radius]
  have h := draw_asteroids_hit_collision (sample_env 0) 16 1 sample_collision_hit
    { pos := ⟨402/875, 1/2⟩, velocity := ⟨0, 0⟩, size := 0, health := 3 }
    { pos := ⟨402/875, 1/2⟩, velocity := ⟨0, 0⟩, ttl := 4/5 } rfl rfl
    (by rw [hstep]; exact hscan)
    (by
      rw [hstep]
      exact collide_rear_edge_hit (sample_env 0) _ rfl rfl (sample_cos_sin 0).1
        (sample_cos_sin 0).2 sample_sqrt_1)
  rw [hstep] at h
  exact h

theorem sample_collision_hit_ship :
    draw_ship (sample_env 0) 16 sample_collision_hit = sample_collision_hit := by
  have h1 : trim_01 (1/2 : ℚ) = 1/2 := trim_01_of_mem _ (by norm_num) (by norm_num)
  simp only [draw_ship, sample_collision_hit, sample_collision]
  norm_num [h1]

theorem sample_collision_hit_draw :
    draw 2 (sample_env 0) 16 sample_collision_hit =
      .ok { sample_collision_hit with
            dead := true
            asteroids := [{ pos := ⟨402/875, 1/2⟩, velocity := ⟨0, 0⟩, size := 0, health := 0 }]
            bullets := [] } := by
  have hb : draw_bullets (sample_env 0) 16 2
      { sample_collision_hit with
        dead := true
        asteroids := [{ pos := ⟨402/875, 1/2⟩, velocity := ⟨0, 0⟩, size := 0, health := 0 }]
        bullets := [] } =
      .ok { sample_collision_hit with
        dead := true
        asteroids := [{ pos := ⟨402/875, 1/2⟩, velocity := ⟨0, 0⟩, size := 0, health := 0 }]
        bullets := [] } := by
    simp [draw_bullets, bullets_loop]
  rw [draw_eq_of_passes 2 (sample_env 0) 16 sample_collision_hit _ _
    (by rw [sample_collision_hit_ship]; exact sample_collision_hit_pass) hb]
  simp [draw_respawn]

/-- C11 (counterexample to the claim as stated): in the sample state
`sample_miss` the only bullet is at the position of the only asteroid, whose
health is 1.  In a tick of 100 ms the asteroid first moves by `0.03`, which is
more than the hit distance `0.0255` of a size-0 asteroid, so the bullet scan
misses: after the tick the bullet is still in the list and the health of the
asteroid is still 1.  In the sample state `sample_collision_hit` the only
bullet is at the position of the only asteroid, at rest with health 3, which
overlaps the hull of the live ship: the tick removes the bullet, and the
collision then sets the health to 0, not to 2. -/
theorem bullet_at_center_misses_or_collides :
    (sample_miss.asteroids =
        [{ pos := ⟨1/4, 1/4⟩, velocity := ⟨3, 0⟩, size := 0, health := 1 }] ∧
      sample_miss.bullets = [{ pos := ⟨1/4, 1/4⟩, velocity := ⟨10, 0⟩, ttl := 4/5 }] ∧
      draw 2 (sample_env 0) 100 sample_miss =
        .ok { sample_miss with
              asteroids := [{ pos := ⟨7/25, 1/4⟩, velocity := ⟨3, 0⟩, size := 0, health := 1 }]
              bullets := [{ pos := ⟨7/20, 1/4⟩, velocity := ⟨10, 0⟩, ttl := 7/10 }] }) ∧
    (sample_collision_hit.asteroids =
        [{ pos := ⟨402/875, 1/2⟩, velocity := ⟨0, 0⟩, size := 0, health := 3 }] ∧
      sample_collision_hit.bullets =
        [{ pos := ⟨402/875, 1/2⟩, velocity := ⟨0, 0⟩, ttl := 4/5 }] ∧
      draw 2 (sample_env 0) 16 sample_collision_hit =
        .ok { sample_collision_hit with
              dead := true
              asteroids :=
                [{ pos := ⟨402/875, 1/2⟩, velocity := ⟨0, 0⟩, size := 0, health := 0 }]
              bullets := [] }) :=
  ⟨⟨rfl, rfl, sample_miss_draw⟩, ⟨rfl, rfl, sample_collision_hit_draw⟩⟩

/-- C12: the code at the failing input.  In the sample state
`sample_collision` the ship is alive and the only asteroid, of size 0 with
health 1, overlaps the rear edge of the hull.  The tick finds the collision,
sets the health of the asteroid to 0 and leaves the asteroid loop with `break`,
before the test `e.health == 0` that removes an asteroid whose health a bullet
brought to 0: after the tick the asteroid is still in the list, with
health 0. -/
theorem collided_asteroid_stays_with_health_zero :
    draw 2 (sample_env 0) 16 sample_collision =
      .ok { sample_collision with
            dead := true
            asteroids := [{ pos := ⟨402/875, 1/2⟩, velocity := ⟨0, 0⟩, size := 0, health := 0 }] } := by
  have hb : draw_bullets (sample_env 0) 16 2
      { sample_collision with
        dead := true
        asteroids := [{ pos := ⟨402/875, 1/2⟩, velocity := ⟨0, 0⟩, size := 0, health := 0 }] } =
      .ok { sample_collision with
        dead := true
        asteroids := [{ pos := ⟨402/875, 1/2⟩, velocity := ⟨0, 0⟩, size := 0, health := 0 }] } := by
    simp [draw_bullets, sample_collision, bullets_loop]
  rw [draw_eq_of_passes 2 (sample_env 0) 16 sample_collision _ _
    (by rw [sample_collision_ship]; exact sample_collision_pass) hb]
  simp [draw_respawn, sample_collision]

/-- The position search with every candidate near the ship and the counter
starting at an even value of at most 20: it gives up at the candidate drawn
when the counter equals 20, after `(20 - i) / 2 + 1` candidates. -/
theorem gen_asteroid_pos_capped (env : Env K) (ship : point K)
    (hnear : ∀ n, ¬ distance env.libm ⟨rand01 env n, rand01 env (n + 1)⟩ ship > 0.2) :
    ∀ (fuel i rand_pos : Nat), i % 2 = 0 → i ≤ 20 → (20 - i) / 2 < fuel →
      gen_asteroid_pos env ship fuel i rand_pos =
        .ok (⟨rand01 env (rand_pos + (20 - i)), rand01 env (rand_pos + (20 - i) + 1)⟩,
          rand_pos + (20 - i) + 2) := by
  intro fuel
  induction fuel with
  | zero => intro i rp _ _ h; exact absurd h (Nat.not_lt_zero _)
  | succ fuel ih =>
    intro i rp he hle hf
    by_cases hi : i = 20
    · subst hi
      simp [gen_asteroid_pos]
    · have h18 : i ≤ 18 := by omega
      have hm : (i + 1 + 1) % 2 ^ 64 = i + 2 := Nat.mod_eq_of_lt (by norm_num; omega)
      simp only [gen_asteroid_pos, hnear rp, hi, or_self, if_false, hm]
      rw [ih (i + 2) (rp + 2) (by omega) (by omega) (by omega)]
      have e1 : rp + 2 + (20 - (i + 2)) = rp + (20 - i) := by omega
      rw [e1]

/-- C13 (the code departs from the claim): the counter `i` of the position
search is not initialised and is incremented twice per round.  When it starts
at `1` and every candidate is near the ship (`rand()` keeps returning `0`, the
ship is at `(1/8, 0)`), the test `i == 20` never holds and the search does not
return, whatever the fuel.  When it starts at `0`, the search gives up at the
11th candidate (22 calls of `rand()`), not at the 21st. -/
theorem spawn_search_not_bounded :
    (∀ fuel rand_pos : Nat,
      gen_asteroid_pos (sample_env 1) (⟨1/8, 0⟩ : point ℚ) fuel
        ((sample_env 1).uninit_i rand_pos % 2 ^ 64) rand_pos = .error .out_of_fuel) ∧
    (∃ c : point ℚ,
      gen_asteroid_pos (sample_env 0) (⟨1/8, 0⟩ : point ℚ) 11
        ((sample_env 0).uninit_i 0 % 2 ^ 64) 0 = .ok (c, 22)) := by
  constructor
  · intro fuel rp
    exact gen_asteroid_pos_stuck (sample_env 1) _ (sample_candidates_near 1) fuel _ rp
      (by simp [sample_env])
  · have h0 : (sample_env 0).uninit_i 0 % 2 ^ 64 = 0 := by simp [sample_env]
    rw [h0]
    exact ⟨_, gen_asteroid_pos_capped (sample_env 0) _ (sample_candidates_near 0) 11 0 0
      (by decide) (by decide) (by decide)⟩

theorem swap_pop_length {α : Type} (v : List α) (i : Nat) :
    (swap_pop v i).length = v.length - 1 := by
  unfold swap_pop
  split
  · rename_i h
    rw [List.getLast?_eq_none_iff] at h
    subst h
    rfl
  · simp

/-- The bullet scan removes one bullet when it hits and none otherwise. -/
theorem hit_bullets_length (hit : Option Nat) (bs : List (bullet K)) :
    bs.length - (hit_bullets hit bs).length ≤ 1 ∧
      (hit_bullets hit bs).length + (bs.length - (hit_bullets hit bs).length) = bs.length := by
  cases hit with
  | none => simp [hit_bullets]
  | some j =>
    simp only [hit_bullets, swap_pop_length]
    omega

/-- C14: the asteroid pass, started at any index `pre.length` with the asteroids
`pre` already visited and the asteroids `rest` (of sizes in `{0,1,2}`) still to
visit, returns (with enough fuel) a state `s1` and counters `n` such that:
the visited asteroids `pre` are still at the head of the list, untouched; the
number of visits is at most the number of asteroids that were waiting or were
spawned in the pass, with equality when no collision cuts the pass; the number
of bullets removed by hits is at most the number of visits and is exactly the
number of bullets missing from the list; and every asteroid behind `pre` in the
final list has the size of an asteroid that was waiting or was spawned as a
child (health `size + 1`), and its health is that asteroid's health, or one
less, or 0 when this pass ended with the collision that killed the ship. -/
theorem one_interaction_per_pass (env : Env K) (frame_time : Nat) :
    ∀ (fuel : Nat) (rest pre : List (asteroid K)) (s : asteroids_model K),
      s.asteroids = pre ++ rest → (∀ e ∈ rest, valid_size e.size) →
        total_weight rest < fuel →
          ∃ (s1 : asteroids_model K) (n : pass_count),
            draw_asteroids_count env frame_time fuel s pre.length = .ok (s1, n) ∧
            draw_asteroids env frame_time fuel s pre.length = .ok s1 ∧
            n.visits ≤ rest.length + n.spawned ∧
            (s1.dead = s.dead → n.visits = rest.length + n.spawned) ∧
            n.hits ≤ n.visits ∧ s1.bullets.length + n.hits = s.bullets.length ∧
            ∃ post : List (asteroid K), s1.asteroids = pre ++ post ∧
              ∀ e ∈ post, ∃ e0 : asteroid K,
                (e0 ∈ rest ∨ e0.health = e0.size + 1) ∧ e.size = e0.size ∧
                (e.health = e0.health ∨ e.health = e0.health - 1 ∨
                  (s.dead = false ∧ s1.dead = true ∧ e.health = 0)) := by
  intro fuel
  induction fuel with
  | zero => intro rest pre s _ _ h; exact absurd h (Nat.not_lt_zero _)
  | succ fuel ih =>
    intro rest pre s hs hv hf
    cases rest with
    | nil =>
      have hlen : pre.length = s.asteroids.length := by rw [hs]; simp
      refine ⟨s, ⟨0, 0, 0⟩, by simp [draw_asteroids_count, hlen], by simp [draw_asteroids, hlen],
        by simp, by simp, le_refl _, by simp, [], by simpa using hs, by simp⟩
    | cons e0 rest =>
      have hne : ¬ pre.length = s.asteroids.length := by rw [hs]; simp
      have hv0 := hv e0 (List.mem_cons_self _ _)
      obtain ⟨hit, s2, next, -, hvis, hbul, hcase⟩ := asteroid_visit_spec env frame_time s pre
        e0 rest hs hv0
      obtain ⟨hb1, hb2⟩ := hit_bullets_length hit s.bullets
      rw [← hbul] at hb1 hb2
      have hf' : weight e0 + total_weight rest < fuel + 1 := by
        simpa [total_weight] using hf
      have he2 : (hit_asteroid hit (asteroid_step frame_time e0)).health = e0.health ∨
          (hit_asteroid hit (asteroid_step frame_time e0)).health = e0.health - 1 := by
        cases hit with
        | none => exact Or.inl rfl
        | some j => exact Or.inr rfl
      rcases hcase with ⟨rfl, hd0, hd1, -, hast⟩ |
        ⟨rfl, -, hdead, rest', children, hperm, hast, hlen, hch⟩ | ⟨rfl, hh, hdead, hast⟩
      · refine ⟨s2, ⟨1, s.bullets.length - s2.bullets.length, 0⟩,
          by simp [draw_asteroids_count, hne, hvis], by simp [draw_asteroids, hne, hvis],
          by simp, ?_, hb1, hb2, _, hast, ?_⟩
        · intro h
          rw [hd0, hd1] at h
          exact absurd h (by decide)
        · intro e he
          rcases List.mem_cons.mp he with rfl | he
          · exact ⟨e0, Or.inl (List.mem_cons_self _ _), by simp, Or.inr (Or.inr ⟨hd0, hd1, rfl⟩)⟩
          · exact ⟨e, Or.inl (List.mem_cons_of_mem _ he), rfl, Or.inl rfl⟩
      · obtain ⟨hw, hcv⟩ := children_weight_lt e0 hv0 children hlen (fun c hc => (hch c hc).2.1)
        obtain ⟨s1, n, k1, k2, k3, k4, k5, k6, post, k7, k8⟩ := ih (rest' ++ children) pre s2
          (by rw [hast, List.append_assoc])
          (by
            intro e he
            rcases List.mem_append.mp he with he | he
            · exact hv e (List.mem_cons_of_mem _ (hperm.mem_iff.mp he))
            · exact hcv e he)
          (by rw [total_weight_append, total_weight_perm hperm]; omega)
        have hsp : s2.asteroids.length + (if pre.length = pre.length then 1 else 0) -
            s.asteroids.length = children.length := by
          rw [hast, hs]
          simp only [List.length_append, List.length_cons, if_true, hperm.length_eq]
          omega
        have hl : (rest' ++ children).length = rest.length + children.length := by
          rw [List.length_append, hperm.length_eq]
        refine ⟨s1, ⟨n.visits + 1, n.hits + (s.bullets.length - s2.bullets.length),
            n.spawned + (s2.asteroids.length + (if pre.length = pre.length then 1 else 0) -
              s.asteroids.length)⟩,
          by simp only [draw_asteroids_count, hne, if_false, hvis, k1],
          by simp only [draw_asteroids, hne, if_false, hvis, k2], ?_, ?_, ?_, ?_, post, k7, ?_⟩
        · show n.visits + 1 ≤ (rest.length + 1) + (n.spawned + (s2.asteroids.length +
            (if pre.length = pre.length then 1 else 0) - s.asteroids.length))
          rw [hsp]; omega
        · intro h
          have := k4 (by rw [h, hdead])
          show n.visits + 1 = (rest.length + 1) + (n.spawned + (s2.asteroids.length +
            (if pre.length = pre.length then 1 else 0) - s.asteroids.length))
          rw [hsp]; omega
        · show n.hits + (s.bullets.length - s2.bullets.length) ≤ n.visits + 1
          omega
        · show s1.bullets.length + (n.hits + (s.bullets.length - s2.bullets.length)) =
            s.bullets.length
          omega
        · intro e he
          obtain ⟨e1, q1, q2, q3⟩ := k8 e he
          refine ⟨e1, ?_, q2, ?_⟩
          · rcases q1 with q1 | q1
            · rcases List.mem_append.mp q1 with q1 | q1
              · exact Or.inl (List.mem_cons_of_mem _ (hperm.mem_iff.mp q1))
              · obtain ⟨-, c1, c2⟩ := hch e1 q1
                exact Or.inr (by rw [c1, c2]; ring)
            · exact Or.inr q1
          · rcases q3 with q3 | q3 | ⟨q3, q4, q5⟩
            · exact Or.inl q3
            · exact Or.inr (Or.inl q3)
            · exact Or.inr (Or.inr ⟨by rw [← hdead]; exact q3, q4, q5⟩)
      · obtain ⟨s1, n, k1, k2, k3, k4, k5, k6, post, k7, k8⟩ := ih rest
          (pre ++ [hit_asteroid hit (asteroid_step frame_time e0)]) s2
          (by rw [hast]; simp) (fun e he => hv e (List.mem_cons_of_mem _ he))
          (by have := weight_pos e0; omega)
        have hj : (pre ++ [hit_asteroid hit (asteroid_step frame_time e0)]).length =
            pre.length + 1 := by simp
        rw [hj] at k1 k2
        have hsp : s2.asteroids.length + (if pre.length + 1 = pre.length then 1 else 0) -
            s.asteroids.length = 0 := by
          rw [hast, hs]
          simp
        refine ⟨s1, ⟨n.visits + 1, n.hits + (s.bullets.length - s2.bullets.length),
            n.spawned + (s2.asteroids.length + (if pre.length + 1 = pre.length then 1 else 0) -
              s.asteroids.length)⟩,
          by simp only [draw_asteroids_count, hne, if_false, hvis, k1],
          by simp only [draw_asteroids, hne, if_false, hvis, k2], ?_, ?_, ?_, ?_,
          hit_asteroid hit (asteroid_step frame_time e0) :: post, by rw [k7]; simp, ?_⟩
        · show n.visits + 1 ≤ (rest.length + 1) + (n.spawned + (s2.asteroids.length +
            (if pre.length + 1 = pre.length then 1 else 0) - s.asteroids.length))
          rw [hsp]; omega
        · intro h
          have := k4 (by rw [h, hdead])
          show n.visits + 1 = (rest.length + 1) + (n.spawned + (s2.asteroids.length +
            (if pre.length + 1 = pre.length then 1 else 0) - s.asteroids.length))
          rw [hsp]; omega
        · show n.hits + (s.bullets.length - s2.bullets.length) ≤ n.visits + 1
          omega
        · show s1.bullets.length + (n.hits + (s.bullets.length - s2.bullets.length)) =
            s.bullets.length
          omega
        · intro e he
          rcases List.mem_cons.mp he with rfl | he
          · refine ⟨e0, Or.inl (List.mem_cons_self _ _), by simp, ?_⟩
            rcases he2 with h | h
            · exact Or.inl h
            · exact Or.inr (Or.inl h)
          · obtain ⟨e1, q1, q2, q3⟩ := k8 e he
            refine ⟨e1, ?_, q2, ?_⟩
            · rcases q1 with q1 | q1
              · exact Or.inl (List.mem_cons_of_mem _ q1)
              · exact Or.inr q1
            · rcases q3 with q3 | q3 | ⟨q3, q4, q5⟩
              · exact Or.inl q3
              · exact Or.inr (Or.inl q3)
              · exact Or.inr (Or.inr ⟨by rw [← hdead]; exact q3, q4, q5⟩)

/-- The theorem `one_interaction_per_pass` on the sample state `sample_hit`,
at the start of the pass. -/
theorem one_interaction_per_pass_witness :
    (sample_hit.asteroids = [] ++ sample_hit.asteroids ∧
        (∀ e ∈ sample_hit.asteroids, valid_size e.size) ∧
        total_weight sample_hit.asteroids < 11) ∧
      ∃ (s1 : asteroids_model ℚ) (n : pass_count),
        draw_asteroids_count (sample_env 0) 16 11 sample_hit ([] : List (asteroid ℚ)).length =
          .ok (s1, n) ∧
        draw_asteroids (sample_env 0) 16 11 sample_hit ([] : List (asteroid ℚ)).length = .ok s1 ∧
        n.visits ≤ sample_hit.asteroids.length + n.spawned ∧
        (s1.dead = sample_hit.dead → n.visits = sample_hit.asteroids.length + n.spawned) ∧
        n.hits ≤ n.visits ∧ s1.bullets.length + n.hits = sample_hit.bullets.length ∧
        ∃ post : List (asteroid ℚ), s1.asteroids = [] ++ post ∧
          ∀ e ∈ post, ∃ e0 : asteroid ℚ,
            (e0 ∈ sample_hit.asteroids ∨ e0.health = e0.size + 1) ∧ e.size = e0.size ∧
            (e.health = e0.health ∨ e.health = e0.health - 1 ∨
              (sample_hit.dead = false ∧ s1.dead = true ∧ e.health = 0)) :=
  have hv : ∀ e ∈ sample_hit.asteroids, valid_size e.size := by simp [sample_hit, valid_size]
  have hf : total_weight sample_hit.asteroids < 11 := by simp [sample_hit, total_weight, weight]
  ⟨⟨rfl, hv, hf⟩,
    one_interaction_per_pass (sample_env 0) 16 11 sample_hit.asteroids [] sample_hit rfl hv hf⟩

/-- C15: for every point `p`, every centre `cc` and every `r > 0`, the call
`intersect(p, p, cc, r)` on the zero-length segment returns `false` and does not
fault: the leading coefficient `a` is `0`, so both quotients are outside
`[0, 1]` (infinite or NaN). -/
theorem intersect_degenerate (m : Libm K) (p cc : point K) (r : K) (hr : 0 < r) :
    intersect m p p cc r = .ok false := by
  have ha : norm2 (p - cc) - 2 * dot (p - cc) (p - cc) + norm2 (p - cc) = 0 := by
    simp only [norm2, dot]; ring
  have hb : dot (p - cc) (p - cc) - norm2 (p - cc) = 0 := by
    simp only [norm2, dot]; ring
  simp only [intersect, not_lt.mpr (le_of_lt hr), hr, not_true_eq_false, if_false, ha, hb,
    quotient_in_01, if_true, mul_zero, zero_mul, sub_zero, lt_irrefl, Bool.false_eq_true]

/-- The theorem `intersect_degenerate` at `p = (1, 2)`, `cc = (0, 0)`, `r = 1`. -/
theorem intersect_degenerate_witness :
    (0 : ℚ) < 1 ∧ intersect sample_libm (⟨1, 2⟩ : point ℚ) ⟨1, 2⟩ ⟨0, 0⟩ 1 = .ok false :=
  ⟨by norm_num, intersect_degenerate sample_libm ⟨1, 2⟩ ⟨0, 0⟩ 1 (by norm_num)⟩

/-- The bullet pass does not add a bullet. -/
theorem draw_bullets_length (frame_time fuel : Nat) (s s' : asteroids_model K)
    (h : draw_bullets env frame_time fuel s = .ok s') (hf : s.bullets.length < fuel) :
    s'.bullets.length ≤ s.bullets.length := by
  obtain ⟨bs, h2, hp⟩ := draw_bullets_spec frame_time fuel s hf
  rw [h2] at h
  simp only [Except.ok.injEq] at h
  subst h
  show bs.length ≤ s.bullets.length
  rw [hp.length_eq, List.length_map]
  exact List.length_filter_le _ _

/-- C16: in a state in which the ship is dead, for every frame time and every
setting of the rotation, thrust and firing flags, the ship block of the tick
changes nothing and spawns no bullet, and every tick that returns leaves the
ship position, the ship velocity, the heading, the reload timer and the three
flags unchanged.  The tick does return, with no more bullets than before, when
the asteroid sizes are valid, the counter of `gen_asteroid` reaches its cap and
the loops get enough fuel. -/
theorem dead_ship_frozen (s : asteroids_model K) (hd : s.dead = true) :
    (∀ (env : Env K) (frame_time : Nat),
        draw_ship env frame_time s = s ∧ spawn_count env frame_time s = 0) ∧
      (∀ (fuel : Nat) (env : Env K) (frame_time : Nat) (s' : asteroids_model K),
        draw fuel env frame_time s = .ok s' →
          s'.ship = s.ship ∧ s'.ship_velocity = s.ship_velocity ∧ s'.ship_yaw = s.ship_yaw ∧
            s'.time_till_next_shot = s.time_till_next_shot ∧ s'.ship_rot = s.ship_rot ∧
            s'.engine_enabled = s.engine_enabled ∧
            s'.shooting_enabled = s.shooting_enabled) ∧
      (∀ (fuel : Nat) (env : Env K) (frame_time : Nat),
        (∀ e ∈ s.asteroids, valid_size e.size) → counter_reaches_cap env →
        total_weight s.asteroids < fuel → s.bullets.length + 1 < fuel → 10 < fuel →
        ∃ s', draw fuel env frame_time s = .ok s' ∧ s'.bullets.length ≤ s.bullets.length) := by
  have hship : ∀ (env : Env K) (frame_time : Nat), draw_ship env frame_time s = s := by
    intro env frame_time
    simp [draw_ship, hd]
  refine ⟨fun env frame_time => ⟨hship env frame_time, by simp [spawn_count, hship]⟩, ?_, ?_⟩
  · intro fuel env frame_time s' h
    obtain ⟨s1, s2, h1, h2, h3⟩ := draw_passes fuel env frame_time s s' h
    rw [hship] at h1
    have a := (draw_asteroids_same_ship env frame_time fuel _ 0 s1 h1).1
    have b := (draw_bullets_frame frame_time fuel s1 s2 h2).1
    have c := (draw_respawn_spec fuel env s2 s' h3).1
    obtain ⟨q1, q2, q3, q4, q5, q6, q7⟩ := same_ship.trans (same_ship.trans a b) c
    exact ⟨q1, q2, q3, q7, q4, q5, q6⟩
  · intro fuel env frame_time hv hc hf1 hf2 hf3
    obtain ⟨s', h⟩ := draw_terminates fuel env frame_time s hv hc hf1 hf2 hf3
    refine ⟨s', h, ?_⟩
    obtain ⟨s1, s2, h1, h2, h3⟩ := draw_passes fuel env frame_time s s' h
    rw [hship] at h1
    have a := draw_asteroids_bullets_length env frame_time fuel _ 0 s1 h1
    have b := draw_bullets_length frame_time fuel s1 s2 h2 (by omega)
    have c := (draw_respawn_spec fuel env s2 s' h3).2.2.1
    rw [c]
    omega

/-- The theorem `dead_ship_frozen` on the sample state, whose ship is dead: the
tick of 500 ms returns with no more bullets than before. -/
theorem dead_ship_frozen_witness :
    sample_state.dead = true ∧
      ∃ s', draw 11 (sample_env 0) 500 sample_state = .ok s' ∧
        s'.bullets.length ≤ sample_state.bullets.length :=
  ⟨rfl, (dead_ship_frozen sample_state rfl).2.2 11 (sample_env 0) 500
    (by simp [sample_state, valid_size]) (sample_counter 0 (by decide) (by decide))
    (by simp [sample_state, total_weight, weight]) (by simp [sample_state]) (by decide)⟩

/-- C17 (as amended): in a state in which the ship is dead, a key-down or key-up
event for a rotate, thrust or fire key leaves the context, the dead flag, the
ship position, velocity and heading, the reload timer, the asteroids and the
bullets unchanged, and the ship block of the next tick does nothing; but the
event does update the flag of its key: key-down sets the rotation intent, the
thrust flag or the firing flag, key-up clears the thrust or the firing flag, and
`reset` keeps the three flags. -/
theorem dead_ship_input (env : Env K) (s : asteroids_model K) (c : context)
    (k : SDL_Keycode) (m : Nat) (hd : s.dead = true)
    (hk : k ∈ [SDL_Keycode.SDLK_LEFT, .SDLK_a, .SDLK_RIGHT, .SDLK_d, .SDLK_UP, .SDLK_w,
      .SDLK_SPACE, .SDLK_LCTRL, .SDLK_RCTRL]) :
    (∀ t ∈ [(key_down env ⟨k, m⟩ s c).1, (key_up ⟨k, m⟩ s c).1],
        t.dead = true ∧ t.ship = s.ship ∧ t.ship_velocity = s.ship_velocity ∧
          t.ship_yaw = s.ship_yaw ∧ t.time_till_next_shot = s.time_till_next_shot ∧
          t.asteroids = s.asteroids ∧ t.bullets = s.bullets ∧ t.rand_pos = s.rand_pos ∧
          ∀ (env' : Env K) (frame_time : Nat), draw_ship env' frame_time t = t) ∧
      (key_down env ⟨k, m⟩ s c).2 = c ∧ (key_up ⟨k, m⟩ s c).2 = c ∧
      (k ∈ [SDL_Keycode.SDLK_LEFT, .SDLK_a] →
        (key_down env ⟨k, m⟩ s c).1.ship_rot = .left) ∧
      (k ∈ [SDL_Keycode.SDLK_RIGHT, .SDLK_d] →
        (key_down env ⟨k, m⟩ s c).1.ship_rot = .right) ∧
      (k ∈ [SDL_Keycode.SDLK_UP, .SDLK_w] →
        (key_down env ⟨k, m⟩ s c).1.engine_enabled = true ∧
        (key_up ⟨k, m⟩ s c).1.engine_enabled = false) ∧
      (k ∈ [SDL_Keycode.SDLK_SPACE, .SDLK_LCTRL, .SDLK_RCTRL] →
        (key_down env ⟨k, m⟩ s c).1.shooting_enabled = true ∧
        (key_up ⟨k, m⟩ s c).1.shooting_enabled = false) ∧
      ((reset env s).ship_rot = s.ship_rot ∧ (reset env s).engine_enabled = s.engine_enabled ∧
        (reset env s).shooting_enabled = s.shooting_enabled) := by
  have hP : ∀ t : asteroids_model K, t.dead = true → t.ship = s.ship →
      t.ship_velocity = s.ship_velocity → t.ship_yaw = s.ship_yaw →
      t.time_till_next_shot = s.time_till_next_shot → t.asteroids = s.asteroids →
      t.bullets = s.bullets → t.rand_pos = s.rand_pos →
      (t.dead = true ∧ t.ship = s.ship ∧ t.ship_velocity = s.ship_velocity ∧
        t.ship_yaw = s.ship_yaw ∧ t.time_till_next_shot = s.time_till_next_shot ∧
        t.asteroids = s.asteroids ∧ t.bullets = s.bullets ∧ t.rand_pos = s.rand_pos ∧
        ∀ (env' : Env K) (frame_time : Nat), draw_ship env' frame_time t = t) := by
    intro t h1 h2 h3 h4 h5 h6 h7 h8
    exact ⟨h1, h2, h3, h4, h5, h6, h7, h8, fun env' frame_time => by simp [draw_ship, h1]⟩
  have hd1 : ∀ k' : SDL_Keycode, k' ∈ [SDL_Keycode.SDLK_LEFT, .SDLK_a, .SDLK_RIGHT, .SDLK_d,
      .SDLK_UP, .SDLK_w, .SDLK_SPACE, .SDLK_LCTRL, .SDLK_RCTRL] →
      (key_down env ⟨k', m⟩ s c).1.dead = true ∧
      (key_down env ⟨k', m⟩ s c).1.ship = s.ship ∧
      (key_down env ⟨k', m⟩ s c).1.ship_velocity = s.ship_velocity ∧
      (key_down env ⟨k', m⟩ s c).1.ship_yaw = s.ship_yaw ∧
      (key_down env ⟨k', m⟩ s c).1.time_till_next_shot = s.time_till_next_shot ∧
      (key_down env ⟨k', m⟩ s c).1.asteroids = s.asteroids ∧
      (key_down env ⟨k', m⟩ s c).1.bullets = s.bullets ∧
      (key_down env ⟨k', m⟩ s c).1.rand_pos = s.rand_pos ∧
      (key_down env ⟨k', m⟩ s c).2 = c := by
    intro k' hk'
    simp only [List.mem_cons, List.mem_singleton, List.not_mem_nil, or_false] at hk'
    rcases hk' with rfl | rfl | rfl | rfl | rfl | rfl | rfl | rfl | rfl <;>
      exact ⟨hd, rfl, rfl, rfl, rfl, rfl, rfl, rfl, rfl⟩
  have hu1 : ∀ k' : SDL_Keycode, k' ∈ [SDL_Keycode.SDLK_LEFT, .SDLK_a, .SDLK_RIGHT, .SDLK_d,
      .SDLK_UP, .SDLK_w, .SDLK_SPACE, .SDLK_LCTRL, .SDLK_RCTRL] →
      (key_up ⟨k', m⟩ s c).1.dead = true ∧
      (key_up ⟨k', m⟩ s c).1.ship = s.ship ∧
      (key_up ⟨k', m⟩ s c).1.ship_velocity = s.ship_velocity ∧
      (key_up ⟨k', m⟩ s c).1.ship_yaw = s.ship_yaw ∧
      (key_up ⟨k', m⟩ s c).1.time_till_next_shot = s.time_till_next_shot ∧
      (key_up ⟨k', m⟩ s c).1.asteroids = s.asteroids ∧
      (key_up ⟨k', m⟩ s c).1.bullets = s.bullets ∧
      (key_up ⟨k', m⟩ s c).1.rand_pos = s.rand_pos ∧
      (key_up ⟨k', m⟩ s c).2 = c := by
    intro k' hk'
    simp only [List.mem_cons, List.mem_singleton, List.not_mem_nil, or_false] at hk'
    rcases hk' with rfl | rfl | rfl | rfl | rfl | rfl | rfl | rfl | rfl
    all_goals first
      | exact ⟨hd, rfl, rfl, rfl, rfl, rfl, rfl, rfl, rfl⟩
      | (simp only [key_up]; split_ifs <;> simp [hd])
  obtain ⟨a1, a2, a3, a4, a5, a6, a7, a8, a9⟩ := hd1 k hk
  obtain ⟨b1, b2, b3, b4, b5, b6, b7, b8, b9⟩ := hu1 k hk
  refine ⟨?_, a9, b9, ?_, ?_, ?_, ?_, ⟨rfl, rfl, rfl⟩⟩
  · intro t ht
    simp only [List.mem_cons, List.mem_singleton, List.not_mem_nil, or_false] at ht
    rcases ht with rfl | rfl
    · exact hP _ a1 a2 a3 a4 a5 a6 a7 a8
    · exact hP _ b1 b2 b3 b4 b5 b6 b7 b8
  · intro h
    simp only [List.mem_cons, List.mem_singleton, List.not_mem_nil, or_false] at h
    rcases h with rfl | rfl <;> rfl
  · intro h
    simp only [List.mem_cons, List.mem_singleton, List.not_mem_nil, or_false] at h
    rcases h with rfl | rfl <;> rfl
  · intro h
    simp only [List.mem_cons, List.mem_singleton, List.not_mem_nil, or_false] at h
    rcases h with rfl | rfl <;> exact ⟨rfl, rfl⟩
  · intro h
    simp only [List.mem_cons, List.mem_singleton, List.not_mem_nil, or_false] at h
    rcases h with rfl | rfl | rfl <;> exact ⟨rfl, rfl⟩

/-- The theorem `dead_ship_input` on the sample state, whose ship is dead, for
the key LEFT. -/
theorem dead_ship_input_witness :
    (sample_state.dead = true ∧
      SDL_Keycode.SDLK_LEFT ∈ [SDL_Keycode.SDLK_LEFT, .SDLK_a, .SDLK_RIGHT, .SDLK_d, .SDLK_UP,
        .SDLK_w, .SDLK_SPACE, .SDLK_LCTRL, .SDLK_RCTRL]) ∧
      (key_down (sample_env 0) ⟨.SDLK_LEFT, 0⟩ sample_state ⟨false, false, 720, 720⟩).2 =
        ⟨false, false, 720, 720⟩ ∧
      (key_up ⟨.SDLK_LEFT, 0⟩ sample_state ⟨false, false, 720, 720⟩).2 =
        ⟨false, false, 720, 720⟩ :=
  have h := dead_ship_input (sample_env 0) sample_state ⟨false, false, 720, 720⟩ .SDLK_LEFT 0
    rfl (by decide)
  ⟨⟨rfl, by decide⟩, h.2.1, h.2.2.1⟩

/-- C17 (counterexample to the claim as stated): in the sample state the ship is
dead, there is no rotation intent and the thrust and firing flags are off; the
key-down events of LEFT, UP and SPACE set the rotation intent to `left`, the
thrust flag and the firing flag. -/
theorem key_down_on_dead_ship_sets_flags :
    sample_state.dead = true ∧ sample_state.ship_rot = .none ∧
      sample_state.engine_enabled = false ∧ sample_state.shooting_enabled = false ∧
      (key_down (sample_env 0) ⟨.SDLK_LEFT, 0⟩ sample_state ⟨false, false, 720, 720⟩).1.ship_rot
        = .left ∧
      (key_down (sample_env 0) ⟨.SDLK_UP, 0⟩ sample_state
        ⟨false, false, 720, 720⟩).1.engine_enabled = true ∧
      (key_down (sample_env 0) ⟨.SDLK_SPACE, 0⟩ sample_state
        ⟨false, false, 720, 720⟩).1.shooting_enabled = true :=
  ⟨rfl, rfl, rfl, rfl, rfl, rfl, rfl⟩

/-- The points of `paint`, axis by axis: the coordinate after the shift, and the
coordinate one further when the shifted one is below `size`. -/
theorem paint_mem (env : Env K) (pos : point K) (size : K) (q : point K) :
    q ∈ paint env pos size ↔
      (q.x = (if pos.x > env.fl (1 - size) then env.fl (pos.x - 1) else pos.x) ∨
        ((if pos.x > env.fl (1 - size) then env.fl (pos.x - 1) else pos.x) < size ∧
          q.x = env.fl ((if pos.x > env.fl (1 - size) then env.fl (pos.x - 1) else pos.x) + 1))) ∧
      (q.y = (if pos.y > env.fl (1 - size) then env.fl (pos.y - 1) else pos.y) ∨
        ((if pos.y > env.fl (1 - size) then env.fl (pos.y - 1) else pos.y) < size ∧
          q.y = env.fl ((if pos.y > env.fl (1 - size) then env.fl (pos.y - 1) else pos.y) + 1))) := by
  obtain ⟨qx, qy⟩ := q
  simp only [paint]
  generalize (if pos.x > env.fl (1 - size) then env.fl (pos.x - 1) else pos.x) = x
  generalize (if pos.y > env.fl (1 - size) then env.fl (pos.y - 1) else pos.y) = y
  by_cases hx : x < size <;> by_cases hy : y < size <;>
    simp [hx, hy] <;> tauto

/-- The double `1 - size` is at least `1/2` when `size` is below `1/2`. -/
theorem half_le_one_sub (fl : K → K) (hfl : double_rounding fl) (size : K) (hs1 : size < 1 / 2) :
    1 / 2 ≤ fl (1 - size) := by
  have := hfl.mono (1 / 2) (1 - size) (by linarith)
  rwa [hfl.half] at this

/-- One axis of `paint` on a coordinate that is shifted: the shifted coordinate
is `x - 1`, it is below `0`, and the copy one further is at `x` again. -/
theorem paint_axis_wrapped (fl : K → K) (hfl : double_rounding fl) (x size : K) (h1 : x < 1)
    (hs1 : size < 1 / 2) (hxd : fl x = x) (hw : x > fl (1 - size)) :
    fl (x - 1) = x - 1 ∧ fl (fl (x - 1) + 1) = x ∧ fl (x - 1) < 0 := by
  have hh := half_le_one_sub fl hfl size hs1
  have e := hfl.sub_one x hxd (by linarith) h1.le
  refine ⟨e, ?_, by rw [e]; linarith⟩
  rw [e, sub_add_cancel, hxd]

/-- One axis of `paint`: the coordinates used are the translates `x + i`,
`i` in `{-1, 0, 1}`, rounded to `double`: `i = -1` when `x` is above the double
`1 - size`, and `i = 1` when `x` is below `size`. -/
theorem paint_axis (fl : K → K) (hfl : double_rounding fl) (x size qx : K) (h0 : 0 ≤ x)
    (h1 : x < 1) (hs0 : 0 < size) (hs1 : size < 1 / 2) (hxd : fl x = x) :
    (qx = (if x > fl (1 - size) then fl (x - 1) else x) ∨
      ((if x > fl (1 - size) then fl (x - 1) else x) < size ∧
        qx = fl ((if x > fl (1 - size) then fl (x - 1) else x) + 1))) ↔
      ∃ i : Int, (i = -1 ∨ i = 0 ∨ i = 1) ∧ qx = fl (x + (i : K)) ∧
        (i = -1 → fl (1 - size) < x) ∧ (i = 1 → x < size) := by
  have hh := half_le_one_sub fl hfl size hs1
  have e0 : fl (x + ((0 : Int) : K)) = x := by rw [Int.cast_zero, add_zero, hxd]
  have e1 : x + ((-1 : Int) : K) = x - 1 := by push_cast; ring
  have e2 : x + ((1 : Int) : K) = x + 1 := by push_cast; ring
  split_ifs with h
  · obtain ⟨a, b, c⟩ := paint_axis_wrapped fl hfl x size h1 hs1 hxd h
    constructor
    · rintro (rfl | ⟨-, rfl⟩)
      · exact ⟨-1, Or.inl rfl, by rw [e1], fun _ => h, fun k => by simp at k⟩
      · exact ⟨0, Or.inr (Or.inl rfl), by rw [e0, b], fun k => by simp at k,
          fun k => by simp at k⟩
    · rintro ⟨i, (rfl | rfl | rfl), rfl, h2, h3⟩
      · left; rw [e1]
      · right; exact ⟨by linarith, by rw [e0, b]⟩
      · have := h3 rfl
        linarith
  · constructor
    · rintro (rfl | ⟨h2, rfl⟩)
      · exact ⟨0, Or.inr (Or.inl rfl), e0.symm, fun k => by simp at k, fun k => by simp at k⟩
      · exact ⟨1, Or.inr (Or.inr rfl), by rw [e2], fun k => by simp at k, fun _ => h2⟩
    · rintro ⟨i, (rfl | rfl | rfl), rfl, h2, h3⟩
      · exact absurd (h2 rfl) h
      · left; exact e0
      · right; exact ⟨h3 rfl, by rw [e2]⟩

/-- C18 (as amended): let `fl` be a rounding to `double`.  For every position
in `[0,1) x [0,1)` whose coordinates are doubles and every size with
`0 < size < 1/2`, `paint` calls `func` exactly on the translates
`pos + (i, j)`, `i, j` in `{-1, 0, 1}`, each coordinate rounded to `double`,
with `i = -1` when `pos.x` is above the double `1 - size`, `i = 1` when `pos.x`
is below `size`, and likewise `j`, each of them once; the double `1 - size` is
within `2^-53` of `1 - size`, so these are the translates whose axis-aligned
square of half-width `size` overlaps the unit square, up to the rounding of
`1 - size`; `pos` itself is among them, the number of calls is 1, 2 or 4, and
there is exactly one call, at `pos`, when the position is at least `size`
away from every edge. -/
theorem ghost_copies (env : Env K) (pos : point K) (size : K) (hfl : double_rounding env.fl)
    (hx0 : 0 ≤ pos.x) (hx1 : pos.x < 1) (hy0 : 0 ≤ pos.y) (hy1 : pos.y < 1)
    (hs0 : 0 < size) (hs1 : size < 1 / 2)
    (hxd : env.fl pos.x = pos.x) (hyd : env.fl pos.y = pos.y) :
    (∀ q : point K, q ∈ paint env pos size ↔
        ∃ i j : Int, (i = -1 ∨ i = 0 ∨ i = 1) ∧ (j = -1 ∨ j = 0 ∨ j = 1) ∧
          q = ⟨env.fl (pos.x + (i : K)), env.fl (pos.y + (j : K))⟩ ∧
          (i = -1 → env.fl (1 - size) < pos.x) ∧ (i = 1 → pos.x < size) ∧
          (j = -1 → env.fl (1 - size) < pos.y) ∧ (j = 1 → pos.y < size)) ∧
      |env.fl (1 - size) - (1 - size)| ≤ 1 / 2 ^ 53 ∧
      (paint env pos size).Nodup ∧ pos ∈ paint env pos size ∧
      ((paint env pos size).length = 1 ∨ (paint env pos size).length = 2 ∨
        (paint env pos size).length = 4) ∧
      (size ≤ pos.x → pos.x ≤ 1 - size → size ≤ pos.y → pos.y ≤ 1 - size →
        paint env pos size = [pos]) := by
  have hmem : ∀ q : point K, q ∈ paint env pos size ↔
      ∃ i j : Int, (i = -1 ∨ i = 0 ∨ i = 1) ∧ (j = -1 ∨ j = 0 ∨ j = 1) ∧
        q = ⟨env.fl (pos.x + (i : K)), env.fl (pos.y + (j : K))⟩ ∧
        (i = -1 → env.fl (1 - size) < pos.x) ∧ (i = 1 → pos.x < size) ∧
        (j = -1 → env.fl (1 - size) < pos.y) ∧ (j = 1 → pos.y < size) := by
    intro q
    rw [paint_mem, paint_axis env.fl hfl pos.x size q.x hx0 hx1 hs0 hs1 hxd,
      paint_axis env.fl hfl pos.y size q.y hy0 hy1 hs0 hs1 hyd]
    obtain ⟨qx, qy⟩ := q
    constructor
    · rintro ⟨⟨i, hi, e1, a1, a2⟩, ⟨j, hj, e2, b1, b2⟩⟩
      simp only at e1 e2
      exact ⟨i, j, hi, hj, by rw [e1, e2], a1, a2, b1, b2⟩
    · rintro ⟨i, j, hi, hj, e, a1, a2, b1, b2⟩
      simp only [point.mk.injEq] at e
      exact ⟨⟨i, hi, e.1, a1, a2⟩, ⟨j, hj, e.2, b1, b2⟩⟩
  have hh := half_le_one_sub env.fl hfl size hs1
  -- the copy one further differs from the shifted coordinate
  have hne : ∀ x : K, 0 ≤ x → x < 1 → env.fl x = x →
      (if x > env.fl (1 - size) then env.fl (x - 1) else x) < size →
      env.fl ((if x > env.fl (1 - size) then env.fl (x - 1) else x) + 1) ≠
        (if x > env.fl (1 - size) then env.fl (x - 1) else x) := by
    intro x h0 h1 hxd hlt
    split_ifs at hlt ⊢ with h
    · obtain ⟨a, b, c⟩ := paint_axis_wrapped env.fl hfl x size h1 hs1 hxd h
      rw [b, a]; linarith
    · have h2 := hfl.mono (1 / 2) (x + 1) (by linarith)
      rw [hfl.half] at h2
      intro e
      rw [e] at h2
      linarith
  have hsize : |(1 : K) - size| ≤ 1 := by
    rw [abs_le]; constructor <;> linarith
  refine ⟨hmem, hfl.error _ hsize, ?_, ?_, ?_, ?_⟩
  · have nx := hne pos.x hx0 hx1 hxd
    have ny := hne pos.y hy0 hy1 hyd
    simp only [paint]
    generalize (if pos.x > env.fl (1 - size) then env.fl (pos.x - 1) else pos.x) = x at nx
    generalize (if pos.y > env.fl (1 - size) then env.fl (pos.y - 1) else pos.y) = y at ny
    by_cases hx : x < size <;> by_cases hy : y < size
    · have a := nx hx
      have b := ny hy
      simp only [hx, hy, if_true, List.singleton_append, List.cons_append, List.nil_append]
      simp [a, b, Ne.symm a, Ne.symm b]
    · have a := nx hx
      simp only [hx, hy, if_true, if_false, List.singleton_append, List.cons_append,
        List.nil_append, List.append_nil]
      simp [a, Ne.symm a]
    · have b := ny hy
      simp only [hx, hy, if_true, if_false, List.singleton_append, List.cons_append,
        List.nil_append, List.append_nil]
      simp [b, Ne.symm b]
    · simp [hx, hy]
  · rw [hmem]
    exact ⟨0, 0, Or.inr (Or.inl rfl), Or.inr (Or.inl rfl),
      by simp only [Int.cast_zero, add_zero, hxd, hyd],
      fun k => by simp at k, fun k => by simp at k, fun k => by simp at k,
      fun k => by simp at k⟩
  · simp only [paint]
    generalize (if pos.x > env.fl (1 - size) then env.fl (pos.x - 1) else pos.x) = x
    generalize (if pos.y > env.fl (1 - size) then env.fl (pos.y - 1) else pos.y) = y
    by_cases hx : x < size <;> by_cases hy : y < size <;> simp [hx, hy]
  · intro a1 a2 b1 b2
    have c1 : ¬ pos.x > env.fl (1 - size) := by
      have := hfl.mono _ _ a2
      rw [hxd] at this
      exact not_lt.mpr this
    have c2 : ¬ pos.y > env.fl (1 - size) := by
      have := hfl.mono _ _ b2
      rw [hyd] at this
      exact not_lt.mpr this
    simp [paint, c1, c2, not_lt.mpr a1, not_lt.mpr b1]

/-- The double `0.053 + 0.0025`, the `size` with which `draw` calls `paint` for
an asteroid of the largest size class. -/
theorem double_paint_size :
    double_env.fl (double_env.fl 0.053 + double_env.fl 0.0025) =
      7998392938210001 / 2 ^ 57 := by
  have a : double_env.fl 0.053 = 7638104968020361 / 2 ^ 57 :=
    double_fl_eval _ (-5) 7638104968020361 _ (by norm_num) (by norm_num [abs_of_pos])
      (by norm_num [abs_of_pos]) (by norm_num [abs_lt]) (by norm_num)
  have b : double_env.fl 0.0025 = 5764607523034235 / 2 ^ 61 :=
    double_fl_eval _ (-9) 5764607523034235 _ (by norm_num) (by norm_num [abs_of_pos])
      (by norm_num [abs_of_pos]) (by norm_num [abs_lt]) (by norm_num)
  rw [a, b]
  exact double_fl_eval _ (-5) 7998392938210001 _ (by norm_num) (by norm_num [abs_of_pos])
    (by norm_num [abs_of_pos]) (by norm_num [abs_lt]) (by norm_num)

/-- The double `1 - size` for the size of `double_paint_size`: the difference
is rounded up. -/
theorem double_one_sub_size :
    double_env.fl (1 - 7998392938210001 / 2 ^ 57) = 8507299696102867 / 2 ^ 53 :=
  double_fl_eval _ (-1) 8507299696102867 _ (by norm_num) (by norm_num [abs_of_pos])
    (by norm_num [abs_of_pos]) (by norm_num [abs_lt]) (by norm_num)

/-- A call of `paint` that shifts nothing and copies nothing. -/
theorem paint_single (env : Env K) (pos : point K) (size : K)
    (h1 : ¬ pos.x > env.fl (1 - size)) (h2 : ¬ pos.y > env.fl (1 - size))
    (h3 : ¬ pos.x < size) (h4 : ¬ pos.y < size) : paint env pos size = [pos] := by
  simp [paint, h1, h2, h3, h4]

/-- A call of `paint` that shifts nothing and copies to the right. -/
theorem paint_right (env : Env K) (pos : point K) (size : K)
    (h1 : ¬ pos.x > env.fl (1 - size)) (h2 : ¬ pos.y > env.fl (1 - size))
    (h3 : pos.x < size) (h4 : ¬ pos.y < size) :
    paint env pos size = [pos, ⟨env.fl (pos.x + 1), pos.y⟩] := by
  simp [paint, h1, h2, h3, h4]

/-- The theorem `ghost_copies` in the arithmetic of `double`, at
`pos = (1/128, 1/2)` with the size of the largest asteroids. -/
theorem ghost_copies_witness :
    (double_rounding double_env.fl ∧
        (0 : ℚ) ≤ (⟨1/128, 1/2⟩ : point ℚ).x ∧ (⟨1/128, 1/2⟩ : point ℚ).x < 1 ∧
        (0 : ℚ) ≤ (⟨1/128, 1/2⟩ : point ℚ).y ∧ (⟨1/128, 1/2⟩ : point ℚ).y < 1 ∧
        (0 : ℚ) < 7998392938210001 / 2 ^ 57 ∧ (7998392938210001 / 2 ^ 57 : ℚ) < 1 / 2 ∧
        double_env.fl (⟨1/128, 1/2⟩ : point ℚ).x = (⟨1/128, 1/2⟩ : point ℚ).x ∧
        double_env.fl (⟨1/128, 1/2⟩ : point ℚ).y = (⟨1/128, 1/2⟩ : point ℚ).y) ∧
      (paint double_env (⟨1/128, 1/2⟩ : point ℚ) (7998392938210001 / 2 ^ 57)).Nodup ∧
      (⟨1/128, 1/2⟩ : point ℚ) ∈
        paint double_env (⟨1/128, 1/2⟩ : point ℚ) (7998392938210001 / 2 ^ 57) ∧
      ((paint double_env (⟨1/128, 1/2⟩ : point ℚ) (7998392938210001 / 2 ^ 57)).length = 1 ∨
        (paint double_env (⟨1/128, 1/2⟩ : point ℚ) (7998392938210001 / 2 ^ 57)).length = 2 ∨
        (paint double_env (⟨1/128, 1/2⟩ : point ℚ) (7998392938210001 / 2 ^ 57)).length = 4) :=
  have hx : double_env.fl (⟨1/128, 1/2⟩ : point ℚ).x = (⟨1/128, 1/2⟩ : point ℚ).x :=
    fl64_of_is_double _ ⟨1, -7, by norm_num, by norm_num, by norm_num⟩
  have hy : double_env.fl (⟨1/128, 1/2⟩ : point ℚ).y = (⟨1/128, 1/2⟩ : point ℚ).y :=
    fl64_half
  have h := ghost_copies double_env (⟨1/128, 1/2⟩ : point ℚ) (7998392938210001 / 2 ^ 57)
    double_env_rounding (by norm_num) (by norm_num) (by norm_num) (by norm_num) (by norm_num)
    (by norm_num) hx hy
  ⟨⟨double_env_rounding, by norm_num, by norm_num, by norm_num, by norm_num, by norm_num,
    by norm_num, hx, hy⟩, h.2.2.1, h.2.2.2.1, h.2.2.2.2.1⟩

/-- C18 (counterexample to the claim as stated): in the arithmetic of `double`
take `size = 0.053 + 0.0025`, the size with which `draw` paints the largest
asteroids.  At `pos = (p, 1/2)` with `p` the double `1 - size`, which is above
`1 - size`, the square of the translate `pos - (1, 0)` overlaps the unit square
(`0 < p - 1 + size`), but `paint` calls `func` only at `pos`.  At
`pos = (2^-60, 1/2)` the copy to the right is at `(1, 1/2)`, which is no
translate of `pos` by integers. -/
theorem paint_misses_translate_at_rounded_edge :
    double_env.fl (double_env.fl 0.053 + double_env.fl 0.0025) = 7998392938210001 / 2 ^ 57 ∧
      (0 : ℚ) < 7998392938210001 / 2 ^ 57 ∧ (7998392938210001 / 2 ^ 57 : ℚ) < 1 / 2 ∧
      (0 : ℚ) ≤ 8507299696102867 / 2 ^ 53 ∧ (8507299696102867 / 2 ^ 53 : ℚ) < 1 ∧
      (0 : ℚ) < 8507299696102867 / 2 ^ 53 - 1 + 7998392938210001 / 2 ^ 57 ∧
      paint double_env (⟨8507299696102867 / 2 ^ 53, 1/2⟩ : point ℚ)
          (7998392938210001 / 2 ^ 57) =
        [⟨8507299696102867 / 2 ^ 53, 1/2⟩] ∧
      paint double_env (⟨1 / 2 ^ 60, 1/2⟩ : point ℚ) (7998392938210001 / 2 ^ 57) =
        [⟨1 / 2 ^ 60, 1/2⟩, ⟨1, 1/2⟩] := by
  refine ⟨double_paint_size, by norm_num, by norm_num, by norm_num, by norm_num, by norm_num,
    ?_, ?_⟩
  · apply paint_single
    · show ¬ (8507299696102867 / 2 ^ 53 : ℚ) > double_env.fl (1 - 7998392938210001 / 2 ^ 57)
      rw [double_one_sub_size]; norm_num
    · show ¬ (1 / 2 : ℚ) > double_env.fl (1 - 7998392938210001 / 2 ^ 57)
      rw [double_one_sub_size]; norm_num
    · show ¬ (8507299696102867 / 2 ^ 53 : ℚ) < 7998392938210001 / 2 ^ 57
      norm_num
    · show ¬ (1 / 2 : ℚ) < 7998392938210001 / 2 ^ 57
      norm_num
  · have e : double_env.fl (1 / 2 ^ 60 + 1) = 1 :=
      double_fl_eval _ 0 4503599627370496 _ (by norm_num) (by norm_num [abs_of_pos])
        (by norm_num [abs_of_pos]) (by norm_num [abs_lt]) (by norm_num)
    rw [paint_right double_env _ _ _ _ _ _]
    · show [(⟨1 / 2 ^ 60, 1/2⟩ : point ℚ), ⟨double_env.fl (1 / 2 ^ 60 + 1), 1/2⟩] = _
      rw [e]
    · show ¬ (1 / 2 ^ 60 : ℚ) > double_env.fl (1 - 7998392938210001 / 2 ^ 57)
      rw [double_one_sub_size]; norm_num
    · show ¬ (1 / 2 : ℚ) > double_env.fl (1 - 7998392938210001 / 2 ^ 57)
      rw [double_one_sub_size]; norm_num
    · show (1 / 2 ^ 60 : ℚ) < 7998392938210001 / 2 ^ 57
      norm_num
    · show ¬ (1 / 2 : ℚ) < 7998392938210001 / 2 ^ 57
      norm_num

theorem toNat_emod_of_lt (w n : Nat) (h : w < n) : (((w : Int) % (n : Int)).toNat) = w := by
  rw [Int.emod_eq_of_lt (Int.ofNat_nonneg w) (by exact_mod_cast h)]
  exact Int.toNat_natCast w

/-- C19: under the `preserve_aspect_ratio` policy, for every configured size
`W, H` with `1 <= W, H < 2^32` and every new window size `w, h` with
`0 <= w, h < 2^31`, the handler returns a context whose drawable size
`(tw, th)` fits in the window, touches it in one dimension, and equals
`(w, floor(w*H/W))` when `w*H < h*W` and `(floor(h*W/H), h)` otherwise: the
reductions modulo `2^64` and `2^32` change no value.  The other members of the
context are unchanged. -/
theorem resize_preserves_aspect (W H w h : Nat) (c : context)
    (hW0 : 1 ≤ W) (hW : W < 2 ^ 32) (hH0 : 1 ≤ H) (hH : H < 2 ^ 32)
    (hw : w < 2 ^ 31) (hh : h < 2 ^ 31) :
    ∃ c', resize_preserve_aspect_ratio W H (w : Int) (h : Int) c = some c' ∧
      c'.should_quit = c.should_quit ∧ c'.fullscreen = c.fullscreen ∧
      c'.tex_width ≤ w ∧ c'.tex_height ≤ h ∧ (c'.tex_width = w ∨ c'.tex_height = h) ∧
      (w * H < h * W → c'.tex_width = w ∧ c'.tex_height = w * H / W) ∧
      (¬ w * H < h * W → c'.tex_width = h * W / H ∧ c'.tex_height = h) := by
  have e1 : (((w : Int) % 2 ^ 64).toNat) = w := by
    have := toNat_emod_of_lt w (2 ^ 64) (by omega)
    simpa using this
  have e2 : (((h : Int) % 2 ^ 64).toNat) = h := by
    have := toNat_emod_of_lt h (2 ^ 64) (by omega)
    simpa using this
  have e3 : (((w : Int) % 2 ^ 32).toNat) = w := by
    have := toNat_emod_of_lt w (2 ^ 32) (by omega)
    simpa using this
  have e4 : (((h : Int) % 2 ^ 32).toNat) = h := by
    have := toNat_emod_of_lt h (2 ^ 32) (by omega)
    simpa using this
  have p1 : w * H < 2 ^ 64 := by
    calc w * H < 2 ^ 31 * 2 ^ 32 := Nat.mul_lt_mul'' hw hH
      _ < 2 ^ 64 := by norm_num
  have p2 : h * W < 2 ^ 64 := by
    calc h * W < 2 ^ 31 * 2 ^ 32 := Nat.mul_lt_mul'' hh hW
      _ < 2 ^ 64 := by norm_num
  have m1 : w * H % 2 ^ 64 = w * H := Nat.mod_eq_of_lt p1
  have m2 : h * W % 2 ^ 64 = h * W := Nat.mod_eq_of_lt p2
  have hW' : W ≠ 0 := by omega
  have hH' : H ≠ 0 := by omega
  simp only [resize_preserve_aspect_ratio, e1, e2, e3, e4, m1, m2, hW', hH', if_false]
  by_cases hlt : w * H < h * W
  · have q : w * H / W < h := (Nat.div_lt_iff_lt_mul (by omega)).mpr hlt
    have q2 : w * H / W % 2 ^ 32 = w * H / W := Nat.mod_eq_of_lt (by omega)
    simp only [hlt, if_true, q2]
    exact ⟨_, rfl, rfl, rfl, le_refl _, le_of_lt q, Or.inl rfl, fun _ => ⟨rfl, rfl⟩,
      fun hn => absurd trivial hn⟩
  · have q : h * W / H ≤ w := by
      have : h * W ≤ w * H := not_lt.mp hlt
      exact Nat.div_le_of_le_mul (by rw [Nat.mul_comm H w]; exact this)
    have q2 : h * W / H % 2 ^ 32 = h * W / H := Nat.mod_eq_of_lt (by omega)
    simp only [hlt, if_false, q2]
    exact ⟨_, rfl, rfl, rfl, q, le_refl _, Or.inr rfl, fun hn => absurd hn (by simp),
      fun _ => ⟨rfl, rfl⟩⟩

/-- The theorem `resize_preserves_aspect` for the configured size `640 x 480`
and the new window size `800 x 500`: the drawable becomes `666 x 500`. -/
theorem resize_preserves_aspect_witness :
    (1 ≤ 640 ∧ 640 < 2 ^ 32 ∧ 1 ≤ 480 ∧ 480 < 2 ^ 32 ∧ 800 < 2 ^ 31 ∧ 500 < 2 ^ 31) ∧
      ∃ c', resize_preserve_aspect_ratio 640 480 ((800 : Nat) : Int) ((500 : Nat) : Int)
          ⟨false, false, 640, 480⟩ = some c' ∧
        c'.should_quit = false ∧ c'.fullscreen = false ∧
        c'.tex_width ≤ 800 ∧ c'.tex_height ≤ 500 ∧ (c'.tex_width = 800 ∨ c'.tex_height = 500) ∧
        (800 * 480 < 500 * 640 → c'.tex_width = 800 ∧ c'.tex_height = 800 * 480 / 640) ∧
        (¬ 800 * 480 < 500 * 640 → c'.tex_width = 500 * 640 / 480 ∧ c'.tex_height = 500) :=
  ⟨by decide, resize_preserves_aspect 640 480 800 500 ⟨false, false, 640, 480⟩
    (by decide) (by decide) (by decide) (by decide) (by decide) (by decide)⟩

/-- C20: for all `p`, `q`, `cc` and `r > 0`, `intersect(p, q, cc, r)` returns
the value of the one-root test (`d >= 0` and `0 <= (-b - sqrt(d))/a <= 1`), and
for every input it agrees with the function from which the `t2` branch is
removed: the second root branch changes the result for no input. -/
theorem intersect_second_root_dead (m : Libm K) (p q cc : point K) (r : K) (hr : 0 < r) :
    intersect m p q cc r = .ok (one_root_test m p q cc r) ∧
      ∀ (p' q' cc' : point K) (r' : K),
        intersect m p' q' cc' r' = intersect_without_t2 m p' q' cc' r' := by
  constructor
  · simp only [intersect, one_root_test, not_lt.mpr (le_of_lt hr), hr, not_true_eq_false,
      if_false]
    split_ifs with h1 h2
    · simp only [ge_iff_le, not_le.mpr h1, decide_False, Bool.false_and]
    · simp only [ge_iff_le, not_lt.mp h1, decide_True, Bool.true_and, h2]
    · have h3 := (Bool.not_eq_true _).mp h2
      simp only [ge_iff_le, not_lt.mp h1, decide_True, Bool.true_and, h3]
  · intro p' q' cc' r'
    simp only [intersect, intersect_without_t2]
    split_ifs <;> rfl

/-- The theorem `intersect_second_root_dead` for the segment from `(2, 0)` to
`(0, 0)` and the unit circle. -/
theorem intersect_second_root_dead_witness :
    (0 : ℚ) < 1 ∧
      intersect sample_libm (⟨2, 0⟩ : point ℚ) ⟨0, 0⟩ ⟨0, 0⟩ 1 =
        .ok (one_root_test sample_libm (⟨2, 0⟩ : point ℚ) ⟨0, 0⟩ ⟨0, 0⟩ 1) :=
  ⟨by norm_num,
    (intersect_second_root_dead sample_libm (⟨2, 0⟩ : point ℚ) ⟨0, 0⟩ ⟨0, 0⟩ 1 (by norm_num)).1⟩

/-- The asteroid pass keeps the asteroid invariant: the asteroids already
visited and the ones still to visit satisfy it before, all do afterwards. -/
theorem draw_asteroids_ok (env : Env K) (frame_time : Nat) :
    ∀ (fuel : Nat) (rest pre : List (asteroid K)) (s s1 : asteroids_model K),
      s.asteroids = pre ++ rest → (∀ e ∈ pre ++ rest, asteroid_ok s.dead e) →
        draw_asteroids env frame_time fuel s pre.length = .ok s1 →
          ∀ e ∈ s1.asteroids, asteroid_ok s1.dead e := by
  intro fuel
  induction fuel with
  | zero => intro rest pre s s1 _ _ h; simp [draw_asteroids] at h
  | succ fuel ih =>
    intro rest pre s s1 hs hok h
    cases rest with
    | nil =>
      have hlen : pre.length = s.asteroids.length := by rw [hs]; simp
      simp only [draw_asteroids, hlen, if_true, Except.ok.injEq] at h
      subst h
      rw [hs]
      exact hok
    | cons e0 rest =>
      have hne : ¬ pre.length = s.asteroids.length := by rw [hs]; simp
      have h0 : asteroid_ok s.dead e0 := hok e0 (by simp)
      have hpre : ∀ e ∈ pre, asteroid_ok s.dead e := fun e he => hok e (by simp [he])
      have hrest : ∀ e ∈ rest, asteroid_ok s.dead e := fun e he => hok e (by simp [he])
      obtain ⟨hit, s2, next, -, hvis, -, hcase⟩ := asteroid_visit_spec env frame_time s pre e0 rest
        hs h0.1
      simp only [draw_asteroids, hne, if_false, hvis] at h
      have he2 : (hit_asteroid hit (asteroid_step frame_time e0)).health = e0.health ∨
          (hit_asteroid hit (asteroid_step frame_time e0)).health = e0.health - 1 := by
        cases hit with
        | none => exact Or.inl rfl
        | some j => exact Or.inr rfl
      have hsz : (hit_asteroid hit (asteroid_step frame_time e0)).size = e0.size := by simp
      rcases hcase with ⟨rfl, hd0, hd1, -, hast⟩ |
        ⟨rfl, hz, hdead, rest', children, hperm, hast, hlen, hch⟩ | ⟨rfl, hh, hdead, hast⟩
      · simp only [Except.ok.injEq] at h
        subst h
        have hw : ∀ e : asteroid K, asteroid_ok s.dead e → asteroid_ok s2.dead e := by
          intro e he
          exact ⟨he.1, he.2.1, fun k => by rw [hd1] at k; exact absurd k (by decide)⟩
        intro e he
        rw [hast] at he
        rcases List.mem_append.mp he with he | he
        · exact hw e (hpre e he)
        · rcases List.mem_cons.mp he with rfl | he
          · refine ⟨by simpa using h0.1, ?_, fun k => by rw [hd1] at k; exact absurd k (by decide)⟩
            show (0 : Int) ≤ (hit_asteroid hit (asteroid_step frame_time e0)).size + 1
            rw [hsz]
            rcases h0.1 with k | k | k <;> rw [k] <;> decide
          · exact hw e (hrest e he)
      · apply ih (rest' ++ children) pre s2 s1 (by rw [hast, List.append_assoc]) _ h
        intro e he
        rw [hdead]
        rcases List.mem_append.mp he with he | he
        · exact hpre e he
        · rcases List.mem_append.mp he with he | he
          · exact hrest e (hperm.mem_iff.mp he)
          · obtain ⟨-, c1, c2⟩ := hch e he
            have hcv := (children_weight_lt e0 h0.1 children hlen
              (fun c hc => (hch c hc).2.1)).2 e he
            refine ⟨hcv, by rw [c1, c2]; omega, fun _ => ?_⟩
            rw [c2]
            rcases hcv with k | k | k <;> rw [c1] at k <;> omega
      · have := ih rest (pre ++ [hit_asteroid hit (asteroid_step frame_time e0)]) s2 s1
          (by rw [hast]; simp)
          (by
            intro e he
            rw [hdead]
            simp only [List.append_assoc, List.singleton_append, List.mem_append,
              List.mem_cons] at he
            rcases he with he | rfl | he
            · exact hpre e he
            · refine ⟨by simpa using h0.1, ?_, fun k => ?_⟩
              · rw [hsz]
                rcases he2 with k | k <;> rw [k] <;> have := h0.2.1 <;> omega
              · have := h0.2.2 k
                rcases he2 with k2 | k2 <;> omega
            · exact hrest e he)
          (by simpa using h)
        exact this

/-- With valid sizes, the only fault of the asteroid pass is running out of fuel. -/
theorem draw_asteroids_fault (env : Env K) (frame_time : Nat) :
    ∀ (fuel : Nat) (rest pre : List (asteroid K)) (s : asteroids_model K) (err : Fault),
      s.asteroids = pre ++ rest → (∀ e ∈ rest, valid_size e.size) →
        draw_asteroids env frame_time fuel s pre.length = .error err → err = .out_of_fuel := by
  intro fuel
  induction fuel with
  | zero =>
    intro rest pre s err _ _ h
    simp only [draw_asteroids, Except.error.injEq] at h
    exact h.symm
  | succ fuel ih =>
    intro rest pre s err hs hv h
    cases rest with
    | nil =>
      have hlen : pre.length = s.asteroids.length := by rw [hs]; simp
      simp [draw_asteroids, hlen] at h
    | cons e0 rest =>
      have hne : ¬ pre.length = s.asteroids.length := by rw [hs]; simp
      have hv0 := hv e0 (List.mem_cons_self _ _)
      obtain ⟨hit, s2, next, -, hvis, -, hcase⟩ := asteroid_visit_spec env frame_time s pre e0 rest
        hs hv0
      simp only [draw_asteroids, hne, if_false, hvis] at h
      rcases hcase with ⟨rfl, -⟩ | ⟨rfl, -, -, rest', children, hperm, hast, hlen, hch⟩ |
        ⟨rfl, -, -, hast⟩
      · simp at h
      · apply ih (rest' ++ children) pre s2 err (by rw [hast, List.append_assoc]) _ h
        intro e he
        rcases List.mem_append.mp he with he | he
        · exact hv e (List.mem_cons_of_mem _ (hperm.mem_iff.mp he))
        · exact (children_weight_lt e0 hv0 children hlen (fun c hc => (hch c hc).2.1)).2 e he
      · exact ih rest (pre ++ [hit_asteroid hit (asteroid_step frame_time e0)]) s2 err
          (by rw [hast]; simp) (fun e he => hv e (List.mem_cons_of_mem _ he)) (by simpa using h)

/-- The only fault of the bullet pass is running out of fuel. -/
theorem bullets_loop_fault (frame_time : Nat) :
    ∀ (fuel : Nat) (bs : List (bullet K)) (i : Nat) (err : Fault), i ≤ bs.length →
      bullets_loop env frame_time fuel bs i = .error err → err = .out_of_fuel := by
  intro fuel
  induction fuel with
  | zero =>
    intro bs i err _ h
    simp only [bullets_loop, Except.error.injEq] at h
    exact h.symm
  | succ fuel ih =>
    intro bs i err hi h
    by_cases hl : i = bs.length
    · simp [bullets_loop, hl] at h
    · have hlt : i < bs.length := lt_of_le_of_ne hi hl
      have hget : bs[i]? = some bs[i] := List.getElem?_eq_getElem hlt
      simp only [bullets_loop, hl, if_false, hget] at h
      split_ifs at h
      · exact ih _ i err (by rw [swap_pop_length, List.length_set]; omega) h
      · exact ih _ (i + 1) err (by rw [List.length_set]; omega) h

theorem gen_asteroid_pos_fault (env : Env K) (ship : point K) :
    ∀ (fuel i rand_pos : Nat) (err : Fault),
      gen_asteroid_pos env ship fuel i rand_pos = .error err → err = .out_of_fuel := by
  intro fuel
  induction fuel with
  | zero =>
    intro i rp err h
    simp only [gen_asteroid_pos, Except.error.injEq] at h
    exact h.symm
  | succ fuel ih =>
    intro i rp err h
    simp only [gen_asteroid_pos] at h
    split_ifs at h
    exact ih _ _ err h

theorem gen_asteroid_fault (fuel : Nat) (env : Env K) (s : asteroids_model K) (err : Fault)
    (h : gen_asteroid fuel env s = .error err) : err = .out_of_fuel := by
  simp only [gen_asteroid, bind, Except.bind, pure, Except.pure] at h
  split at h
  · rename_i e he
    simp only [Except.error.injEq] at h
    subst h
    exact gen_asteroid_pos_fault env s.ship fuel _ _ _ he
  · simp at h

theorem draw_respawn_fault (fuel : Nat) (env : Env K) (s : asteroids_model K) (err : Fault)
    (h : draw_respawn fuel env s = .error err) : err = .out_of_fuel := by
  unfold draw_respawn at h
  split_ifs at h
  simp only [bind, Except.bind] at h
  cases h1 : gen_asteroid fuel env s with
  | error e1 =>
    rw [h1] at h
    simp only [Except.error.injEq] at h
    subst h
    exact gen_asteroid_fault fuel env s _ h1
  | ok s1 =>
    rw [h1] at h
    simp only at h
    cases h2 : gen_asteroid fuel env s1 with
    | error e2 =>
      rw [h2] at h
      simp only [Except.error.injEq] at h
      subst h
      exact gen_asteroid_fault fuel env s1 _ h2
    | ok s2 =>
      rw [h2] at h
      exact gen_asteroid_fault fuel env s2 _ h

/-- With valid sizes, the only fault of a tick is running out of fuel: no
`assert` fails and no index is out of range. -/
theorem draw_fault (fuel : Nat) (env : Env K) (frame_time : Nat) (s : asteroids_model K)
    (err : Fault) (hv : ∀ e ∈ s.asteroids, valid_size e.size)
    (h : draw fuel env frame_time s = .error err) : err = .out_of_fuel := by
  simp only [draw, bind, Except.bind] at h
  cases h1 : draw_asteroids env frame_time fuel (draw_ship env frame_time s) 0 with
  | error e1 =>
    rw [h1] at h
    simp only [Except.error.injEq] at h
    subst h
    exact draw_asteroids_fault env frame_time fuel (draw_ship env frame_time s).asteroids []
      (draw_ship env frame_time s) _ rfl (by rw [draw_ship_asteroids]; exact hv) h1
  | ok s1 =>
    rw [h1] at h
    simp only at h
    cases h2 : draw_bullets env frame_time fuel s1 with
    | error e2 =>
      rw [h2] at h
      simp only [Except.error.injEq] at h
      subst h
      simp only [draw_bullets, bind, Except.bind, pure, Except.pure] at h2
      cases h3 : bullets_loop env frame_time fuel s1.bullets 0 with
      | error e3 =>
        rw [h3] at h2
        simp only [Except.error.injEq] at h2
        subst h2
        exact bullets_loop_fault frame_time fuel s1.bullets 0 _ (Nat.zero_le _) h3
      | ok bs =>
        rw [h3] at h2
        simp at h2
    | ok s2 =>
      rw [h2] at h
      exact draw_respawn_fault fuel env s2 err h

/-- A tick keeps the asteroid invariant. -/
theorem draw_asteroid_ok (fuel : Nat) (env : Env K) (frame_time : Nat)
    (s s' : asteroids_model K) (hok : ∀ e ∈ s.asteroids, asteroid_ok s.dead e)
    (h : draw fuel env frame_time s = .ok s') : ∀ e ∈ s'.asteroids, asteroid_ok s'.dead e := by
  obtain ⟨s1, s2, h1, h2, h3⟩ := draw_passes fuel env frame_time s s' h
  have a1 := draw_asteroids_ok env frame_time fuel (draw_ship env frame_time s).asteroids []
    (draw_ship env frame_time s) s1 rfl
    (by rw [draw_ship_asteroids, draw_ship_dead]; simpa using hok) h1
  obtain ⟨-, hd2, ha2⟩ := draw_bullets_frame frame_time fuel s1 s2 h2
  obtain ⟨-, hd3, -, k1, k2⟩ := draw_respawn_spec fuel env s2 s' h3
  intro e he
  by_cases hne : s2.asteroids = []
  · obtain ⟨c1, c2, c3, hl, q1, q2, q3⟩ := k2 hne
    rw [hl] at he
    simp only [List.mem_cons, List.mem_singleton, List.not_mem_nil, or_false] at he
    rcases he with rfl | rfl | rfl
    · exact ⟨Or.inr (Or.inr q1.1), by rw [q1.1, q1.2]; decide, fun _ => by rw [q1.2]; decide⟩
    · exact ⟨Or.inr (Or.inr q2.1), by rw [q2.1, q2.2]; decide, fun _ => by rw [q2.2]; decide⟩
    · exact ⟨Or.inr (Or.inr q3.1), by rw [q3.1, q3.2]; decide, fun _ => by rw [q3.2]; decide⟩
  · rw [k1 hne] at he ⊢
    rw [ha2] at he
    rw [hd2]
    exact a1 e he

theorem reachable_asteroid_ok (env : Env K) (s : asteroids_model K) (h : reachable env s) :
    ∀ e ∈ s.asteroids, asteroid_ok s.dead e := by
  induction h with
  | construct rot rand_pos => intro e he; simp [construct, reset] at he
  | tick fuel frame_time s s1 _ h ih => exact draw_asteroid_ok fuel env frame_time s s1 ih h
  | key_down p c s _ ih =>
    obtain ⟨k, m⟩ := p
    cases k <;> first
      | exact ih
      | (simp only [key_down]
         split_ifs
         · intro e he; simp [reset] at he
         · exact ih)
  | key_up p c s _ ih =>
    obtain ⟨k, m⟩ := p
    cases k <;> first
      | exact ih
      | (simp only [key_up]; split_ifs <;> exact ih)
  | reset s _ _ => intro e he; simp [reset] at he

/-- C23: in every state reachable from construction by ticks, key events and
resets, every asteroid has a size in `{0,1,2}` and a health of at most
`size + 1`, and while the ship is alive every asteroid has a health of at least
1.  Consequently the lookup `asteroid_sizes[e.size]` is in range and the
radius passed to `intersect` is positive for every asteroid, the only fault of
a tick is running out of fuel (no `assert` fails, no index is out of range), and
the tick returns when the counter of `gen_asteroid` reaches its cap and the
loops get enough fuel. -/
theorem asteroid_invariant (env : Env K) (s : asteroids_model K) (h : reachable env s) :
    (∀ e ∈ s.asteroids, (e.size = 0 ∨ e.size = 1 ∨ e.size = 2) ∧ e.health ≤ e.size + 1 ∧
        (s.dead = false → 1 ≤ e.health)) ∧
      (∀ e ∈ s.asteroids, ∃ r : K, asteroid_sizes e.size = .ok r ∧
        0 < r - collision_tolerance) ∧
      (∀ (fuel frame_time : Nat) (err : Fault),
        draw fuel env frame_time s = .error err → err = .out_of_fuel) ∧
      (∀ (fuel frame_time : Nat), counter_reaches_cap env → total_weight s.asteroids < fuel →
        s.bullets.length + 1 < fuel → 10 < fuel →
        ∃ s', draw fuel env frame_time s = .ok s') := by
  have hok := reachable_asteroid_ok env s h
  have hv : ∀ e ∈ s.asteroids, valid_size e.size := fun e he => (hok e he).1
  refine ⟨hok, ?_, ?_, ?_⟩
  · intro e he
    obtain ⟨r, h1, h2⟩ := asteroid_sizes_ok (K := K) e.size (hv e he)
    exact ⟨r, h1, by linarith⟩
  · intro fuel frame_time err he
    exact draw_fault fuel env frame_time s err hv he
  · intro fuel frame_time hc hf1 hf2 hf3
    exact draw_terminates fuel env frame_time s hv hc hf1 hf2 hf3

/-- The theorem `asteroid_invariant` on the state after the first tick of a
freshly constructed model, in the sample environment: the tick returns, the
field is not empty afterwards, and every asteroid satisfies the invariant. -/
theorem asteroid_invariant_witness :
    ∃ s' : asteroids_model ℚ,
      draw 11 (sample_env 0) 16 (construct (sample_env 0) .none 0) = .ok s' ∧
      reachable (sample_env 0) s' ∧ s'.asteroids ≠ [] ∧
      ∀ e ∈ s'.asteroids, (e.size = 0 ∨ e.size = 1 ∨ e.size = 2) ∧ e.health ≤ e.size + 1 ∧
        (s'.dead = false → 1 ≤ e.health) := by
  have hnil : (construct (sample_env 0) .none 0).asteroids = [] := rfl
  have hbul : (construct (sample_env 0) .none 0).bullets = [] := rfl
  obtain ⟨s', h⟩ := draw_terminates 11 (sample_env 0) 16 (construct (sample_env 0) .none 0)
    (by rw [hnil]; intro e he; exact absurd he (List.not_mem_nil _))
    (sample_counter 0 (by decide) (by decide))
    (by rw [hnil]; simp [total_weight]) (by rw [hbul]; simp) (by decide)
  have hr := reachable.tick 11 16 _ s' (reachable.construct .none 0) h
  exact ⟨s', h, hr, draw_asteroids_ne_nil _ _ _ _ _ h, (asteroid_invariant (sample_env 0) s' hr).1⟩

/-- The smaller root of `a t^2 + 2 b t + c`, from an exact square root `s` of
the quarter discriminant. -/
theorem root_sound (a b c s : K) (ha : a ≠ 0) (hs : s * s = b * b - a * c) :
    a * ((-b - s) / a) * ((-b - s) / a) + 2 * b * ((-b - s) / a) + c = 0 := by
  have h : a * ((-b - s) / a) = -b - s := by field_simp
  have h2 : a * (a * ((-b - s) / a) * ((-b - s) / a) + 2 * b * ((-b - s) / a) + c) = 0 := by
    have : a * (a * ((-b - s) / a) * ((-b - s) / a) + 2 * b * ((-b - s) / a) + c) =
        (a * ((-b - s) / a)) * (a * ((-b - s) / a)) + 2 * b * (a * ((-b - s) / a)) + a * c := by
      ring
    rw [this, h]
    nlinarith
  rcases mul_eq_zero.mp h2 with h3 | h3
  · exact absurd h3 ha
  · exact h3

theorem disc_nonneg (a b c t0 : K) (ha : 0 < a) (hf : a * t0 * t0 + 2 * b * t0 + c ≤ 0) :
    0 ≤ b * b - a * c := by
  nlinarith [sq_nonneg (a * t0 + b), mul_nonneg_of_nonpos_of_nonpos hf (by linarith : -a ≤ 0)]

/-- When the end `t = 0` is not strictly inside (`c >= 0`) and some point with
`0 < t0 <= 1` is in the closed disc, the smaller root lies in `[0, 1]`. -/
theorem root_found (a b c s t0 : K) (ha : 0 < a) (hc : 0 ≤ c) (h0 : 0 < t0) (h1 : t0 ≤ 1)
    (hf : a * t0 * t0 + 2 * b * t0 + c ≤ 0) (hs0 : 0 ≤ s) (hs : s * s = b * b - a * c) :
    0 ≤ (-b - s) / a ∧ (-b - s) / a ≤ 1 := by
  have hb : b ≤ 0 := by
    by_contra k
    push_neg at k
    have : 0 < a * t0 * t0 + 2 * b * t0 + c := by positivity
    linarith
  have hsb : s ≤ -b := by
    by_contra k
    push_neg at k
    nlinarith [mul_nonneg ha.le hc]
  have hlow : -s ≤ a * t0 + b := by
    by_contra k
    push_neg at k
    have k2 : 0 ≤ -(a * t0 + b) := by linarith
    have : s * s < (a * t0 + b) * (a * t0 + b) := by nlinarith
    nlinarith
  constructor
  · exact div_nonneg (by linarith) ha.le
  · rw [div_le_one ha]
    nlinarith

/-- The quadratic of `intersect`: the squared distance from `cc` of the point
at parameter `t` of the segment (from `q` at `t = 0` to `p` at `t = 1`), minus
`r^2`, in the coefficients that the code computes. -/
theorem intersect_quadratic (p q cc : point K) (r t : K) :
    norm2 (q + point.lscale t (p - q) - cc) - r * r =
      (norm2 (p - cc) - 2 * dot (p - cc) (q - cc) + norm2 (q - cc)) * t * t +
        2 * (dot (p - cc) (q - cc) - norm2 (q - cc)) * t + (norm2 (q - cc) - r * r) := by
  simp only [norm2, dot, point.lscale, point.sub_x, point.sub_y, point.add_x, point.add_y]
  ring

theorem intersect_leading (p q cc : point K) :
    norm2 (p - cc) - 2 * dot (p - cc) (q - cc) + norm2 (q - cc) = norm2 (p - q) := by
  simp only [norm2, dot, point.sub_x, point.sub_y]
  ring

/-- With an exact square root, a `true` result of `intersect` comes from a point
of the segment on the circle. -/
theorem intersect_sound (m : Libm K)
    (hsqrt : ∀ x : K, 0 ≤ x → 0 ≤ m.sqrt x ∧ m.sqrt x * m.sqrt x = x)
    (p q cc : point K) (r : K) (h : intersect m p q cc r = .ok true) :
    ∃ t, 0 ≤ t ∧ t ≤ 1 ∧ norm2 (q + point.lscale t (p - q) - cc) = r * r := by
  have main : ∀ a b c : K, ¬ b * b - a * c < 0 →
      quotient_in_01 (-b - m.sqrt (b * b - a * c)) a = true →
      ∃ t, 0 ≤ t ∧ t ≤ 1 ∧ a * t * t + 2 * b * t + c = 0 := by
    intro a b c hd hq
    unfold quotient_in_01 at hq
    split_ifs at hq with ha
    simp only [ge_iff_le, Bool.and_eq_true, decide_eq_true_eq] at hq
    exact ⟨_, hq.1, hq.2, root_sound a b c _ ha (hsqrt _ (not_lt.mp hd)).2⟩
  simp only [intersect] at h
  split_ifs at h with h1 h2 h3 h4
  all_goals first
    | (cases h; done)
    | (obtain ⟨t, t0, t1, ht⟩ := main _ _ _ (by assumption) (by assumption)
       exact ⟨t, t0, t1, by have := intersect_quadratic p q cc r t; linarith⟩)

/-- With an exact square root, `intersect` finds the circle when the end `q` is
not strictly inside it and some other point of the segment is in the closed
disc. -/
theorem intersect_complete (m : Libm K)
    (hsqrt : ∀ x : K, 0 ≤ x → 0 ≤ m.sqrt x ∧ m.sqrt x * m.sqrt x = x)
    (p q cc : point K) (r t0 : K) (hr : 0 < r) (hpq : 0 < norm2 (p - q))
    (hq : r * r ≤ norm2 (q - cc)) (h0 : 0 < t0) (h1 : t0 ≤ 1)
    (hin : norm2 (q + point.lscale t0 (p - q) - cc) ≤ r * r) :
    intersect m p q cc r = .ok true := by
  have hquad := intersect_quadratic p q cc r t0
  have hlead := intersect_leading p q cc
  have ha : 0 < norm2 (p - cc) - 2 * dot (p - cc) (q - cc) + norm2 (q - cc) := by
    rw [hlead]; exact hpq
  have hf : (norm2 (p - cc) - 2 * dot (p - cc) (q - cc) + norm2 (q - cc)) * t0 * t0 +
      2 * (dot (p - cc) (q - cc) - norm2 (q - cc)) * t0 + (norm2 (q - cc) - r * r) ≤ 0 := by
    linarith
  have hd := disc_nonneg _ _ _ t0 ha hf
  obtain ⟨hs0, hs⟩ := hsqrt _ hd
  obtain ⟨r1, r2⟩ := root_found _ _ _ _ t0 ha (by linarith) h0 h1 hf hs0 hs
  have hq01 : quotient_in_01
      (-(dot (p - cc) (q - cc) - norm2 (q - cc)) -
        m.sqrt ((dot (p - cc) (q - cc) - norm2 (q - cc)) *
            (dot (p - cc) (q - cc) - norm2 (q - cc)) -
          (norm2 (p - cc) - 2 * dot (p - cc) (q - cc) + norm2 (q - cc)) *
            (norm2 (q - cc) - r * r)))
      (norm2 (p - cc) - 2 * dot (p - cc) (q - cc) + norm2 (q - cc)) = true := by
    unfold quotient_in_01
    rw [if_neg (ne_of_gt ha)]
    simp only [ge_iff_le, Bool.and_eq_true, decide_eq_true_eq]
    exact ⟨r1, r2⟩
  simp only [intersect, not_lt.mpr (le_of_lt hr), hr, not_true_eq_false, if_false,
    not_lt.mpr hd, hq01, if_true]

/-- The squared distance from `cc` is convex along a segment: between two
points strictly inside the circle every point is strictly inside. -/
theorem segment_inside (p q cc : point K) (r t : K) (h0 : 0 ≤ t) (h1 : t ≤ 1)
    (hp : norm2 (p - cc) < r * r) (hq : norm2 (q - cc) < r * r) :
    norm2 (q + point.lscale t (p - q) - cc) < r * r := by
  have e : norm2 (q + point.lscale t (p - q) - cc) =
      (1 - t) * norm2 (q - cc) + t * norm2 (p - cc) - t * (1 - t) * norm2 (p - q) := by
    simp only [norm2, point.lscale, point.sub_x, point.sub_y, point.add_x, point.add_y]
    ring
  have hn : 0 ≤ norm2 (p - q) := by
    simp only [norm2]
    exact add_nonneg (mul_self_nonneg _) (mul_self_nonneg _)
  rcases eq_or_lt_of_le h0 with h | h
  · rw [e, ← h]; linarith
  · nlinarith [mul_nonneg (mul_nonneg h0 (by linarith : (0 : K) ≤ 1 - t)) hn,
      mul_nonneg (by linarith : (0 : K) ≤ 1 - t) (le_of_lt (sub_pos.mpr hq)),
      mul_pos h (sub_pos.mpr hp)]

/-- With an exact square root, the three `intersect` calls on the edges of a
triangle with distinct vertices, taken in cyclic order, find every point of the
perimeter that lies on the circle: an edge whose end `q` is strictly inside
misses it, and then a later edge has `q` outside and `p` inside or on the
circle. -/
theorem triangle_found (m : Libm K)
    (hsqrt : ∀ x : K, 0 ≤ x → 0 ≤ m.sqrt x ∧ m.sqrt x * m.sqrt x = x)
    (v1 v2 v3 cc : point K) (r t : K) (hr : 0 < r)
    (h12 : 0 < norm2 (v1 - v2)) (h23 : 0 < norm2 (v2 - v3)) (h31 : 0 < norm2 (v3 - v1))
    (ht0 : 0 ≤ t) (ht1 : t ≤ 1)
    (hon : norm2 (v2 + point.lscale t (v1 - v2) - cc) = r * r ∨
      norm2 (v3 + point.lscale t (v2 - v3) - cc) = r * r ∨
      norm2 (v1 + point.lscale t (v3 - v1) - cc) = r * r) :
    intersect m v1 v2 cc r = .ok true ∨ intersect m v2 v3 cc r = .ok true ∨
      intersect m v3 v1 cc r = .ok true := by
  have hone : ∀ p q : point K, norm2 (q + point.lscale 1 (p - q) - cc) = norm2 (p - cc) := by
    intro p q
    simp only [norm2, point.lscale, point.sub_x, point.sub_y, point.add_x, point.add_y]
    ring
  have hzero : ∀ p q : point K, norm2 (q + point.lscale 0 (p - q) - cc) = norm2 (q - cc) := by
    intro p q
    simp only [norm2, point.lscale, point.sub_x, point.sub_y, point.add_x, point.add_y]
    ring
  have E : ∀ p q : point K, 0 < norm2 (p - q) → norm2 (p - cc) ≤ r * r →
      r * r ≤ norm2 (q - cc) → intersect m p q cc r = .ok true := by
    intro p q hpq hp hq
    exact intersect_complete m hsqrt p q cc r 1 hr hpq hq one_pos (le_refl _)
      (by rw [hone]; exact hp)
  have F : ∀ p q : point K, 0 < norm2 (p - q) → r * r ≤ norm2 (q - cc) → 0 < t →
      norm2 (q + point.lscale t (p - q) - cc) = r * r → intersect m p q cc r = .ok true := by
    intro p q hpq hq h0 h
    exact intersect_complete m hsqrt p q cc r t hr hpq hq h0 ht1 (le_of_eq h)
  have A1 : norm2 (v1 - cc) < r * r → ¬ norm2 (v2 - cc) < r * r →
      (intersect m v1 v2 cc r = .ok true ∨ intersect m v2 v3 cc r = .ok true ∨
      intersect m v3 v1 cc r = .ok true) :=
    fun a b => Or.inl (E v1 v2 h12 a.le (not_lt.mp b))
  have A2 : norm2 (v2 - cc) < r * r → ¬ norm2 (v3 - cc) < r * r →
      (intersect m v1 v2 cc r = .ok true ∨ intersect m v2 v3 cc r = .ok true ∨
      intersect m v3 v1 cc r = .ok true) :=
    fun a b => Or.inr (Or.inl (E v2 v3 h23 a.le (not_lt.mp b)))
  have A3 : norm2 (v3 - cc) < r * r → ¬ norm2 (v1 - cc) < r * r →
      (intersect m v1 v2 cc r = .ok true ∨ intersect m v2 v3 cc r = .ok true ∨
      intersect m v3 v1 cc r = .ok true) :=
    fun a b => Or.inr (Or.inr (E v3 v1 h31 a.le (not_lt.mp b)))
  by_cases i1 : norm2 (v1 - cc) < r * r <;> by_cases i2 : norm2 (v2 - cc) < r * r <;>
    by_cases i3 : norm2 (v3 - cc) < r * r
  · exfalso
    rcases hon with h | h | h
    · exact absurd h (ne_of_lt (segment_inside v1 v2 cc r t ht0 ht1 i1 i2))
    · exact absurd h (ne_of_lt (segment_inside v2 v3 cc r t ht0 ht1 i2 i3))
    · exact absurd h (ne_of_lt (segment_inside v3 v1 cc r t ht0 ht1 i3 i1))
  · exact A2 i2 i3
  · exact A1 i1 i2
  · exact A1 i1 i2
  · exact A3 i3 i1
  · exact A2 i2 i3
  · exact A3 i3 i1
  · rcases eq_or_lt_of_le ht0 with h0 | h0
    · subst h0
      rcases hon with h | h | h
      · rw [hzero] at h
        exact Or.inr (Or.inl (E v2 v3 h23 (le_of_eq h) (not_lt.mp i3)))
      · rw [hzero] at h
        exact Or.inr (Or.inr (E v3 v1 h31 (le_of_eq h) (not_lt.mp i1)))
      · rw [hzero] at h
        exact Or.inl (E v1 v2 h12 (le_of_eq h) (not_lt.mp i2))
    · rcases hon with h | h | h
      · exact Or.inl (F v1 v2 h12 (not_lt.mp i2) h0 h)
      · exact Or.inr (Or.inl (F v2 v3 h23 (not_lt.mp i3) h0 h))
      · exact Or.inr (Or.inr (F v3 v1 h31 (not_lt.mp i1) h0 h))

/-- The map of `collide` from the ship outline to the hull keeps distances when
`cos^2 + sin^2 = 1`. -/
theorem ship_vertex_norm2 (env : Env K) (s : asteroids_model K) (p q : point K) :
    norm2 (ship_vertex env s p - ship_vertex env s q) =
      (env.libm.cos s.ship_yaw * env.libm.cos s.ship_yaw +
        env.libm.sin s.ship_yaw * env.libm.sin s.ship_yaw) * norm2 (p - q) := by
  simp only [ship_vertex, norm2, dot, point.sub_x, point.sub_y, point.add_x, point.add_y]
  ring

/-- The body of `collide` once the two early returns are passed. -/
theorem collide_alive (env : Env K) (s : asteroids_model K) (e : asteroid K) (R : K)
    (hd : s.dead = false) (hh : e.health ≠ 0) (hR : asteroid_sizes e.size = .ok R)
    (b1 b2 b3 : Bool)
    (h1 : intersect env.libm (ship_vertex env s ship_p1) (ship_vertex env s ship_p2) e.pos
      (R - collision_tolerance) = .ok b1)
    (h2 : intersect env.libm (ship_vertex env s ship_p2) (ship_vertex env s ship_p3) e.pos
      (R - collision_tolerance) = .ok b2)
    (h3 : intersect env.libm (ship_vertex env s ship_p3) (ship_vertex env s ship_p1) e.pos
      (R - collision_tolerance) = .ok b3) :
    collide env s e = .ok (b1 || b2 || b3) := by
  simp only [ship_vertex] at h1 h2 h3
  simp only [collide, hd, hh, collide_edge, hR, bind, Except.bind, pure, Except.pure, h1, h2, h3,
    Bool.false_eq_true, if_false]
  cases b1 <;> cases b2 <;> cases b3 <;> rfl

/-- The hull test in exact arithmetic (no rounding in `intersect`, which the
arithmetic of `double` does not offer: there the root `t1` of an edge can
round into `[0, 1]` when no point of the hull is at distance `r`).  With an
exact square root and `cos^2 + sin^2 = 1` at the heading, for
every ship position and every asteroid of size in `{0,1,2}` with radius
`r = asteroid_sizes[size] - 0.003`: when the ship is alive and the health of
the asteroid is not 0, `collide` returns `true` or `false`, and it returns
`true` if and only if some point of the perimeter of the hull triangle
`(s1, s2, s3)` (a point of one of the three edges, at a parameter `t` in
`[0, 1]`) lies at distance exactly `r` from the centre of the asteroid (squared
distance `r^2`); when the ship is dead or the health is 0 it returns `false`. -/
theorem hull_collision_exact (env : Env K) (s : asteroids_model K) (e : asteroid K)
    (hsqrt : ∀ x : K, 0 ≤ x → 0 ≤ env.libm.sqrt x ∧ env.libm.sqrt x * env.libm.sqrt x = x)
    (hrot : env.libm.cos s.ship_yaw * env.libm.cos s.ship_yaw +
      env.libm.sin s.ship_yaw * env.libm.sin s.ship_yaw = 1)
    (hv : valid_size e.size) :
    ∃ R : K, asteroid_sizes e.size = .ok R ∧
      (s.dead = false → e.health ≠ 0 →
        (collide env s e = .ok true ∨ collide env s e = .ok false) ∧
        (collide env s e = .ok true ↔
          ∃ t : K, 0 ≤ t ∧ t ≤ 1 ∧
            (norm2 (ship_vertex env s ship_p2 +
                point.lscale t (ship_vertex env s ship_p1 - ship_vertex env s ship_p2) - e.pos) =
                (R - collision_tolerance) * (R - collision_tolerance) ∨
              norm2 (ship_vertex env s ship_p3 +
                point.lscale t (ship_vertex env s ship_p2 - ship_vertex env s ship_p3) - e.pos) =
                (R - collision_tolerance) * (R - collision_tolerance) ∨
              norm2 (ship_vertex env s ship_p1 +
                point.lscale t (ship_vertex env s ship_p3 - ship_vertex env s ship_p1) - e.pos) =
                (R - collision_tolerance) * (R - collision_tolerance)))) ∧
      ((s.dead = true ∨ e.health = 0) → collide env s e = .ok false) := by
  obtain ⟨R, hR, htol⟩ := asteroid_sizes_ok (K := K) e.size hv
  have hr : 0 < R - collision_tolerance := by linarith
  refine ⟨R, hR, ?_, ?_⟩
  · intro hd hh
    have h12 : 0 < norm2 (ship_vertex env s ship_p1 - ship_vertex env s ship_p2) := by
      rw [ship_vertex_norm2, hrot, one_mul]
      norm_num [norm2, ship_p1, ship_p2]
    have h23 : 0 < norm2 (ship_vertex env s ship_p2 - ship_vertex env s ship_p3) := by
      rw [ship_vertex_norm2, hrot, one_mul]
      norm_num [norm2, ship_p2, ship_p3]
    have h31 : 0 < norm2 (ship_vertex env s ship_p3 - ship_vertex env s ship_p1) := by
      rw [ship_vertex_norm2, hrot, one_mul]
      norm_num [norm2, ship_p3, ship_p1]
    obtain ⟨b1, e1⟩ := intersect_ok env.libm (ship_vertex env s ship_p1)
      (ship_vertex env s ship_p2) e.pos _ hr
    obtain ⟨b2, e2⟩ := intersect_ok env.libm (ship_vertex env s ship_p2)
      (ship_vertex env s ship_p3) e.pos _ hr
    obtain ⟨b3, e3⟩ := intersect_ok env.libm (ship_vertex env s ship_p3)
      (ship_vertex env s ship_p1) e.pos _ hr
    have hc := collide_alive env s e R hd hh hR b1 b2 b3 e1 e2 e3
    constructor
    · rw [hc]
      cases b1 <;> cases b2 <;> cases b3 <;> simp
    · constructor
      · intro h
        rw [hc] at h
        simp only [Except.ok.injEq, Bool.or_eq_true] at h
        rcases h with (h | h) | h
        · rw [h] at e1
          obtain ⟨t, t0, t1, ht⟩ := intersect_sound env.libm hsqrt _ _ _ _ e1
          exact ⟨t, t0, t1, Or.inl ht⟩
        · rw [h] at e2
          obtain ⟨t, t0, t1, ht⟩ := intersect_sound env.libm hsqrt _ _ _ _ e2
          exact ⟨t, t0, t1, Or.inr (Or.inl ht)⟩
        · rw [h] at e3
          obtain ⟨t, t0, t1, ht⟩ := intersect_sound env.libm hsqrt _ _ _ _ e3
          exact ⟨t, t0, t1, Or.inr (Or.inr ht)⟩
      · rintro ⟨t, t0, t1, hon⟩
        have hf := triangle_found env.libm hsqrt _ _ _ e.pos _ t hr h12 h23 h31 t0 t1 hon
        rw [hc]
        rcases hf with h | h | h
        · rw [e1] at h
          simp only [Except.ok.injEq] at h
          rw [h]; simp
        · rw [e2] at h
          simp only [Except.ok.injEq] at h
          rw [h]; simp
        · rw [e3] at h
          simp only [Except.ok.injEq] at h
          rw [h]; simp
  · rintro (h | h)
    · simp [collide, h]
    · simp [collide, h]

end facts

end Sgame

/-! ## Theorems on the snake model -/

namespace Sgame

namespace snake_model

/-- The search of `find_empty_place` from the counter value `i <= 20`: it
returns the first candidate that is not on the snake, or the candidate drawn
when the counter equals 20. -/
theorem find_empty_place_spec (rand : Nat → Nat) (snake : List point) :
    ∀ (fuel i rand_pos : Nat), i ≤ 20 → 20 - i < fuel →
      ∃ k, i + k ≤ 20 ∧
        find_empty_place rand snake fuel i rand_pos =
          .ok (candidate rand (rand_pos + 2 * k), rand_pos + 2 * k + 2) ∧
        (∀ j, j < k → snake_contains snake (candidate rand (rand_pos + 2 * j)) = true) ∧
        (snake_contains snake (candidate rand (rand_pos + 2 * k)) = false ∨ i + k = 20) := by
  intro fuel
  induction fuel with
  | zero => intro i rp _ h; exact absurd h (Nat.not_lt_zero _)
  | succ fuel ih =>
    intro i rp hi hf
    by_cases hc : snake_contains snake (candidate rand rp) = false
    · exact ⟨0, by omega, by simp [find_empty_place, hc], by simp, Or.inl (by simpa using hc)⟩
    · have hc' : snake_contains snake (candidate rand rp) = true := by simpa using hc
      by_cases h20 : i = 20
      · subst h20
        exact ⟨0, by omega, by simp [find_empty_place], by simp, Or.inr rfl⟩
      · have hm : (i + 1) % 2 ^ 64 = i + 1 := Nat.mod_eq_of_lt (by norm_num; omega)
        obtain ⟨k, k1, k2, k3, k4⟩ := ih (i + 1) (rp + 2) (by omega) (by omega)
        refine ⟨k + 1, by omega, ?_, ?_, ?_⟩
        · simp only [find_empty_place, hc', h20, hm, Bool.not_true, beq_iff_eq, Bool.false_or,
            decide_False, Bool.false_eq_true, if_false]
          rw [k2]
          have e : rp + 2 + 2 * k = rp + 2 * (k + 1) := by ring
          rw [e]
        · intro j hj
          cases j with
          | zero => simpa using hc'
          | succ j =>
            have := k3 j (by omega)
            have e : rp + 2 + 2 * j = rp + 2 * (j + 1) := by ring
            rw [e] at this
            exact this
        · have e : rp + 2 + 2 * k = rp + 2 * (k + 1) := by ring
          rw [e] at k4
          rcases k4 with k4 | k4
          · exact Or.inl k4
          · exact Or.inr (by omega)

theorem snake_contains_iff (l : List point) (p : point) : snake_contains l p = true ↔ p ∈ l := by
  induction l with
  | nil => simp [snake_contains]
  | cons c rest ih =>
    obtain ⟨px, py⟩ := p
    obtain ⟨cx, cy⟩ := c
    by_cases h : px = cx ∧ py = cy
    · simp [snake_contains, h]
    · simp only [snake_contains, h, if_false, ih, List.mem_cons, point.mk.injEq, false_or]

theorem same_axis_symm (a b : direction) (h : same_axis a b) : same_axis b a := by
  rcases h with ⟨h1, h2⟩ | ⟨h1, h2⟩
  · exact Or.inl ⟨h2, h1⟩
  · exact Or.inr ⟨h2, h1⟩

theorem same_axis_refl (a : direction) : same_axis a a := by
  cases a <;> simp [same_axis]

theorem same_axis_opposite (a : direction) : same_axis a (opposite a) := by
  cases a <;> simp [same_axis, opposite]

theorem opposite_ne (a : direction) : a ≠ opposite a := by
  cases a <;> simp [opposite]

/-- The two early returns of `enqueue_action` are taken exactly when the new
direction is on the axis of the last queued one. -/
theorem enqueue_action_eq (dir last : direction) (q : List direction)
    (hl : (if q.length < action_queue_max_size then q.getLast? else q[q.length - 2]?) =
      some last) :
    (same_axis dir last → enqueue_action dir q = .ok q) ∧
      (¬ same_axis dir last → enqueue_action dir q =
        .ok (if q.length < action_queue_max_size then q ++ [dir] else q.dropLast ++ [dir])) := by
  simp only [enqueue_action, hl]
  constructor
  · intro h
    rcases h with h | h
    · rw [if_pos h]
    · by_cases h1 : (dir = .up ∨ dir = .down) ∧ (last = .up ∨ last = .down)
      · rw [if_pos h1]
      · rw [if_neg h1, if_pos h]
  · intro h
    have h1 : ¬ ((dir = .up ∨ dir = .down) ∧ (last = .up ∨ last = .down)) :=
      fun k => h (Or.inl k)
    have h2 : ¬ ((dir = .left ∨ dir = .right) ∧ (last = .left ∨ last = .right)) :=
      fun k => h (Or.inr k)
    rw [if_neg h1, if_neg h2]
    split_ifs <;> rfl

theorem enqueue_action_ok (dir : direction) (q : List direction) (h : queue_ok q) :
    ∃ q', enqueue_action dir q = .ok q' ∧ queue_ok q' ∧ q'.head? = q.head? := by
  obtain ⟨h1, h2, h3⟩ := h
  by_cases h4 : q.length < action_queue_max_size
  · have hne : q ≠ [] := by
      intro e; rw [e] at h1; simp at h1
    obtain ⟨last, hlast⟩ : ∃ last, q.getLast? = some last :=
      ⟨q.getLast hne, List.getLast?_eq_getLast _ hne⟩
    obtain ⟨e1, e2⟩ := enqueue_action_eq dir last q (by rw [if_pos h4]; exact hlast)
    by_cases hs : same_axis dir last
    · exact ⟨q, e1 hs, ⟨h1, h2, h3⟩, rfl⟩
    · refine ⟨q ++ [dir], by rw [e2 hs, if_pos h4], ⟨by simp, ?_, ?_⟩, ?_⟩
      · simp only [List.length_append, List.length_singleton]
        simp only [action_queue_max_size] at h4 ⊢
        omega
      · apply List.Chain'.append h3 (List.chain'_singleton _)
        intro x hx y hy
        rw [hlast] at hx
        simp only [Option.mem_def, Option.some.injEq, List.head?_cons] at hx hy
        subst hx; subst hy
        exact fun k => hs (same_axis_symm _ _ k)
      · cases q with
        | nil => exact absurd rfl hne
        | cons a t => rfl
  · have h5 : q.length = 4 := by
      simp only [action_queue_max_size] at h4 h2
      omega
    match q, h5, h3 with
    | [a, b, c, d], _, h3 =>
      simp only [List.chain'_cons, List.chain'_singleton, and_true] at h3
      obtain ⟨e1, e2⟩ := enqueue_action_eq dir c [a, b, c, d] (by simp [action_queue_max_size])
      by_cases hs : same_axis dir c
      · exact ⟨_, e1 hs, ⟨by simp, by simp [action_queue_max_size],
          by simp only [List.chain'_cons, List.chain'_singleton, and_true]; exact h3⟩, rfl⟩
      · refine ⟨[a, b, c, dir], by rw [e2 hs]; simp [action_queue_max_size],
          ⟨by simp, by simp [action_queue_max_size], ?_⟩, rfl⟩
        simp only [List.chain'_cons, List.chain'_singleton, and_true]
        exact ⟨h3.1, h3.2.1, fun k => hs (same_axis_symm _ _ k)⟩

theorem next_direction_ok (q : List direction) (h : queue_ok q) :
    ∃ d q', next_direction q = .ok (d, q') ∧ queue_ok q' ∧ q'.head? = some d ∧
      ∀ f, q.head? = some f → d ≠ opposite f := by
  obtain ⟨h1, h2, h3⟩ := h
  match q, h1, h2, h3 with
  | [a], _, _, h3 =>
    exact ⟨a, [a], rfl, ⟨by simp, by simp [action_queue_max_size], h3⟩, rfl,
      fun f hf => by
        simp only [List.head?_cons, Option.some.injEq] at hf
        subst hf
        exact opposite_ne a⟩
  | a :: b :: t, _, h2, h3 =>
    refine ⟨b, b :: t, by simp [next_direction], ⟨by simp, ?_, ?_⟩, rfl, ?_⟩
    · simp only [List.length_cons] at h2 ⊢
      omega
    · exact (List.chain'_cons.mp h3).2
    · intro f hf
      simp only [List.head?_cons, Option.some.injEq] at hf
      subst hf
      intro e
      have := (List.chain'_cons.mp h3).1
      rw [e] at this
      exact this (same_axis_opposite a)
theorem fatal_iff (next : point) (snake : List point) :
    (next.x < 0 ∨ next.y < 0 ∨ next.x ≥ (field_size_x : Int) ∨ next.y ≥ (field_size_y : Int) ∨
        snake_contains snake next = true) ↔ (¬ in_field next ∨ next ∈ snake) := by
  rw [snake_contains_iff]
  unfold in_field
  constructor
  · rintro (h | h | h | h | h)
    · exact Or.inl (fun k => by omega)
    · exact Or.inl (fun k => by omega)
    · exact Or.inl (fun k => by omega)
    · exact Or.inl (fun k => by omega)
    · exact Or.inr h
  · rintro (h | h)
    · by_contra k
      push_neg at k
      exact h ⟨by omega, by omega, by omega, by omega⟩
    · exact Or.inr (Or.inr (Or.inr (Or.inr h)))

theorem apple_iff (next apple : point) : (next.x = apple.x ∧ next.y = apple.y) ↔ next = apple := by
  obtain ⟨a, b⟩ := next
  obtain ⟨c, d⟩ := apple
  simp

theorem adjacent_step (d : direction) (p : point) : adjacent p (step d p) := by
  cases d <;> simp [adjacent, step]

theorem body_ok_push (snake : List point) (back next : point) (hb : body_ok snake)
    (hlast : snake.getLast? = some back) (hadj : adjacent back next) (hin : in_field next)
    (hnot : next ∉ snake) : body_ok (snake ++ [next]) := by
  obtain ⟨b1, b2, b3, b4⟩ := hb
  refine ⟨by simp; omega, ?_, ?_, ?_⟩
  · intro c hc
    rcases List.mem_append.mp hc with hc | hc
    · exact b2 c hc
    · rw [List.mem_singleton.mp hc]; exact hin
  · rw [List.nodup_append]
    refine ⟨b3, List.nodup_singleton _, ?_⟩
    intro a ha hb
    rw [List.mem_singleton.mp hb] at ha
    exact hnot ha
  · apply List.Chain'.append b4 (List.chain'_singleton _)
    intro x hx y hy
    rw [hlast] at hx
    simp only [Option.mem_def, Option.some.injEq, List.head?_cons] at hx hy
    subst hx; subst hy
    exact hadj

theorem body_ok_tail (l : List point) (hb : body_ok l) (h4 : 4 ≤ l.length) : body_ok l.tail := by
  obtain ⟨b1, b2, b3, b4⟩ := hb
  cases l with
  | nil => simp at h4
  | cons a t =>
    simp only [List.tail_cons]
    simp only [List.length_cons] at h4
    exact ⟨by omega, fun c hc => b2 c (List.mem_cons_of_mem _ hc), (List.nodup_cons.mp b3).2,
      b4.tail⟩
theorem find_empty_place_total (rand : Nat → Nat) (snake : List point) (fuel rand_pos : Nat)
    (hf : 21 ≤ fuel) : ∃ r, find_empty_place rand snake fuel 0 rand_pos = .ok r := by
  obtain ⟨k, -, h, -⟩ := find_empty_place_spec rand snake fuel 0 rand_pos (by omega) (by omega)
  exact ⟨_, h⟩

theorem reset_snake_invariant (rand : Nat → Nat) (fuel : Nat) (s0 s : snake_model)
    (h : reset_snake rand fuel s0 = .ok s) : invariant s := by
  simp only [reset_snake, bind, Except.bind, pure, Except.pure] at h
  split at h
  · simp at h
  · simp only [Except.ok.injEq] at h
    subst h
    refine ⟨⟨by simp, by simp [action_queue_max_size], by simp⟩, ⟨by simp, ?_, by simp, ?_⟩, ?_⟩
    · intro c hc
      simp only [List.mem_cons, List.mem_singleton, List.not_mem_nil, or_false] at hc
      rcases hc with rfl | rfl | rfl <;> simp [in_field, field_size_x, field_size_y]
    · simp [adjacent]
    · intro _
      exact ⟨[⟨0, 0⟩], ⟨1, 0⟩, ⟨2, 0⟩, .right, [], rfl, rfl, by simp [step]⟩

theorem reset_snake_total (rand : Nat → Nat) (fuel : Nat) (s0 : snake_model) (hf : 21 ≤ fuel) :
    ∃ s, reset_snake rand fuel s0 = .ok s := by
  obtain ⟨r, hr⟩ := find_empty_place_total rand [⟨0, 0⟩, ⟨1, 0⟩, ⟨2, 0⟩] fuel s0.rand_pos hf
  simp only [reset_snake, bind, Except.bind, pure, Except.pure, hr]
  exact ⟨_, rfl⟩

theorem move_direction_none (frame_time : Nat) (s : snake_model)
    (h : ¬ (s.started = true ∧ ¬ s.snake_is_dead = true) ∨
      ¬ to_int32 (s.time_till_next_turn - (frame_time : Int)) < 0) :
    move_direction frame_time s = none := by
  unfold move_direction
  rw [if_neg]
  rintro ⟨a, b, c⟩
  rcases h with h | h
  · exact h ⟨a, b⟩
  · exact h c

/-- One tick on a state that satisfies the invariant: the invariant holds
afterwards; a tick that does not move changes neither the body nor the queue;
a tick that moves in direction `d` leaves `d` at the front of the queue, `d` is
not opposite to the previous front, and the body changes as the move says. -/
theorem draw_spec (rand : Nat → Nat) (fuel frame_time : Nat) (s s' : snake_model)
    (hinv : invariant s) (h : draw rand fuel frame_time s = .ok s') :
    invariant s' ∧
      (move_direction frame_time s = none →
        s'.snake = s.snake ∧ s'.snake_is_dead = s.snake_is_dead ∧
          s'.queued_actions = s.queued_actions) ∧
      (∀ d, move_direction frame_time s = some d →
        s'.queued_actions.head? = some d ∧
        (∀ f, s.queued_actions.head? = some f → d ≠ opposite f) ∧
        ∃ head, s.snake.getLast? = some head ∧
          ((¬ in_field (step d head) ∨ step d head ∈ s.snake) →
            s'.snake = s.snake ∧ s'.snake_is_dead = true) ∧
          (in_field (step d head) → step d head ∉ s.snake →
            s'.snake_is_dead = false ∧
            (step d head = s.apple → s'.snake = s.snake ++ [step d head]) ∧
            (step d head ≠ s.apple → s'.snake = s.snake.tail ++ [step d head] ∧
              s'.snake.length = s.snake.length))) := by
  obtain ⟨hq, hb, hh⟩ := hinv
  unfold draw at h
  by_cases c1 : s.started = true ∧ ¬ s.snake_is_dead = true
  · rw [if_pos c1] at h
    by_cases c2 : to_int32 (s.time_till_next_turn - (frame_time : Int)) < 0
    · have hd : s.snake_is_dead = false := by simpa using c1.2
      obtain ⟨pre, neck, head, f, rest, e1, e2, e3⟩ := hh hd
      have hlast : s.snake.getLast? = some head := by rw [e1]; simp
      obtain ⟨d, q, n1, n2, n3, n4⟩ := next_direction_ok _ hq
      have hmove : move_direction frame_time s = some d := by
        unfold move_direction
        rw [if_pos ⟨c1.1, c1.2, c2⟩, n1]
      simp only [c2, if_true, hlast, n1, bind, Except.bind, pure, Except.pure] at h
      obtain ⟨qt, hqt⟩ : ∃ qt, q = d :: qt := by
        cases q with
        | nil => simp at n3
        | cons a t =>
          simp only [List.head?_cons, Option.some.injEq] at n3
          exact ⟨t, by rw [n3]⟩
      have hpush : in_field (step d head) → step d head ∉ s.snake →
          body_ok (s.snake ++ [step d head]) := fun k1 k2 =>
        body_ok_push s.snake head (step d head) hb hlast (adjacent_step d head) k1 k2
      by_cases hfat0 : (step d head).x < 0 ∨ (step d head).y < 0 ∨
          (step d head).x ≥ (field_size_x : Int) ∨ (step d head).y ≥ (field_size_y : Int) ∨
          snake_contains s.snake (step d head) = true
      · have hfat := (fatal_iff _ _).mp hfat0
        rw [if_pos hfat0] at h
        simp only [Except.ok.injEq] at h
        subst h
        refine ⟨⟨n2, hb, fun k => by simp at k⟩,
          fun k => by rw [hmove] at k; simp at k, ?_⟩
        intro d' hd'
        rw [hmove] at hd'
        simp only [Option.some.injEq] at hd'
        subst hd'
        exact ⟨n3, n4, head, hlast, fun _ => ⟨rfl, rfl⟩,
          fun k1 k2 => absurd hfat (by push_neg; exact ⟨k1, k2⟩)⟩
      · have hfat : ¬ (¬ in_field (step d head) ∨ step d head ∈ s.snake) :=
          fun k => hfat0 ((fatal_iff _ _).mpr k)
        rw [if_neg hfat0] at h
        push_neg at hfat
        obtain ⟨k1, k2⟩ := hfat
        by_cases happle0 : (step d head).x = s.apple.x ∧ (step d head).y = s.apple.y
        · have happle := (apple_iff _ _).mp happle0
          rw [if_pos happle0] at h
          cases hfe : find_empty_place rand (s.snake ++ [step d head]) fuel 0 s.rand_pos with
          | error err => rw [hfe] at h; simp at h
          | ok v =>
            rw [hfe] at h
            simp only [Except.ok.injEq] at h
            subst h
            refine ⟨⟨n2, hpush k1 k2, fun _ =>
                ⟨pre ++ [neck], head, step d head, d, qt, by rw [e1]; simp, hqt, rfl⟩⟩,
              fun k => by rw [hmove] at k; simp at k, ?_⟩
            intro d' hd'
            rw [hmove] at hd'
            simp only [Option.some.injEq] at hd'
            subst hd'
            exact ⟨n3, n4, head, hlast,
              fun k => by
                rcases k with k | k
                · exact absurd k1 k
                · exact absurd k k2,
              fun _ _ => ⟨hd, fun _ => rfl, fun k => absurd happle k⟩⟩
        · have happle : step d head ≠ s.apple := fun k => happle0 ((apple_iff _ _).mpr k)
          rw [if_neg happle0] at h
          simp only [Except.ok.injEq] at h
          subst h
          have hlen : 3 ≤ s.snake.length := hb.1
          obtain ⟨p0, pre', hpre⟩ : ∃ p0 pre', pre = p0 :: pre' := by
            cases pre with
            | nil => rw [e1] at hlen; simp at hlen
            | cons a t => exact ⟨a, t, rfl⟩
          have htail : (s.snake ++ [step d head]).tail = s.snake.tail ++ [step d head] := by
            rw [e1, hpre]; rfl
          have hlen2 : (s.snake ++ [step d head]).tail.length = s.snake.length := by simp
          refine ⟨⟨n2, body_ok_tail _ (hpush k1 k2) (by simp; omega), fun _ =>
              ⟨pre' ++ [neck], head, step d head, d, qt, by
                show (s.snake ++ [step d head]).tail = _
                rw [e1, hpre]; simp, hqt, rfl⟩⟩,
            fun k => by rw [hmove] at k; simp at k, ?_⟩
          intro d' hd'
          rw [hmove] at hd'
          simp only [Option.some.injEq] at hd'
          subst hd'
          exact ⟨n3, n4, head, hlast,
            fun k => by
              rcases k with k | k
              · exact absurd k1 k
              · exact absurd k k2,
            fun _ _ => ⟨hd, fun k => absurd k happle, fun _ => ⟨htail, hlen2⟩⟩⟩
    · simp only [c2, if_false, Except.ok.injEq] at h
      subst h
      exact ⟨⟨hq, hb, hh⟩, fun _ => ⟨rfl, rfl, rfl⟩,
        fun d hd => by rw [move_direction_none frame_time s (Or.inr c2)] at hd; simp at hd⟩
  · rw [if_neg c1] at h
    simp only [Except.ok.injEq] at h
    subst h
    exact ⟨⟨hq, hb, hh⟩, fun _ => ⟨rfl, rfl, rfl⟩,
      fun d hd => by rw [move_direction_none frame_time s (Or.inl c1)] at hd; simp at hd⟩

theorem draw_total (rand : Nat → Nat) (fuel frame_time : Nat) (s : snake_model)
    (hinv : invariant s) (hf : 21 ≤ fuel) : ∃ s', draw rand fuel frame_time s = .ok s' := by
  obtain ⟨hq, hb, hh⟩ := hinv
  unfold draw
  by_cases c1 : s.started = true ∧ ¬ s.snake_is_dead = true
  · rw [if_pos c1]
    by_cases c2 : to_int32 (s.time_till_next_turn - (frame_time : Int)) < 0
    · have hd : s.snake_is_dead = false := by simpa using c1.2
      obtain ⟨pre, neck, head, f, rest, e1, e2, e3⟩ := hh hd
      have hlast : s.snake.getLast? = some head := by rw [e1]; simp
      obtain ⟨d, q, n1, -⟩ := next_direction_ok _ hq
      obtain ⟨r, hr⟩ := find_empty_place_total rand (s.snake ++ [step d head]) fuel s.rand_pos hf
      simp only [c2, if_true, hlast, n1, bind, Except.bind, pure, Except.pure, hr]
      split_ifs <;> exact ⟨_, rfl⟩
    · simp only [c2, if_false]
      exact ⟨_, rfl⟩
  · rw [if_neg c1]
    exact ⟨_, rfl⟩

theorem start_and_enqueue_spec (dir : direction) (s : snake_model) (hinv : invariant s) :
    ∃ s', start_and_enqueue dir s = .ok s' ∧ invariant s' ∧ s'.snake = s.snake ∧
      s'.snake_is_dead = s.snake_is_dead ∧ s'.queued_actions.head? = s.queued_actions.head? := by
  obtain ⟨hq, hb, hh⟩ := hinv
  obtain ⟨q', e1, e2, e3⟩ := enqueue_action_ok dir s.queued_actions hq
  refine ⟨{ s with started := true, queued_actions := q' },
    by simp [start_and_enqueue, e1, bind, Except.bind, pure, Except.pure],
    ⟨e2, hb, ?_⟩, rfl, rfl, e3⟩
  intro hd
  obtain ⟨pre, neck, head, f, rest, k1, k2, k3⟩ := hh hd
  rw [k2] at e3
  obtain ⟨qt, hqt⟩ : ∃ qt, q' = f :: qt := by
    cases q' with
    | nil => simp at e3
    | cons a t =>
      simp only [List.head?_cons, Option.some.injEq] at e3
      exact ⟨t, by rw [e3]⟩
  exact ⟨pre, neck, head, f, qt, k1, hqt, k3⟩

/-- One key-down event on a state that satisfies the invariant: it returns when
the fuel covers `find_empty_place`, the invariant holds afterwards, and an
event other than SPACE changes neither the body nor the front of the queue. -/
theorem key_down_spec (rand : Nat → Nat) (fuel : Nat) (p : key_down_params) (s : snake_model)
    (c : context) (hinv : invariant s) :
    (21 ≤ fuel → ∃ r, key_down rand fuel p s c = .ok r) ∧
      ∀ s' c', key_down rand fuel p s c = .ok (s', c') →
        invariant s' ∧
        (p.key ≠ .SDLK_SPACE → s'.snake = s.snake ∧ s'.snake_is_dead = s.snake_is_dead ∧
          s'.queued_actions.head? = s.queued_actions.head?) := by
  obtain ⟨k, m⟩ := p
  have hdir : ∀ dir : direction,
      (∃ r, (do let s1 ← start_and_enqueue dir s; pure (s1, c) :
        Except Fault (snake_model × context)) = .ok r) ∧
      ∀ s' c', (do let s1 ← start_and_enqueue dir s; pure (s1, c) :
        Except Fault (snake_model × context)) = .ok (s', c') →
        invariant s' ∧ s'.snake = s.snake ∧ s'.snake_is_dead = s.snake_is_dead ∧
          s'.queued_actions.head? = s.queued_actions.head? := by
    intro dir
    obtain ⟨s1, e1, e2, e3, e4, e5⟩ := start_and_enqueue_spec dir s hinv
    simp only [e1, bind, Except.bind, pure, Except.pure]
    refine ⟨⟨_, rfl⟩, ?_⟩
    intro s' c' h
    simp only [Except.ok.injEq, Prod.mk.injEq] at h
    obtain ⟨h1, -⟩ := h
    subst h1
    exact ⟨e2, e3, e4, e5⟩
  have hsame : ∀ c0 : context,
      (∃ r, (Except.ok (s, c0) : Except Fault (snake_model × context)) = .ok r) ∧
      ∀ s' c', (Except.ok (s, c0) : Except Fault (snake_model × context)) = .ok (s', c') →
        invariant s' ∧ s'.snake = s.snake ∧ s'.snake_is_dead = s.snake_is_dead ∧
          s'.queued_actions.head? = s.queued_actions.head? := by
    intro c0
    refine ⟨⟨_, rfl⟩, ?_⟩
    intro s' c' h
    simp only [Except.ok.injEq, Prod.mk.injEq] at h
    obtain ⟨h1, -⟩ := h
    subst h1
    exact ⟨hinv, rfl, rfl, rfl⟩
  cases k
  case SDLK_SPACE =>
    constructor
    · intro hf
      obtain ⟨s1, h1⟩ := reset_snake_total rand fuel s hf
      simp only [key_down, h1, bind, Except.bind, pure, Except.pure]
      exact ⟨_, rfl⟩
    · intro s' c' h
      simp only [key_down, bind, Except.bind, pure, Except.pure] at h
      cases hr : reset_snake rand fuel s with
      | error err => rw [hr] at h; simp at h
      | ok s1 =>
        rw [hr] at h
        simp only [Except.ok.injEq, Prod.mk.injEq] at h
        obtain ⟨h1, -⟩ := h
        subst h1
        exact ⟨reset_snake_invariant rand fuel s s1 hr, fun k => absurd rfl k⟩
  all_goals first
    | exact ⟨fun _ => (hdir .up).1, fun s' c' h => ⟨((hdir .up).2 s' c' h).1,
        fun _ => ((hdir .up).2 s' c' h).2⟩⟩
    | exact ⟨fun _ => (hdir .left).1, fun s' c' h => ⟨((hdir .left).2 s' c' h).1,
        fun _ => ((hdir .left).2 s' c' h).2⟩⟩
    | exact ⟨fun _ => (hdir .down).1, fun s' c' h => ⟨((hdir .down).2 s' c' h).1,
        fun _ => ((hdir .down).2 s' c' h).2⟩⟩
    | exact ⟨fun _ => (hdir .right).1, fun s' c' h => ⟨((hdir .right).2 s' c' h).1,
        fun _ => ((hdir .right).2 s' c' h).2⟩⟩
    | exact ⟨fun _ => (hsame _).1, fun s' c' h => ⟨((hsame _).2 s' c' h).1,
        fun _ => ((hsame _).2 s' c' h).2⟩⟩

theorem reachable_invariant (rand : Nat → Nat) (s : snake_model) (h : reachable rand s) :
    invariant s := by
  induction h with
  | reset fuel s0 s h => exact reset_snake_invariant rand fuel s0 s h
  | tick fuel frame_time s s1 _ h ih => exact (draw_spec rand fuel frame_time s s1 ih h).1
  | key fuel p c c1 s s1 _ h ih => exact ((key_down_spec rand fuel p s c ih).2 s1 c1 h).1

theorem step_ne_back (d f : direction) (neck : point) (h : d ≠ opposite f) :
    step d (step f neck) ≠ neck := by
  obtain ⟨x, y⟩ := neck
  cases d <;> cases f <;> simp [step, opposite] at h ⊢ <;> omega

theorem sample_reset : reset_snake sample_rand_7 21 sample_uninit = .ok sample_start := rfl

theorem sample_reachable : reachable sample_rand_7 sample_start :=
  reachable.reset 21 sample_uninit sample_start sample_reset

theorem sample_key_down_started :
    key_down sample_rand_7 21 ⟨.SDLK_DOWN, 0⟩ sample_start ⟨false, false, 720, 720⟩ =
      .ok (sample_started, ⟨false, false, 720, 720⟩) := rfl

theorem sample_draw_down : draw sample_rand_7 21 200 sample_started = .ok sample_down := rfl

theorem sample_started_reachable : reachable sample_rand_7 sample_started :=
  reachable.key 21 ⟨.SDLK_DOWN, 0⟩ ⟨false, false, 720, 720⟩ ⟨false, false, 720, 720⟩
    sample_start sample_started sample_reachable sample_key_down_started

theorem sample_down_reachable : reachable sample_rand_7 sample_down :=
  reachable.tick 21 200 sample_started sample_down sample_started_reachable sample_draw_down

/-- The moves of a run without a reset: no move is opposite to the move before
it, and the first move is not opposite to the front of the queue at the start. -/
theorem run_moves (rand : Nat → Nat) (fuel : Nat) :
    ∀ (evs : List event) (s : snake_model) (c : context) (s' : snake_model) (c' : context)
      (ms : List direction), invariant s →
      run rand fuel evs (s, c) = .ok (s', c', ms) →
      (∀ p, event.key p ∈ evs → p.key ≠ .SDLK_SPACE) →
      ms.Chain' (fun a b => b ≠ opposite a) ∧
        ∀ f d, s.queued_actions.head? = some f → ms.head? = some d → d ≠ opposite f := by
  intro evs
  induction evs with
  | nil =>
    intro s c s' c' ms _ h _
    simp only [run, Except.ok.injEq, Prod.mk.injEq] at h
    obtain ⟨-, -, rfl⟩ := h
    exact ⟨List.chain'_nil, fun f d _ k => by simp at k⟩
  | cons ev evs ih =>
    intro s c s' c' ms hinv h hk
    have hk' : ∀ p, event.key p ∈ evs → p.key ≠ .SDLK_SPACE :=
      fun p hp => hk p (List.mem_cons_of_mem _ hp)
    cases ev with
    | tick ft =>
      simp only [run, bind, Except.bind, pure, Except.pure] at h
      cases hd : draw rand fuel ft s with
      | error err => rw [hd] at h; simp at h
      | ok s1 =>
        rw [hd] at h
        simp only at h
        cases hr : run rand fuel evs (s1, c) with
        | error err => rw [hr] at h; simp at h
        | ok r =>
          obtain ⟨s2, c2, ms2⟩ := r
          rw [hr] at h
          simp only [Except.ok.injEq, Prod.mk.injEq] at h
          obtain ⟨-, -, rfl⟩ := h
          obtain ⟨hinv1, h1, h2⟩ := draw_spec rand fuel ft s s1 hinv hd
          obtain ⟨ih1, ih2⟩ := ih s1 c s2 c2 ms2 hinv1 hr hk'
          cases hm : move_direction ft s with
          | none =>
            have hq := (h1 hm).2.2
            simp only [Option.toList, List.nil_append]
            exact ⟨ih1, fun f d hf hd' => ih2 f d (by rw [hq]; exact hf) hd'⟩
          | some d =>
            obtain ⟨a1, a2, -⟩ := h2 d hm
            simp only [Option.toList, List.singleton_append]
            refine ⟨?_, ?_⟩
            · rw [List.chain'_cons']
              exact ⟨fun y hy => ih2 d y a1 (by simpa using hy), ih1⟩
            · intro f d' hf hd'
              simp only [List.head?_cons, Option.some.injEq] at hd'
              subst hd'
              exact a2 f hf
    | key p =>
      simp only [run, bind, Except.bind] at h
      cases hd : key_down rand fuel p s c with
      | error err => rw [hd] at h; simp at h
      | ok r =>
        obtain ⟨s1, c1⟩ := r
        rw [hd] at h
        simp only at h
        obtain ⟨hinv1, hfront⟩ := (key_down_spec rand fuel p s c hinv).2 s1 c1 hd
        have hq := (hfront (hk p (List.mem_cons_self _ _))).2.2
        obtain ⟨ih1, ih2⟩ := ih s1 c1 s' c' ms hinv1 h hk'
        exact ⟨ih1, fun f d hf hd' => ih2 f d (by rw [hq]; exact hf) hd'⟩

/-- C24 (as amended): in every state reachable from `reset_snake` by ticks and
key-down events, the queue has between 1 and 4 entries and adjacent entries lie
on different axes.  A tick that does not move the snake leaves the queue alone;
a tick that moves it in direction `d` leaves `d` at the front of the queue, `d`
is not opposite to the front before the tick (the direction of the previous
move, or the initial heading), and the new head is not the cell behind the old
head; a key-down event other than SPACE keeps the front of the queue.  So in
every run of ticks and key-down events from such a state in which SPACE (the
reset) is not pressed, no move is opposite to the move before it, and the first
move is not opposite to the front of the queue at the start.  Every tick and
every key-down event on such a state returns when the fuel covers the 21 rounds
of `find_empty_place`. -/
theorem queue_invariant (rand : Nat → Nat) (s : snake_model) (h : reachable rand s) :
    (1 ≤ s.queued_actions.length ∧ s.queued_actions.length ≤ 4 ∧
        s.queued_actions.Chain' (fun a b => ¬ same_axis a b)) ∧
      (∀ (fuel frame_time : Nat) (s' : snake_model), draw rand fuel frame_time s = .ok s' →
        (move_direction frame_time s = none → s'.queued_actions = s.queued_actions) ∧
        (∀ d, move_direction frame_time s = some d →
          s'.queued_actions.head? = some d ∧
          (∀ f, s.queued_actions.head? = some f → d ≠ opposite f) ∧
          (∀ (pre : List point) (neck head : point), s.snake = pre ++ [neck, head] →
            step d head ≠ neck))) ∧
      (∀ (fuel : Nat) (p : key_down_params) (c c' : context) (s' : snake_model),
        p.key ≠ .SDLK_SPACE → key_down rand fuel p s c = .ok (s', c') →
          s'.queued_actions.head? = s.queued_actions.head?) ∧
      (∀ (fuel : Nat) (evs : List event) (c c' : context) (s' : snake_model)
        (ms : List direction),
        run rand fuel evs (s, c) = .ok (s', c', ms) →
        (∀ p, event.key p ∈ evs → p.key ≠ .SDLK_SPACE) →
        ms.Chain' (fun a b => b ≠ opposite a) ∧
          ∀ f d, s.queued_actions.head? = some f → ms.head? = some d → d ≠ opposite f) ∧
      (∀ (fuel frame_time : Nat), 21 ≤ fuel → ∃ s', draw rand fuel frame_time s = .ok s') ∧
      (∀ (fuel : Nat) (p : key_down_params) (c : context), 21 ≤ fuel →
        ∃ r, key_down rand fuel p s c = .ok r) := by
  have hinv := reachable_invariant rand s h
  refine ⟨hinv.1, ?_, ?_, ?_, ?_, ?_⟩
  · intro fuel frame_time s' hd
    obtain ⟨-, h1, h2⟩ := draw_spec rand fuel frame_time s s' hinv hd
    refine ⟨fun k => (h1 k).2.2, fun d hm => ?_⟩
    obtain ⟨a1, a2, head, a3, -⟩ := h2 d hm
    refine ⟨a1, a2, ?_⟩
    intro pre neck head' e
    have hdead : s.snake_is_dead = false := by
      unfold move_direction at hm
      split_ifs at hm with k
      simpa using k.2.1
    obtain ⟨pre2, neck2, head2, f, rest, e1, e2, e3⟩ := hinv.2.2 hdead
    have e4 : pre ++ [neck, head'] = pre2 ++ [neck2, head2] := by rw [← e, e1]
    have e5 : (pre ++ [neck]) ++ [head'] = (pre2 ++ [neck2]) ++ [head2] := by simpa using e4
    obtain ⟨e6, e7⟩ := List.append_inj' e5 rfl
    obtain ⟨-, e8⟩ := List.append_inj' e6 rfl
    simp only [List.cons.injEq, and_true] at e7 e8
    subst e7; subst e8
    rw [e3]
    exact step_ne_back d f neck (a2 f (by rw [e2]; rfl))
  · intro fuel p c c' s' hk hd
    exact (((key_down_spec rand fuel p s c hinv).2 s' c' hd).2 hk).2.2
  · intro fuel evs c c' s' ms hr hk
    exact run_moves rand fuel evs s c s' c' ms hinv hr hk
  · intro fuel frame_time hf
    exact draw_total rand fuel frame_time s hinv hf
  · intro fuel p c hf
    exact (key_down_spec rand fuel p s c hinv).1 hf

theorem sample_run_left :
    run sample_rand_7 21 [.key ⟨.SDLK_LEFT, 0⟩, .tick 200]
        (sample_down, ⟨false, false, 720, 720⟩) =
      .ok ({ sample_down with
              time_till_next_turn := -180
              snake := [⟨2, 0⟩, ⟨2, 1⟩, ⟨1, 1⟩]
              queued_actions := [.left] }, ⟨false, false, 720, 720⟩, [.left]) := rfl

/-- The theorem `queue_invariant` on the state `sample_down`, reached from the
reset by the DOWN key and a tick that moves the snake down: the LEFT key is
queued behind the heading and the next tick moves the snake left, which is not
opposite to the front of the queue, `down`. -/
theorem queue_invariant_witness :
    reachable sample_rand_7 sample_down ∧
      (1 ≤ sample_down.queued_actions.length ∧ sample_down.queued_actions.length ≤ 4 ∧
        sample_down.queued_actions.Chain' (fun a b => ¬ same_axis a b)) ∧
      run sample_rand_7 21 [.key ⟨.SDLK_LEFT, 0⟩, .tick 200]
          (sample_down, ⟨false, false, 720, 720⟩) =
        .ok ({ sample_down with
                time_till_next_turn := -180
                snake := [⟨2, 0⟩, ⟨2, 1⟩, ⟨1, 1⟩]
                queued_actions := [.left] }, ⟨false, false, 720, 720⟩, [.left]) ∧
      ([direction.left].Chain' (fun a b => b ≠ opposite a) ∧
        ∀ f d, sample_down.queued_actions.head? = some f →
          [direction.left].head? = some d → d ≠ opposite f) :=
  ⟨sample_down_reachable, (queue_invariant sample_rand_7 sample_down sample_down_reachable).1,
    sample_run_left,
    (queue_invariant sample_rand_7 sample_down sample_down_reachable).2.2.2.1 21
      [.key ⟨.SDLK_LEFT, 0⟩, .tick 200] ⟨false, false, 720, 720⟩ ⟨false, false, 720, 720⟩ _
      [.left] sample_run_left (by
        intro p hp
        simp only [List.mem_cons, event.key.injEq, List.mem_singleton, reduceCtorEq,
          List.not_mem_nil, or_false] at hp
        subst hp
        decide)⟩

/-- C24 (counterexample to the claim as stated): from the state that
`reset_snake` builds, the keys DOWN and LEFT, each followed by a tick of
200 ms, move the snake down and then left; SPACE then resets the game, the
RIGHT key starts it again and the next tick moves the snake right: the moves
of the run are down, left, right, and right is opposite to left. -/
theorem reset_between_moves_allows_opposite :
    run sample_rand_7 21
        [.key ⟨.SDLK_DOWN, 0⟩, .tick 200, .key ⟨.SDLK_LEFT, 0⟩, .tick 200,
          .key ⟨.SDLK_SPACE, 0⟩, .key ⟨.SDLK_RIGHT, 0⟩, .tick 200]
        (sample_start, ⟨false, false, 720, 720⟩) =
      .ok ({ need_redraw := false
             started := true
             time_till_next_turn := -90
             snake := [⟨1, 0⟩, ⟨2, 0⟩, ⟨3, 0⟩]
             snake_is_dead := false
             queued_actions := [.right]
             apple := ⟨7, 7⟩
             rand_pos := 4 }, ⟨false, false, 720, 720⟩, [.down, .left, .right]) ∧
      reachable sample_rand_7 sample_start ∧
      direction.right = opposite direction.left :=
  ⟨rfl, sample_reachable, rfl⟩

/-- C25: in every state reachable from `reset_snake` by ticks and key-down
events, the snake has at least 3 cells, every cell is inside the field
(`0 <= x < 20`, `0 <= y < 15`), the cells are pairwise distinct and consecutive
cells are orthogonally adjacent.  A tick moves the snake exactly when the game
is started, the snake is alive and the turn timer falls below zero; the
direction `d` of the move is the second queued action when there are at least
two and the first one otherwise, and the next cell `step d head` is the cell
next to the head in that direction (`up` is `y - 1`, `left` is `x - 1`, `down`
is `y + 1`, `right` is `x + 1`).  A tick that does not move leaves the body and
the dead flag alone.  A tick that moves from the head `head`: when the next
cell is outside the field or is a cell of the current body (the tail included),
the body is unchanged and the snake is dead; otherwise the snake stays alive
and the new head is appended, the body growing by exactly one cell when the
next cell is the apple and keeping its length (the tail cell is dropped) when
it is not.  Every tick on such a state returns when the fuel covers the 21
rounds of `find_empty_place`. -/
theorem body_invariant (rand : Nat → Nat) (s : snake_model) (h : reachable rand s) :
    (3 ≤ s.snake.length ∧ (∀ c ∈ s.snake, 0 ≤ c.x ∧ c.x < 20 ∧ 0 ≤ c.y ∧ c.y < 15) ∧
        s.snake.Nodup ∧ s.snake.Chain' adjacent) ∧
      (∀ p : point, step .up p = ⟨p.x, p.y - 1⟩ ∧ step .left p = ⟨p.x - 1, p.y⟩ ∧
        step .down p = ⟨p.x, p.y + 1⟩ ∧ step .right p = ⟨p.x + 1, p.y⟩) ∧
      (∀ frame_time : Nat,
        (move_direction frame_time s ≠ none ↔
          (s.started = true ∧ s.snake_is_dead = false ∧
            to_int32 (s.time_till_next_turn - (frame_time : Int)) < 0)) ∧
        (∀ d, move_direction frame_time s = some d →
          (1 < s.queued_actions.length → s.queued_actions[1]? = some d) ∧
          (¬ 1 < s.queued_actions.length → s.queued_actions.head? = some d))) ∧
      (∀ (fuel frame_time : Nat) (s' : snake_model), draw rand fuel frame_time s = .ok s' →
        (move_direction frame_time s = none →
          s'.snake = s.snake ∧ s'.snake_is_dead = s.snake_is_dead) ∧
        (∀ d, move_direction frame_time s = some d →
          ∃ head, s.snake.getLast? = some head ∧
            ((¬ in_field (step d head) ∨ step d head ∈ s.snake) →
              s'.snake = s.snake ∧ s'.snake_is_dead = true) ∧
            (s.snake.head? = some (step d head) →
              s'.snake = s.snake ∧ s'.snake_is_dead = true) ∧
            (in_field (step d head) → step d head ∉ s.snake →
              s'.snake_is_dead = false ∧
              (step d head = s.apple →
                s'.snake = s.snake ++ [step d head] ∧
                  s'.snake.length = s.snake.length + 1) ∧
              (step d head ≠ s.apple →
                s'.snake = s.snake.tail ++ [step d head] ∧
                  s'.snake.length = s.snake.length)))) ∧
      (∀ (fuel frame_time : Nat), 21 ≤ fuel → ∃ s', draw rand fuel frame_time s = .ok s') := by
  have hinv := reachable_invariant rand s h
  refine ⟨⟨hinv.2.1.1, hinv.2.1.2.1, hinv.2.1.2.2.1, hinv.2.1.2.2.2⟩,
    fun p => ⟨rfl, rfl, rfl, rfl⟩, ?_, ?_, ?_⟩
  · intro frame_time
    obtain ⟨q1, -, -⟩ := hinv.1
    constructor
    · unfold move_direction
      constructor
      · intro hm
        split_ifs at hm with k
        · exact ⟨k.1, by simpa using k.2.1, k.2.2⟩
        · exact absurd rfl hm
      · rintro ⟨k1, k2, k3⟩
        have k : s.started = true ∧ ¬ s.snake_is_dead = true ∧
            to_int32 (s.time_till_next_turn - (frame_time : Int)) < 0 :=
          ⟨k1, by simp [k2], k3⟩
        rw [if_pos k]
        unfold next_direction
        split_ifs with hl
        · cases hq : s.queued_actions[1]? with
          | none =>
            rw [List.getElem?_eq_none_iff] at hq
            omega
          | some d => simp
        · cases hq : s.queued_actions.head? with
          | none =>
            rw [List.head?_eq_none_iff] at hq
            rw [hq] at q1
            simp at q1
          | some d => simp
    · intro d hm
      unfold move_direction at hm
      split_ifs at hm with k
      unfold next_direction at hm
      split_ifs at hm with hl
      · refine ⟨fun _ => ?_, fun k2 => absurd hl k2⟩
        cases hq : s.queued_actions[1]? with
        | none => rw [hq] at hm; simp at hm
        | some d' => rw [hq] at hm; simp at hm; rw [hm]
      · refine ⟨fun k2 => absurd k2 hl, fun _ => ?_⟩
        cases hq : s.queued_actions.head? with
        | none => rw [hq] at hm; simp at hm
        | some d' => rw [hq] at hm; simp at hm; rw [hm]
  · intro fuel frame_time s' hd
    obtain ⟨-, h1, h2⟩ := draw_spec rand fuel frame_time s s' hinv hd
    refine ⟨fun k => ⟨(h1 k).1, (h1 k).2.1⟩, fun d hm => ?_⟩
    obtain ⟨-, -, head, a3, a4, a5⟩ := h2 d hm
    refine ⟨head, a3, a4, ?_, ?_⟩
    · intro k
      exact a4 (Or.inr (List.mem_of_mem_head? k))
    · intro k1 k2
      obtain ⟨b1, b2, b3⟩ := a5 k1 k2
      exact ⟨b1, fun k => ⟨b2 k, by rw [b2 k]; simp⟩, b3⟩
  · intro fuel frame_time hf
    exact draw_total rand fuel frame_time s hinv hf

/-- The theorem `body_invariant` on the state `sample_started`, reached from the
reset by the DOWN key: the tick of 200 ms moves the snake down from the head
`(2, 0)` to the free cell `(2, 1)`, the new head is appended and the tail cell
`(0, 0)` is dropped. -/
theorem body_invariant_witness :
    reachable sample_rand_7 sample_started ∧
      (3 ≤ sample_started.snake.length ∧
        (∀ c ∈ sample_started.snake, 0 ≤ c.x ∧ c.x < 20 ∧ 0 ≤ c.y ∧ c.y < 15) ∧
        sample_started.snake.Nodup ∧ sample_started.snake.Chain' adjacent) ∧
      draw sample_rand_7 21 200 sample_started = .ok sample_down ∧
      move_direction 200 sample_started = some .down ∧
      sample_started.snake.getLast? = some ⟨2, 0⟩ ∧
      step .down ⟨2, 0⟩ = ⟨2, 1⟩ ∧
      sample_down.snake_is_dead = false ∧
      sample_down.snake = sample_started.snake.tail ++ [step .down ⟨2, 0⟩] ∧
      sample_down.snake.length = sample_started.snake.length := by
  have hb := body_invariant sample_rand_7 sample_started sample_started_reachable
  obtain ⟨head, k1, -, -, k4⟩ := (hb.2.2.2.1 21 200 sample_down sample_draw_down).2 .down rfl
  have e : head = ⟨2, 0⟩ := by
    have : sample_started.snake.getLast? = some (⟨2, 0⟩ : point) := rfl
    rw [this] at k1
    exact (Option.some.inj k1).symm
  subst e
  obtain ⟨m1, -, m3⟩ := k4 (by simp [in_field, step, field_size_x, field_size_y]) (by decide)
  obtain ⟨m4, m5⟩ := m3 (by decide)
  exact ⟨sample_started_reachable, hb.1, sample_draw_down, rfl, rfl, rfl, m1, m4, m5⟩

end snake_model

end Sgame
